import Mathlib

/-!
Verification of the asset-mirroring pipeline in download_and_rewrite.py.

This file gives a shallow embedding of the program's pure core:
  - the URL filter (is_blocked),
  - the path mapper (url_to_local_path), including the pieces of the Python
    standard library it relies on (urlparse, unquote, os.path.splitext,
    pathlib.PurePosixPath) and SHA-1 for the query fingerprint,
  - URL discovery (collect_urls_from_manifest),
  - manifest rewriting (rewrite_manifest), and
  - the per-URL download loop (download_one).

JSON manifests are modelled by a mutually inductive tree (objects as
association lists, arrays as lists); machine strings are modelled by
String / List Char; fallible operations (Python TypeError on iterating a
non-iterable) return Option.  Python semantics that the code relies on
(truthiness, str.split, dict iteration order, `x is None` checks) are
modelled explicitly where the code exercises them.
-/

/-! ## Basic string helpers (Python str methods on character lists) -/

/-- Model of Python `s.startswith(p)` on character lists. -/
def startsWithCL (s p : List Char) : Bool := p.isPrefixOf s

/-- Model of Python `s.endswith("/")` for a single character. -/
def endsWithChar (c : Char) (s : List Char) : Bool :=
  match s.getLast? with
  | some d => d == c
  | none => false

/-- Model of Python `s.lstrip("/")`. -/
def lstripSlash (s : List Char) : List Char := s.dropWhile (· == '/')

/-- Model of Python `s.split(sep)` for a one-character separator: splits at every
occurrence, keeping empty pieces (so `"a//b".split("/") == ["a","","b"]` and
`"".split("/") == [""]`). -/
def splitOnChar (sep : Char) : List Char → List (List Char)
  | [] => [[]]
  | c :: rest =>
    match splitOnChar sep rest with
    | [] => [[]]
    | h :: t => if c == sep then [] :: h :: t else (c :: h) :: t

/-- Index of the last occurrence of a character, Python `s.rfind(c)` (`none` for -1). -/
def rlastIdx (c : Char) : List Char → Option Nat
  | [] => none
  | x :: xs =>
    match rlastIdx c xs with
    | some i => some (i + 1)
    | none => if x == c then some 0 else none

/-- The program's absolute-URL test: `s.startswith("http://") or s.startswith("https://")`. -/
def isHttpUrl (s : List Char) : Bool :=
  startsWithCL s "http://".toList || startsWithCL s "https://".toList

/-- String-level version of the absolute-URL test used by the manifest passes. -/
def isHttpStr (s : String) : Bool := isHttpUrl s.toList

/-! ## SHA-1 (for `hashlib.sha1(query).hexdigest()[:8]`) -/

/-- Truncation to 32 bits. -/
def w32 (n : Nat) : Nat := n % 4294967296

/-- Left rotation of a 32-bit word. -/
def rotl (k n : Nat) : Nat := w32 ((n <<< k) ||| (n >>> (32 - k)))

/-- SHA-1 padding: append 0x80, zero bytes, and the 64-bit big-endian bit length. -/
def sha1pad (msg : List Nat) : List Nat :=
  let ml := msg.length * 8
  let z := (64 - (msg.length + 9) % 64) % 64
  msg ++ [128] ++ List.replicate z 0 ++
    [(ml >>> 56) % 256, (ml >>> 48) % 256, (ml >>> 40) % 256, (ml >>> 32) % 256,
     (ml >>> 24) % 256, (ml >>> 16) % 256, (ml >>> 8) % 256, ml % 256]

/-- Big-endian grouping of bytes into 32-bit words. -/
def bytesToWords : List Nat → List Nat
  | a :: b :: c :: d :: rest =>
    (a * 16777216 + b * 65536 + c * 256 + d) :: bytesToWords rest
  | _ => []

/-- Grouping of words into 16-word blocks. -/
def wordChunks : List Nat → List (List Nat)
  | w0 :: w1 :: w2 :: w3 :: w4 :: w5 :: w6 :: w7 ::
    w8 :: w9 :: w10 :: w11 :: w12 :: w13 :: w14 :: w15 :: rest =>
    [w0, w1, w2, w3, w4, w5, w6, w7, w8, w9, w10, w11, w12, w13, w14, w15] :: wordChunks rest
  | _ => []

/-- Message-schedule extension: the accumulator holds all words so far, most recent first. -/
def sha1extend : Nat → List Nat → List Nat
  | 0, acc => acc.reverse
  | n + 1, acc =>
    let x := rotl 1 (((acc.getD 2 0) ^^^ (acc.getD 7 0)) ^^^ ((acc.getD 13 0) ^^^ (acc.getD 15 0)))
    sha1extend n (x :: acc)

/-- Round function of SHA-1. -/
def sha1f (t b c d : Nat) : Nat :=
  if t < 20 then (b &&& c) ||| ((b ^^^ 4294967295) &&& d)
  else if t < 40 then b ^^^ c ^^^ d
  else if t < 60 then (b &&& c) ||| (b &&& d) ||| (c &&& d)
  else b ^^^ c ^^^ d

/-- Round constants of SHA-1. -/
def sha1k (t : Nat) : Nat :=
  if t < 20 then 1518500249
  else if t < 40 then 1859775393
  else if t < 60 then 2400959708
  else 3395469782

/-- The 80 rounds of one SHA-1 block. -/
def sha1rounds : List Nat → Nat → Nat × Nat × Nat × Nat × Nat → Nat × Nat × Nat × Nat × Nat
  | [], _, st => st
  | w :: ws, t, (a, b, c, d, e) =>
    let tmp := w32 (rotl 5 a + sha1f t b c d + e + sha1k t + w)
    sha1rounds ws (t + 1) (tmp, a, rotl 30 b, c, d)

/-- Processing of one 16-word block. -/
def sha1block (h : Nat × Nat × Nat × Nat × Nat) (block : List Nat) : Nat × Nat × Nat × Nat × Nat :=
  let (a, b, c, d, e) := sha1rounds (sha1extend 64 block.reverse) 0 h
  (w32 (h.1 + a), w32 (h.2.1 + b), w32 (h.2.2.1 + c), w32 (h.2.2.2.1 + d), w32 (h.2.2.2.2 + e))

/-- SHA-1 digest of a byte string, as the five 32-bit state words. -/
def sha1words (msg : List Nat) : Nat × Nat × Nat × Nat × Nat :=
  (wordChunks (bytesToWords (sha1pad msg))).foldl sha1block
    (1732584193, 4023233417, 2562383102, 271733878, 3285377520)

/-- UTF-8 encoding of one character (model of `str.encode("utf-8")` per character). -/
def utf8encodeChar (c : Char) : List Nat :=
  let n := c.toNat
  if n < 128 then [n]
  else if n < 2048 then [192 ||| (n >>> 6), 128 ||| (n &&& 63)]
  else if n < 65536 then [224 ||| (n >>> 12), 128 ||| ((n >>> 6) &&& 63), 128 ||| (n &&& 63)]
  else [240 ||| (n >>> 18), 128 ||| ((n >>> 12) &&& 63), 128 ||| ((n >>> 6) &&& 63), 128 ||| (n &&& 63)]

/-- UTF-8 encoding of a character list, model of `str.encode("utf-8")`. -/
def strUtf8 (s : List Char) : List Nat := (s.map utf8encodeChar).flatten

/-- Hexadecimal digit characters. -/
def hexChars : List Char := "0123456789abcdef".toList

/-- Lower-case hexadecimal digit of a value (mod 16). -/
def hexChar (n : Nat) : Char := hexChars.getD (n % 16) '0'

/-- Model of `hashlib.sha1(q.encode("utf-8")).hexdigest()[:8]`: the first eight
hex characters of the digest, i.e. the first state word rendered in hex. -/
def sha1hex8 (q : List Char) : List Char :=
  let h0 := (sha1words (strUtf8 q)).1
  [hexChar (h0 >>> 28), hexChar (h0 >>> 24), hexChar (h0 >>> 20), hexChar (h0 >>> 16),
   hexChar (h0 >>> 12), hexChar (h0 >>> 8), hexChar (h0 >>> 4), hexChar h0]

set_option maxRecDepth 40000

example : sha1hex8 "abc".toList = "a9993e36".toList := by decide
example : sha1hex8 [] = "da39a3ee".toList := by decide
example : sha1hex8 "a=16859".toList = sha1hex8 "a=114124".toList := by decide

/-! ## urllib.parse.unquote -/

/-- The Unicode replacement character U+FFFD. -/
def replChar : Char := Char.ofNat 65533

/-- Valid continuation-byte test, given the bytes of the partial sequence so far
(the constrained ranges after E0/ED/F0/F4 rule out overlong and surrogate
encodings, as CPython's decoder does). -/
def u8valid (pending : List Nat) (c : Nat) : Bool :=
  match pending with
  | [b] =>
    if b < 224 then 128 ≤ c && c < 192
    else if b < 240 then (if b == 224 then 160 else 128) ≤ c && c < (if b == 237 then 160 else 192)
    else (if b == 240 then 144 else 128) ≤ c && c < (if b == 244 then 144 else 192)
  | _ => 128 ≤ c && c < 192

/-- Decoded character of a complete UTF-8 byte sequence, `none` when more
continuation bytes are expected. -/
def u8complete (pending : List Nat) : Option Char :=
  match pending with
  | [b, c1] => if b < 224 then some (Char.ofNat (((b - 192) <<< 6) + (c1 - 128))) else none
  | [b, c1, c2] =>
    if b < 240 then some (Char.ofNat (((b - 224) <<< 12) + ((c1 - 128) <<< 6) + (c2 - 128)))
    else none
  | [b, c1, c2, c3] =>
    some (Char.ofNat (((b - 240) <<< 18) + ((c1 - 128) <<< 12) + ((c2 - 128) <<< 6) + (c3 - 128)))
  | _ => none

/-- UTF-8 decoding with `errors="replace"` (maximal-subpart policy), the decoding
`unquote` applies to runs of percent-encoded bytes.  `pending` holds the bytes
of a partial multi-byte sequence. -/
def u8go : List Nat → List Nat → List Char
  | [], pending => if pending.isEmpty then [] else [replChar]
  | c :: rest, pending =>
    if pending.isEmpty then
      if c < 128 then Char.ofNat c :: u8go rest []
      else if c < 194 then replChar :: u8go rest []
      else if c < 245 then u8go rest [c]
      else replChar :: u8go rest []
    else if u8valid pending c then
      match u8complete (pending ++ [c]) with
      | some ch => ch :: u8go rest []
      | none => u8go rest (pending ++ [c])
    else
      replChar ::
        (if c < 128 then Char.ofNat c :: u8go rest []
         else if c < 194 then replChar :: u8go rest []
         else if c < 245 then u8go rest [c]
         else replChar :: u8go rest [])

/-- UTF-8 decoding of a byte list with replacement of malformed sequences. -/
def utf8decode (bs : List Nat) : List Char := u8go bs []

/-- Numeric value of a hexadecimal digit character, if any. -/
def hexVal (c : Char) : Option Nat :=
  if '0' ≤ c && c ≤ '9' then some (c.toNat - 48)
  else if 'A' ≤ c && c ≤ 'F' then some (c.toNat - 55)
  else if 'a' ≤ c && c ≤ 'f' then some (c.toNat - 87)
  else none

/-- Model of `urllib.parse.unquote`: percent-escapes are decoded, maximal runs of
escaped bytes are UTF-8-decoded with replacement, and malformed escapes (a `%`
not followed by two hex digits) are left in place.  The accumulator collects the
current run of decoded bytes, most recent first. -/
def unquoteGo : Nat → List Char → List Nat → List Char
  | _, [], bs => utf8decode bs.reverse
  | 0, l, bs => utf8decode bs.reverse ++ l
  | fuel + 1, c :: rest, bs =>
    if c == '%' then
      match rest with
      | c1 :: c2 :: rest2 =>
        match hexVal c1, hexVal c2 with
        | some h1, some h2 => unquoteGo fuel rest2 ((h1 * 16 + h2) :: bs)
        | _, _ => utf8decode bs.reverse ++ '%' :: unquoteGo fuel rest []
      | _ => utf8decode bs.reverse ++ '%' :: unquoteGo fuel rest []
    else utf8decode bs.reverse ++ c :: unquoteGo fuel rest []

/-- Model of `urllib.parse.unquote` on a character list.  The fuel argument of
`unquoteGo` only drives the recursion; it starts at the input length and every
step consumes at least one character, so it never runs out. -/
def unquoteCL (s : List Char) : List Char := unquoteGo s.length s []

example : unquoteCL "/a%62".toList = "/ab".toList := by decide
example : unquoteCL "/a%zz".toList = "/a%zz".toList := by decide
example : unquoteCL "%41%42".toList = "AB".toList := by decide
example : unquoteCL "a%".toList = "a%".toList := by decide
example : unquoteCL "%E2%82%AC".toList = [Char.ofNat 8364] := by decide
example : unquoteCL "%80".toList = [replChar] := by decide

/-! ## os.path.splitext -/

/-- Model of `os.path.splitext` for POSIX paths: split at the last dot of the last
component, unless every character between the last separator and that dot is a
dot (so names like `.bashrc` or `..b` have no extension). -/
def splitextCL (p : List Char) : List Char × List Char :=
  match rlastIdx '.' p with
  | none => (p, [])
  | some dotIdx =>
    let fnIdx :=
      match rlastIdx '/' p with
      | none => 0
      | some sepIdx => sepIdx + 1
    if fnIdx ≤ dotIdx && ((p.drop fnIdx).take (dotIdx - fnIdx)).any (fun c => c != '.') then
      (p.take dotIdx, p.drop dotIdx)
    else (p, [])

example : splitextCL "/a/b.c".toList = ("/a/b".toList, ".c".toList) := by decide
example : splitextCL "/a.b/c".toList = ("/a.b/c".toList, []) := by decide
example : splitextCL "/.bashrc".toList = ("/.bashrc".toList, []) := by decide
example : splitextCL "/a/..b".toList = ("/a/..b".toList, []) := by decide
example : splitextCL "/a/.".toList = ("/a/.".toList, []) := by decide
example : splitextCL "/a/b.".toList = ("/a/b".toList, ".".toList) := by decide

/-! ## urllib.parse.urlparse (netloc, path, query components) -/

/-- Characters allowed in a URL scheme after the initial letter. -/
def schemeChar (c : Char) : Bool :=
  c.isAlpha || c.isDigit || c == '+' || c == '-' || c == '.'

/-- Split a list at the first occurrence of a character: `(before, after)` with the
separator dropped, or `(l, none)` when absent (Python `s.split(c, 1)`). -/
def splitFirst (sep : Char) : List Char → List Char × Option (List Char)
  | [] => ([], none)
  | c :: rest =>
    if c == sep then ([], some rest)
    else
      match splitFirst sep rest with
      | (before, r) => (c :: before, r)

/-- Model of CPython `urlsplit`'s scheme detection: strip `scheme:` when the part
before the first colon is a letter followed by scheme characters. -/
def stripScheme (url : List Char) : List Char :=
  match splitFirst ':' url with
  | (before, some rest) =>
    match before with
    | [] => url
    | c0 :: more => if c0.isAlpha && more.all schemeChar then rest else url
  | (_, none) => url

/-- Model of CPython `_splitparams`: drop the `;params` suffix of the last path
segment, when a `;` occurs in it. -/
def dropParams (p : List Char) : List Char :=
  if p.contains ';' then
    match rlastIdx '/' p with
    | some sepIdx =>
      match (p.drop sepIdx).findIdx? (· == ';') with
      | some j => p.take (sepIdx + j)
      | none => p
    | none => p.take ((p.findIdx? (· == ';')).getD p.length)
  else p

/-- Netloc component of a URL, following CPython `urlsplit`: after stripping the
scheme, the netloc is the part after `//` up to the first of `/?#`, empty when
the remainder does not start with `//`.  (CPython's removal of embedded
tab/CR/LF control characters is not modelled; the URLs considered here contain
none.) -/
def netlocOf (url : List Char) : List Char :=
  let rest := stripScheme url
  if startsWithCL rest "//".toList then
    (rest.drop 2).takeWhile (fun c => c != '/' && c != '?' && c != '#')
  else []

/-- Remainder of the URL after the netloc (see `urlparseCL`). -/
def afterNetloc (url : List Char) : List Char :=
  let rest := stripScheme url
  if startsWithCL rest "//".toList then
    (rest.drop 2).dropWhile (fun c => c != '/' && c != '?' && c != '#')
  else rest

/-- Model of `urllib.parse.urlparse(url)` restricted to the components the
program uses, `(netloc, path, query)`: the netloc per `netlocOf`, then the
fragment is split off at the first `#`, the query at the first `?`, and path
parameters are dropped. -/
def urlparseCL (url : List Char) : List Char × List Char × List Char :=
  let beforeFrag := (splitFirst '#' (afterNetloc url)).1
  let (path0, q) := splitFirst '?' beforeFrag
  (netlocOf url, dropParams path0, q.getD [])

example : urlparseCL "http://h/a?x=1".toList = ("h".toList, "/a".toList, "x=1".toList) := by decide
example : urlparseCL "http://h".toList = ("h".toList, [], []) := by decide
example : urlparseCL "http:///a".toList = ([], "/a".toList, []) := by decide
example : urlparseCL "http://h/a;p?q".toList = ("h".toList, "/a".toList, "q".toList) := by decide
example : urlparseCL "http://h/a#f?q".toList = ("h".toList, "/a".toList, []) := by decide
example : urlparseCL "http://h/a?q#f".toList = ("h".toList, "/a".toList, "q".toList) := by decide
example : urlparseCL "http://./x".toList = (".".toList, "/x".toList, []) := by decide

/-! ## pathlib.PurePosixPath -/

/-- Anchor (root) of a POSIX path string: `//` is preserved when there are exactly
two leading slashes, three or more collapse to `/`. -/
def posixAnchor (s : List Char) : List Char :=
  if startsWithCL s "//".toList && !startsWithCL s "///".toList then "//".toList
  else if startsWithCL s "/".toList then "/".toList
  else []

/-- Components of a POSIX path string: split on `/`, dropping empty components and
`.` (as `PurePosixPath` does). -/
def posixParts (s : List Char) : List (List Char) :=
  (splitOnChar '/' s).filter (fun p => !(p == []) && !(p == ['.']))

/-- Model of `PurePosixPath(s).as_posix()`. -/
def asPosixCL (s : List Char) : List Char :=
  let anc := posixAnchor s
  let ps := posixParts s
  if anc == [] && ps == [] then ['.']
  else anc ++ List.intercalate ['/'] ps

example : asPosixCL "a/./b//c".toList = "a/b/c".toList := by decide
example : asPosixCL "".toList = ".".toList := by decide
example : asPosixCL "/".toList = "/".toList := by decide
example : asPosixCL "//a".toList = "//a".toList := by decide
example : asPosixCL "///a".toList = "/a".toList := by decide

/-! ## url_to_local_path -/

/-- A `pathlib` path value: its anchor and its components.  Two `Path`s are equal
exactly when anchor and components agree, which models `Path` equality and
"the same file on disk". -/
abbrev PathRepr := List Char × List (List Char)

/-- String form of a path, `str(Path)`. -/
def pathReprStr (p : PathRepr) : String :=
  if p.1 == [] && p.2 == [] then "."
  else String.mk (p.1 ++ List.intercalate ['/'] p.2)

/-- The decoded, defaulted path of `url_to_local_path`: percent-decode the path
(defaulting to `/`), append `index.html` after a trailing slash, and default an
empty result to `/index.html`. -/
def decodedPath (rawPath : List Char) : List Char :=
  let path0 := unquoteCL (if rawPath == [] then "/".toList else rawPath)
  let path1 := if endsWithChar '/' path0 then path0 ++ "index.html".toList else path0
  if path1 == [] then "/index.html".toList else path1

/-- The part of the query-splice before the hash: `Path(base).as_posix() + "__q_"`
with `base` from `os.path.splitext`. -/
def relStem (rawPath : List Char) : List Char :=
  asPosixCL (splitextCL (decodedPath rawPath)).1 ++ "__q_".toList

/-- The extension used by the query-splice: the `splitext` extension, defaulted
to `.html` when empty. -/
def relExt (rawPath : List Char) : List Char :=
  if (splitextCL (decodedPath rawPath)).2 == [] then ".html".toList
  else (splitextCL (decodedPath rawPath)).2

/-- The `local_rel` computation of `url_to_local_path` from the parsed path and
query: when a query is present, `f"{Path(base).as_posix()}__q_{qhash}{ext}"`
(spliced via `relStem` and `relExt`), otherwise the decoded path itself. -/
def mappedRel (rawPath query : List Char) : List Char :=
  if query != [] then relStem rawPath ++ sha1hex8 query ++ relExt rawPath
  else decodedPath rawPath

/-- Port of `url_to_local_path(url, out_root)`: returns the local path
`out_root / host / local_rel_norm` (as a `PathRepr`) and the manifest href
`"/" + "/".join([host] + local_rel_norm.split("/"))`; `mappedRel` computes
`local_rel` from the parsed path and query. -/
def url_to_local_path (url : String) (out_root : String) : PathRepr × String :=
  let (host, rawPath, query) := urlparseCL url.toList
  let local_rel_norm := lstripSlash (mappedRel rawPath query)
  let local_path : PathRepr :=
    (posixAnchor out_root.toList,
     posixParts out_root.toList ++ posixParts host ++ posixParts local_rel_norm)
  let manifest_href :=
    String.mk ('/' :: List.intercalate ['/'] (host :: splitOnChar '/' local_rel_norm))
  (local_path, manifest_href)

example : url_to_local_path "http://h/" "local_www" =
    (([], ["local_www".toList, "h".toList, "index.html".toList]), "/h/index.html") := by decide
example : url_to_local_path "http://h/index.html" "local_www" =
    (([], ["local_www".toList, "h".toList, "index.html".toList]), "/h/index.html") := by decide
example : url_to_local_path "https://good.com/a?x=1" "local_www" =
    (([], ["local_www".toList, "good.com".toList, "a__q_7caf6056.html".toList]),
     "/good.com/a__q_7caf6056.html") := by decide
example : pathReprStr (url_to_local_path "https://good.com/a?x=1" "local_www").1 =
    "local_www/good.com/a__q_7caf6056.html" := by decide

/-! ## The manifest data model

JSON values as loaded by `json.load`: a mutually inductive tree with objects as
association lists (Python dicts keep insertion order; keys are unique in
JSON-loaded data) and arrays as lists. -/

mutual
inductive Json where
  | null
  | bool (b : Bool)
  | num (n : Int)
  | str (s : String)
  | arr (xs : JArr)
  | obj (kvs : JObj)
inductive JArr where
  | nil
  | cons (hd : Json) (tl : JArr)
inductive JObj where
  | nil
  | cons (k : String) (v : Json) (tl : JObj)
end

/-- Conversion of a model array to a list. -/
def JArr.toList : JArr → List Json
  | .nil => []
  | .cons x tl => x :: tl.toList

/-- Conversion of a list to a model array. -/
def JArr.ofList : List Json → JArr
  | [] => .nil
  | x :: xs => .cons x (JArr.ofList xs)

/-- Keys of an object, in order. -/
def JObj.keys : JObj → List String
  | .nil => []
  | .cons k _ tl => k :: tl.keys

/-- Model of Python `d.get(k)`: the value of the first entry with the given key. -/
def JObj.get : JObj → String → Option Json
  | .nil, _ => none
  | .cons k v tl, key => if k == key then some v else tl.get key

/-- Model of Python `k in d`. -/
def JObj.hasKey (m : JObj) (key : String) : Bool := (m.get key).isSome

/-- Model of Python `d[k] = v`: replace the value of the (unique) entry with the
given key in place, or append a new entry at the end. -/
def JObj.setKey : JObj → String → Json → JObj
  | .nil, key, v => .cons key v .nil
  | .cons k w tl, key, v =>
    if k == key then .cons k v tl else .cons k w (tl.setKey key v)

/-- Model of Python `d.pop(k, None)`: remove the (unique) entry with the given key. -/
def JObj.popKey : JObj → String → JObj
  | .nil, _ => .nil
  | .cons k v tl, key => if k == key then tl else .cons k v (tl.popKey key)

/-- Test for the JSON null value, model of Python `x is None` on JSON data. -/
def Json.isNull : Json → Bool
  | .null => true
  | _ => false

/-- Python truthiness of a JSON value. -/
def pyTruthy : Json → Bool
  | .null => false
  | .bool b => b
  | .num n => n != 0
  | .str s => s != ""
  | .arr .nil => false
  | .arr _ => true
  | .obj .nil => false
  | .obj _ => true

/-- Model of Python iteration `for x in v`: arrays yield their elements, strings
their characters (as one-character strings), dicts their keys; other values
raise TypeError, modelled as `none`. -/
def pyIter : Json → Option (List Json)
  | .arr xs => some xs.toList
  | .str s => some (s.toList.map (fun c => .str (String.mk [c])))
  | .obj kvs => some (kvs.keys.map (fun k => .str k))
  | _ => none

/-! ## is_blocked -/

/-- The fixed denylist `ANALYTICS_BLOCKLIST`. -/
def ANALYTICS_BLOCKLIST : List String :=
  ["googletagmanager.com", "google-analytics.com", "connect.facebook.net",
   "firebaseinstallations.googleapis.com", "firebase.googleapis.com",
   "storage.googleapis.com", "analytics."]

/-- Contiguous-sublist test on character lists. -/
def isSubList (needle hay : List Char) : Bool :=
  match hay with
  | [] => needle.isEmpty
  | _ :: tl => needle.isPrefixOf hay || isSubList needle tl

/-- Model of Python `bad in url` (substring containment). -/
def containsSub (s bad : String) : Bool := isSubList bad.toList s.toList

/-- Port of `is_blocked(url)` (with its default blocklist): empty strings and
non-strings return `False`; otherwise the URL is blocked when it contains any
denylist entry as a substring. -/
def is_blocked (url : Json) : Bool :=
  match url with
  | .str s => if s == "" then false else ANALYTICS_BLOCKLIST.any (fun bad => containsSub s bad)
  | _ => false

example : is_blocked (.str "https://googletagmanager.com/gtm.js") = true := by decide
example : is_blocked (.str "https://good.com/a?x=1") = false := by decide
example : is_blocked (.str "https://x.com/?u=analytics.example") = true := by decide

/-! ## collect_urls_from_manifest -/

/-- Model of Python set insertion: the URL list stays duplicate-free. -/
def setAdd (urls : List String) (s : String) : List String :=
  if s ∈ urls then urls else urls ++ [s]

/-- Port of the inner `add_if_http(s)`: add a string that is an absolute http(s)
URL and not blocked. -/
def add_if_http (urls : List String) (v : Json) : List String :=
  match v with
  | .str s => if isHttpStr s && !is_blocked (.str s) then setAdd urls s else urls
  | _ => urls

/-- One item of a recognized top-level list: dict items contribute their `href`,
bare strings contribute themselves. -/
def collectItem (urls : List String) (item : Json) : List String :=
  match item with
  | .obj kvs => add_if_http urls ((kvs.get "href").getD .null)
  | .str s => add_if_http urls (.str s)
  | _ => urls

/-- Port of one iteration of the structural pass, `for item in manifest.get(key,
[]) or []`: a falsy field yields nothing; iterating a truthy non-iterable value
raises TypeError (`none`). -/
def collectKey (m : JObj) (key : String) (urls : List String) : Option (List String) :=
  let v := (m.get key).getD (.arr .nil)
  if !pyTruthy v then some urls
  else
    match pyIter v with
    | some items => some (items.foldl collectItem urls)
    | none => none

/-- Port of the `metadata.identifier` part of the structural pass. -/
def collectMeta (m : JObj) (urls : List String) : List String :=
  match (m.get "metadata").getD (.obj .nil) with
  | .obj mk => add_if_http urls ((mk.get "identifier").getD .null)
  | _ => urls

mutual
/-- Port of the recursive `deep(o)` pass of `collect_urls_from_manifest`. -/
def deepCollect (urls : List String) : Json → List String
  | .obj kvs => deepCollectObj urls kvs
  | .arr xs => deepCollectArr urls xs
  | .str s => if isHttpStr s then add_if_http urls (.str s) else urls
  | _ => urls
/-- Deep pass over array elements, in order. -/
def deepCollectArr (urls : List String) : JArr → List String
  | .nil => urls
  | .cons x tl => deepCollectArr (deepCollect urls x) tl
/-- Deep pass over object values, in order. -/
def deepCollectObj (urls : List String) : JObj → List String
  | .nil => urls
  | .cons _ v tl => deepCollectObj (deepCollect urls v) tl
end

/-- Port of `collect_urls_from_manifest(manifest)`.  The Python function returns a
set; it is modelled as a duplicate-free list.  `none` models a TypeError
(iterating a truthy non-iterable recognized field). -/
def collect_urls_from_manifest (m : JObj) : Option (List String) := do
  let u1 ← collectKey m "links" []
  let u2 ← collectKey m "images" u1
  let u3 ← collectKey m "readingOrder" u2
  let u4 ← collectKey m "resources" u3
  some (deepCollect (collectMeta m u4) (.obj m))

/-! ## rewrite_manifest -/

/-- The mutable lists `changed` / `removed` of `rewrite_manifest`, threaded as
state.  `changed` entries are `(original, manifest_href, str(local_path))`. -/
structure RW where
  changed : List (String × String × String)
  removed : List String

/-- Port of the inner `rewrite_string(s)`: absolute http(s) strings are either
recorded in `removed` and turned into `None` (blocked) or recorded in `changed`
and replaced by the local href; every other value is returned unchanged. -/
def rewrite_string (out_root : String) (s : Json) (st : RW) : Json × RW :=
  match s with
  | .str t =>
    if isHttpStr t then
      if is_blocked (.str t) then (.null, ⟨st.changed, st.removed ++ [t]⟩)
      else
        let p := url_to_local_path t out_root
        (.str p.2, ⟨st.changed ++ [(t, p.2, pathReprStr p.1)], st.removed⟩)
    else (s, st)
  | _ => (s, st)

/-- Port of the body of the known-arrays loop over one item: dict items with an
`href` key get it rewritten, the key being popped when `rewrite_string` returns
`None` (blocked href, or an href that was already `None`). -/
def rewriteHrefItem (out_root : String) (it : Json) (st : RW) : Json × RW :=
  match it with
  | .obj kvs =>
    if kvs.hasKey "href" then
      let p := rewrite_string out_root ((kvs.get "href").getD .null) st
      if p.1.isNull then (.obj (kvs.popKey "href"), p.2)
      else (.obj (kvs.setKey "href" p.1), p.2)
    else (it, st)
  | _ => (it, st)

/-- State-threading map over a list, left to right. -/
def mapRW (f : Json → RW → Json × RW) : List Json → RW → List Json × RW
  | [], st => ([], st)
  | x :: xs, st =>
    let p := f x st
    let ps := mapRW f xs p.2
    (p.1 :: ps.1, ps.2)

/-- Port of the known-arrays pass of `rewrite_manifest` for one key: only applied
when the field holds a list (items are mutated in place). -/
def rewriteListKey (out_root : String) (key : String) (m : JObj) (st : RW) : JObj × RW :=
  match m.get key with
  | some (.arr xs) =>
    let p := mapRW (rewriteHrefItem out_root) xs.toList st
    (m.setKey key (.arr (JArr.ofList p.1)), p.2)
  | _ => (m, st)

/-- Port of the `resources` loop body: dict elements with a blocked string `href`
are dropped (recording the href in `removed`, blocked or not absolute);
other dict elements with a string `href` get it rewritten; everything else is
kept as is. -/
def resourcesLoop (out_root : String) : List Json → RW → List Json × RW
  | [], st => ([], st)
  | r :: rs, st =>
    match r with
    | .obj kvs =>
      match (kvs.get "href").getD .null with
      | .str s =>
        if is_blocked (.str s) then
          resourcesLoop out_root rs ⟨st.changed, st.removed ++ [s]⟩
        else
          let p := rewrite_string out_root (.str s) st
          if p.1.isNull then resourcesLoop out_root rs p.2
          else
            let ps := resourcesLoop out_root rs p.2
            (.obj (kvs.setKey "href" p.1) :: ps.1, ps.2)
      | _ =>
        let ps := resourcesLoop out_root rs st
        (r :: ps.1, ps.2)
    | _ =>
      let ps := resourcesLoop out_root rs st
      (r :: ps.1, ps.2)

/-- Port of the `resources` pass: `for r in manifest.get("resources", [])` (note:
no `or []`, so a truthy or falsy non-iterable raises TypeError, modelled as
`none`), then `manifest["resources"] = new_resources` (which adds the key at the
end when it was absent). -/
def rewriteResources (out_root : String) (m : JObj) (st : RW) : Option (JObj × RW) :=
  let v := (m.get "resources").getD (.arr .nil)
  match pyIter v with
  | some items =>
    let p := resourcesLoop out_root items st
    some (m.setKey "resources" (.arr (JArr.ofList p.1)), p.2)
  | none => none

/-- Port of the `metadata.identifier` pass: only a string identifier inside a dict
`metadata` is touched; it is popped when `rewrite_string` returns `None`. -/
def rewriteIdentifier (out_root : String) (m : JObj) (st : RW) : JObj × RW :=
  match m.get "metadata" with
  | some (.obj mk) =>
    match mk.get "identifier" with
    | some (.str s) =>
      let p := rewrite_string out_root (.str s) st
      if p.1.isNull then (m.setKey "metadata" (.obj (mk.popKey "identifier")), p.2)
      else (m.setKey "metadata" (.obj (mk.setKey "identifier" p.1)), p.2)
    | _ => (m, st)
  | _ => (m, st)

/-- Removal of `None` elements, the `o[:] = [x for x in o if x is not None]` step
that runs after every array visit of `deep_replace`. -/
def JArr.filterNonNull : JArr → JArr
  | .nil => .nil
  | .cons x tl => if x.isNull then tl.filterNonNull else .cons x (tl.filterNonNull)

mutual
/-- Port of the recursive `deep_replace(o)`: dict string values that look like
absolute URLs are rewritten in place or popped; array string elements likewise,
with `None` placeholders (and any other `None` elements) filtered out
afterwards; other values are visited recursively; scalars are untouched. -/
def deep_replace (out_root : String) : Json → RW → Json × RW
  | .obj kvs, st =>
    let p := deepReplaceObj out_root kvs st
    (.obj p.1, p.2)
  | .arr xs, st =>
    let p := deepReplaceArr out_root xs st
    (.arr p.1.filterNonNull, p.2)
  | j, st => (j, st)
/-- Dict part of `deep_replace`: iterates over entries in order. -/
def deepReplaceObj (out_root : String) : JObj → RW → JObj × RW
  | .nil, st => (.nil, st)
  | .cons k v tl, st =>
    match v with
    | .str s =>
      if isHttpStr s then
        let p := rewrite_string out_root (.str s) st
        let pt := deepReplaceObj out_root tl p.2
        if p.1.isNull then (pt.1, pt.2) else (.cons k p.1 pt.1, pt.2)
      else
        let pt := deepReplaceObj out_root tl st
        (.cons k (.str s) pt.1, pt.2)
    | _ =>
      let pv := deep_replace out_root v st
      let pt := deepReplaceObj out_root tl pv.2
      (.cons k pv.1 pt.1, pt.2)
/-- Array part of `deep_replace`: rewrites string elements in place (possibly to
`None`), recurses into the rest; the caller filters the `None`s. -/
def deepReplaceArr (out_root : String) : JArr → RW → JArr × RW
  | .nil, st => (.nil, st)
  | .cons x tl, st =>
    match x with
    | .str s =>
      if isHttpStr s then
        let p := rewrite_string out_root (.str s) st
        let pt := deepReplaceArr out_root tl p.2
        (.cons p.1 pt.1, pt.2)
      else
        let pt := deepReplaceArr out_root tl st
        (.cons (.str s) pt.1, pt.2)
    | _ =>
      let px := deep_replace out_root x st
      let pt := deepReplaceArr out_root tl px.2
      (.cons px.1 pt.1, pt.2)
end

/-- Port of `rewrite_manifest(manifest, out_root)`: the structural passes over
`links`, `images`, `readingOrder`, the `resources` pass, the
`metadata.identifier` pass, then `deep_replace` over the whole manifest.
Returns the mutated manifest together with `changed` and `removed`; `none`
models the TypeError raised when `resources` holds a non-iterable value. -/
def rewrite_manifest (m : JObj) (out_root : String) :
    Option (JObj × List (String × String × String) × List String) :=
  let p1 := rewriteListKey out_root "links" m ⟨[], []⟩
  let p2 := rewriteListKey out_root "images" p1.1 p1.2
  let p3 := rewriteListKey out_root "readingOrder" p2.1 p2.2
  match rewriteResources out_root p3.1 p3.2 with
  | none => none
  | some p4 =>
    let p5 := rewriteIdentifier out_root p4.1 p4.2
    let p6 := deepReplaceObj out_root p5.1 p5.2
    some (p6.1, p6.2.changed, p6.2.removed)

/-! ## download_one / download_urls -/

/-- Outcome of one network attempt inside `download_one`: either a response (its
status and the streamed chunk sizes) or a `requests.RequestException` carrying
an optional attached response status (connection and timeout faults carry
none). -/
inductive AttemptResult where
  | resp (status : Nat) (chunks : List Nat)
  | exn (respStatus : Option Nat)

/-- Result of `download_one` together with the observable control flow: the
returned `(ok, status, bytes)` triple, the number of attempts made, and the
`time.sleep` durations in milliseconds, in order. -/
structure DLResult where
  ok : Bool
  status : Option Nat
  bytes : Nat
  attemptsMade : Nat
  sleepsMs : List Nat
deriving DecidableEq

/-- Final status of the fall-through return
`getattr(last_exc, "response", None) and last_exc.response.status_code or None`:
with no attached response this is `None`; with one, Python truthiness of a
`requests.Response` is `status_code < 400` (`Response.ok`), and a status code of
`0` is itself falsy, so the expression yields the status only when
`0 < status < 400`. -/
def lastExcStatus (respStatus : Option Nat) : Option Nat :=
  match respStatus with
  | none => none
  | some sc => if sc < 400 && sc != 0 then some sc else none

/-- Port of the retry loop of `download_one`.  `attempts t` is the outcome of the
`t`-th attempt (1-based); `remaining` counts the loop iterations left
(`max_retries - tries`), `tries` the attempts already made.  A response with
non-200 status returns immediately as a failure; a 200 response streams its
chunks (`bytes` is the sum of chunk sizes, empty chunks contributing 0); an
exception sleeps `0.5 * tries` seconds (modelled as `500 * tries` ms) and
retries. -/
def downloadGo (attempts : Nat → AttemptResult) :
    Nat → Nat → List Nat → Option (Option Nat) → DLResult
  | 0, tries, sleeps, last =>
    { ok := false,
      status := match last with
                | none => none
                | some r => lastExcStatus r,
      bytes := 0, attemptsMade := tries, sleepsMs := sleeps }
  | remaining + 1, tries, sleeps, _ =>
    let t := tries + 1
    match attempts t with
    | .resp status chunks =>
      if status != 200 then
        { ok := false, status := some status, bytes := 0, attemptsMade := t, sleepsMs := sleeps }
      else
        { ok := true, status := some status, bytes := chunks.sum, attemptsMade := t,
          sleepsMs := sleeps }
    | .exn r => downloadGo attempts remaining t (sleeps ++ [500 * t]) (some r)

/-- Port of `download_one(session, url, local_path)` with its default
`max_retries=3`, abstracted over the per-attempt network behaviour.  (When
`max_retries` were 0 the Python code would raise UnboundLocalError on
`last_exc`; the call site always uses 3.) -/
def download_one (attempts : Nat → AttemptResult) (max_retries : Nat) : DLResult :=
  downloadGo attempts max_retries 0 [] none

/-- Per-URL record of `download_urls` (the dict stored in `results[url]`). -/
structure Outcome where
  ok : Bool
  status : Option Nat
  bytes : Nat
  localPathStr : String
  href : String
deriving DecidableEq

/-- Port of the outcome-recording step of `download_urls`: a failed download is
stored with `ok = False` and its status, and the original URL is appended to
`failed`. -/
def recordResult (url : String) (lp href : String) (r : DLResult)
    (results : List (String × Outcome)) (failed : List String) :
    List (String × Outcome) × List String :=
  if r.ok then
    (results ++ [(url, ⟨true, r.status, r.bytes, lp, href⟩)], failed)
  else
    (results ++ [(url, ⟨false, r.status, r.bytes, lp, href⟩)], failed ++ [url])

/-! ## Scenario checks (the worked example of the specification) -/

/-- The manifest of the specification's worked scenario. -/
def scenarioManifest : JObj :=
  .cons "links"
    (.arr (.cons (.obj (.cons "href" (.str "https://good.com/a?x=1") .nil)) .nil))
    (.cons "resources"
      (.arr (.cons (.obj (.cons "href" (.str "https://googletagmanager.com/gtm.js") .nil)) .nil))
      .nil)

example : collect_urls_from_manifest scenarioManifest = some ["https://good.com/a?x=1"] := rfl

example :
    rewrite_manifest scenarioManifest "local_www" =
      some
        (.cons "links"
          (.arr (.cons (.obj (.cons "href" (.str "/good.com/a__q_7caf6056.html") .nil)) .nil))
          (.cons "resources" (.arr .nil) .nil),
         [("https://good.com/a?x=1", "/good.com/a__q_7caf6056.html",
           "local_www/good.com/a__q_7caf6056.html")],
         ["https://googletagmanager.com/gtm.js"]) := rfl

/-! ## Claim C5: transport faults are retried 3 times with increasing backoff -/

/-- C5: when every attempt raises a transport-level fault (a connection/timeout
exception, which carries no response), `download_one` makes exactly 3 attempts
with strictly increasing backoff delays of `0.5 * tries` seconds (attempt
number times the fixed base delay, here in milliseconds), then returns a
failure with null status and zero bytes, which `download_urls` records as a
failed outcome for the URL. -/
theorem download_one_transport_fault (attempts : Nat → AttemptResult)
    (h1 : attempts 1 = .exn none) (h2 : attempts 2 = .exn none)
    (h3 : attempts 3 = .exn none) :
    download_one attempts 3 =
      { ok := false, status := none, bytes := 0, attemptsMade := 3,
        sleepsMs := [500 * 1, 500 * 2, 500 * 3] } ∧
    List.Chain' (· < ·) (download_one attempts 3).sleepsMs ∧
    (∀ url lp href results failed,
      recordResult url lp href (download_one attempts 3) results failed =
        (results ++ [(url, ⟨false, none, 0, lp, href⟩)], failed ++ [url])) := by
  have hres : download_one attempts 3 =
      { ok := false, status := none, bytes := 0, attemptsMade := 3,
        sleepsMs := [500 * 1, 500 * 2, 500 * 3] } := by
    simp [download_one, downloadGo, h1, h2, h3, lastExcStatus]
  refine ⟨hres, ?_, ?_⟩
  · rw [hres]; norm_num [List.chain'_cons, List.chain'_singleton]
  · intro url lp href results failed
    rw [hres]; rfl

/-- Witness for C5 at a concrete attempt function. -/
theorem download_one_transport_fault_witness :
    download_one (fun _ => .exn none) 3 =
      { ok := false, status := none, bytes := 0, attemptsMade := 3,
        sleepsMs := [500 * 1, 500 * 2, 500 * 3] } ∧
    List.Chain' (· < ·) (download_one (fun _ => .exn none) 3).sleepsMs ∧
    recordResult "https://u.example/x" "local_www/u.example/x" "/u.example/x"
        (download_one (fun _ => .exn none) 3) [] [] =
      ([("https://u.example/x", ⟨false, none, 0, "local_www/u.example/x", "/u.example/x"⟩)],
       ["https://u.example/x"]) := by
  obtain ⟨h1, h2, h3⟩ := download_one_transport_fault (fun _ => .exn none) rfl rfl rfl
  exact ⟨h1, h2, by simpa using h3 "https://u.example/x" "local_www/u.example/x" "/u.example/x" [] []⟩

/-! ## Claim C6: a non-200 status fails immediately without retry -/

/-- C6: when the first attempt yields a response with a non-200 status,
`download_one` returns immediately after exactly one attempt with that status,
zero bytes and no backoff sleep, and `download_urls` records the URL as a
failed outcome with that status. -/
theorem download_one_bad_status (attempts : Nat → AttemptResult) (s : Nat) (chunks : List Nat)
    (h : attempts 1 = .resp s chunks) (hs : s ≠ 200) :
    download_one attempts 3 =
      { ok := false, status := some s, bytes := 0, attemptsMade := 1, sleepsMs := [] } ∧
    (∀ url lp href results failed,
      recordResult url lp href (download_one attempts 3) results failed =
        (results ++ [(url, ⟨false, some s, 0, lp, href⟩)], failed ++ [url])) := by
  have hres : download_one attempts 3 =
      { ok := false, status := some s, bytes := 0, attemptsMade := 1, sleepsMs := [] } := by
    simp [download_one, downloadGo, h, hs]
  exact ⟨hres, fun url lp href results failed => by rw [hres]; rfl⟩

/-- Witness for C6 at a concrete attempt function returning HTTP 404. -/
theorem download_one_bad_status_witness :
    download_one (fun _ => .resp 404 []) 3 =
      { ok := false, status := some 404, bytes := 0, attemptsMade := 1, sleepsMs := [] } ∧
    recordResult "https://u.example/y" "local_www/u.example/y" "/u.example/y"
        (download_one (fun _ => .resp 404 []) 3) [] [] =
      ([("https://u.example/y", ⟨false, some 404, 0, "local_www/u.example/y", "/u.example/y"⟩)],
       ["https://u.example/y"]) := by
  obtain ⟨h1, h2⟩ := download_one_bad_status (fun _ => .resp 404 []) 404 [] rfl (by decide)
  exact ⟨h1, by simpa using h2 "https://u.example/y" "local_www/u.example/y" "/u.example/y" [] []⟩

/-! ## Claim C3: the blocking predicate -/

/-- Characterization of the substring test: a needle occurs as a contiguous
substring exactly when the haystack decomposes around it. -/
theorem isSubList_iff (n hay : List Char) :
    isSubList n hay = true ↔ ∃ pre post, hay = pre ++ n ++ post := by
  induction hay with
  | nil =>
    simp only [isSubList, List.isEmpty_iff]
    constructor
    · rintro rfl; exact ⟨[], [], rfl⟩
    · rintro ⟨pre, post, h⟩
      rcases List.append_eq_nil.mp (List.append_eq_nil.mp h.symm).1 with ⟨-, h2⟩
      exact h2
  | cons c tl ih =>
    simp only [isSubList, Bool.or_eq_true, ih]
    constructor
    · rintro (hpre | ⟨pre, post, rfl⟩)
      · obtain ⟨t, ht⟩ := List.isPrefixOf_iff_prefix.mp hpre
        exact ⟨[], t, by simp [← ht]⟩
      · exact ⟨c :: pre, post, rfl⟩
    · rintro ⟨pre, post, h⟩
      cases pre with
      | nil =>
        left
        exact List.isPrefixOf_iff_prefix.mpr ⟨post, by simpa using h.symm⟩
      | cons p ps =>
        right
        rw [List.cons_append, List.cons_append] at h
        exact ⟨ps, post, (List.cons.injEq _ _ _ _ ▸ h).2⟩

/-- Counterexample to C3: the claim says every empty or non-string input is
blocked, but `is_blocked` returns `False` for the empty string, for `None` and
for a number (the guard `if not url or not isinstance(url, str): return False`
returns `False`, not `True`). -/
theorem is_blocked_cex :
    is_blocked (.str "") = false ∧ is_blocked .null = false ∧ is_blocked (.num 5) = false :=
  ⟨rfl, rfl, rfl⟩

/-- C3 (amended): `is_blocked(url)` returns `True` iff `url` is a nonempty string
containing at least one substring from the fixed denylist; empty strings and
non-string inputs return `False`. -/
theorem is_blocked_iff_spec (u : Json) :
    is_blocked u = true ↔
      ∃ s, u = .str s ∧ s ≠ "" ∧
        ∃ bad ∈ ANALYTICS_BLOCKLIST, ∃ pre post, s.toList = pre ++ bad.toList ++ post := by
  cases u with
  | str s =>
    by_cases hs : s = ""
    · subst hs
      simp [is_blocked]
    · have hs' : (s == "") = false := by simpa using hs
      simp only [is_blocked, hs', Bool.false_eq_true, if_false, List.any_eq_true]
      constructor
      · rintro ⟨bad, hbad, hc⟩
        exact ⟨s, rfl, hs, bad, hbad, (isSubList_iff _ _).mp hc⟩
      · rintro ⟨s', hs', -, bad, hbad, pre, post, hdec⟩
        obtain rfl : s = s' := by injection hs'
        exact ⟨bad, hbad, (isSubList_iff _ _).mpr ⟨pre, post, hdec⟩⟩
  | null => simp [is_blocked]
  | bool b => simp [is_blocked]
  | num n => simp [is_blocked]
  | arr xs => simp [is_blocked]
  | obj kvs => simp [is_blocked]

/-! ## Claim C7: distinctness of mapped local paths -/

/-- Counterexample to C7: two distinct URLs mapped to the same local path (a
trailing-slash URL and the explicit `index.html` below it). -/
theorem url_to_local_path_collision_cex :
    url_to_local_path "http://h/" "local_www" = url_to_local_path "http://h/index.html" "local_www" ∧
    ("http://h/" : String) ≠ "http://h/index.html" := by
  exact ⟨rfl, by decide⟩

/-- Netloc characters never include `/`, `?` or `#`. -/
theorem netlocOf_no_slash (url : List Char) :
    ∀ c ∈ netlocOf url, c ≠ '/' := by
  intro c hc
  by_cases h : startsWithCL (stripScheme url) "//".toList = true
  · simp only [netlocOf, h, if_true] at hc
    have := List.mem_takeWhile_imp hc
    simp only [Bool.and_eq_true, bne_iff_ne, ne_eq] at this
    exact this.1.1
  · simp only [netlocOf] at hc
    rw [if_neg h] at hc
    simp at hc

/-- Splitting a list that avoids the separator yields the singleton. -/
theorem splitOnChar_no_sep (sep : Char) (l : List Char) (h : ∀ c ∈ l, c ≠ sep) :
    splitOnChar sep l = [l] := by
  induction l with
  | nil => rfl
  | cons c tl ih =>
    have hc : c ≠ sep := h c (by simp)
    have htl := ih (fun d hd => h d (by simp [hd]))
    simp only [splitOnChar, htl]
    simp [hc]

/-- A nonempty slash-free component other than `.` survives `PurePosixPath`
parsing as the single part. -/
theorem posixParts_single (l : List Char) (hn : l ≠ []) (hd : l ≠ ['.'])
    (hs : ∀ c ∈ l, c ≠ '/') :
    posixParts l = [l] := by
  unfold posixParts
  rw [splitOnChar_no_sep '/' l hs]
  have h1 : l.isEmpty = false := by
    cases l with
    | nil => exact absurd rfl hn
    | cons a tl => rfl
  have h2 : (l == ['.']) = false := by simpa using hd
  simp [List.filter, h1, h2]

/-- C7 (amended): `url_to_local_path` is not injective on all URLs (see the
counterexample), but any two URLs with distinct nonempty hosts (neither being
`.`) map to distinct local paths. -/
theorem url_to_local_path_distinct_hosts (u1 u2 root : String)
    (hne : netlocOf u1.toList ≠ netlocOf u2.toList)
    (h1n : netlocOf u1.toList ≠ []) (h1d : netlocOf u1.toList ≠ ['.'])
    (h2n : netlocOf u2.toList ≠ []) (h2d : netlocOf u2.toList ≠ ['.']) :
    (url_to_local_path u1 root).1 ≠ (url_to_local_path u2 root).1 := by
  intro heq
  apply hne
  have hp1 : posixParts (netlocOf u1.toList) = [netlocOf u1.toList] :=
    posixParts_single _ h1n h1d (netlocOf_no_slash _)
  have hp2 : posixParts (netlocOf u2.toList) = [netlocOf u2.toList] :=
    posixParts_single _ h2n h2d (netlocOf_no_slash _)
  have h2 := congrArg Prod.snd heq
  simp only [url_to_local_path, urlparseCL] at h2
  rw [hp1, hp2, List.append_assoc, List.append_assoc] at h2
  have h3 := List.append_cancel_left h2
  simpa using (List.cons.injEq _ _ _ _ ▸ h3).1

/-- Witness for C7 (amended) at two concrete URLs with different hosts. -/
theorem url_to_local_path_distinct_hosts_witness :
    (url_to_local_path "http://a.example/x" "local_www").1 ≠
      (url_to_local_path "http://b.example/x" "local_www").1 :=
  url_to_local_path_distinct_hosts "http://a.example/x" "http://b.example/x" "local_www"
    (by decide) (by decide) (by decide) (by decide) (by decide)

/-! ## Claim C8: URLs differing only in query string -/

/-- Counterexample to C8: two URLs that differ only in their (nonempty, distinct)
query strings but share the 8-hex-character SHA-1 fingerprint
(`sha1("a=16859")` and `sha1("a=114124")` both start with `118fa132`), so they
map to the same local path. -/
theorem url_query_collision_cex :
    url_to_local_path "http://h/p?a=16859" "local_www" =
      url_to_local_path "http://h/p?a=114124" "local_www" ∧
    ("http://h/p?a=16859" : String) ≠ "http://h/p?a=114124" ∧
    urlparseCL "http://h/p?a=16859".toList = ("h".toList, "/p".toList, "a=16859".toList) ∧
    urlparseCL "http://h/p?a=114124".toList = ("h".toList, "/p".toList, "a=114124".toList) := by
  refine ⟨rfl, by decide, by decide, by decide⟩

/-- Membership in `getD`: the result is an element of the list or the default. -/
theorem getD_mem_or {α : Type} (l : List α) (i : Nat) (d : α) :
    l.getD i d ∈ l ∨ l.getD i d = d := by
  induction l generalizing i with
  | nil => right; rfl
  | cons a tl ih =>
    cases i with
    | zero => left; rw [List.getD_cons_zero]; exact List.mem_cons_self a tl
    | succ j =>
      rw [List.getD_cons_succ]
      rcases ih j with h | h
      · left; exact List.mem_cons_of_mem a h
      · right; exact h

/-- Hexadecimal digits are never a slash. -/
theorem hexChar_ne_slash (n : Nat) : hexChar n ≠ '/' := by
  unfold hexChar
  rcases getD_mem_or hexChars (n % 16) '0' with h | h
  · intro he; rw [he] at h; revert h; decide
  · rw [h]; decide

/-- The query fingerprint has eight characters. -/
theorem sha1hex8_length (q : List Char) : (sha1hex8 q).length = 8 := rfl

/-- The query fingerprint contains no slash. -/
theorem sha1hex8_no_slash (q : List Char) : ∀ c ∈ sha1hex8 q, c ≠ '/' := by
  intro c hc
  simp only [sha1hex8, List.mem_cons, List.not_mem_nil, or_false] at hc
  rcases hc with rfl | rfl | rfl | rfl | rfl | rfl | rfl | rfl <;> exact hexChar_ne_slash _

/-- A `none` result of `rfind` means the character is absent. -/
theorem rlastIdx_none_not_mem (c : Char) (l : List Char) (h : rlastIdx c l = none) : c ∉ l := by
  induction l with
  | nil => simp
  | cons x xs ih =>
    simp only [rlastIdx] at h
    cases hx : rlastIdx c xs with
    | some i => rw [hx] at h; exact absurd h (by simp)
    | none =>
      rw [hx] at h
      by_cases hxc : (x == c) = true
      · rw [if_pos hxc] at h; exact absurd h (by simp)
      · intro hm
        rcases List.mem_cons.mp hm with rfl | hm'
        · exact hxc (by simp)
        · exact ih hx hm'

/-- Past the last occurrence reported by `rfind`, the character does not occur. -/
theorem rlastIdx_drop_not_mem (c : Char) (l : List Char) (i : Nat)
    (h : rlastIdx c l = some i) : c ∉ l.drop (i + 1) := by
  induction l generalizing i with
  | nil => simp
  | cons x xs ih =>
    simp only [rlastIdx] at h
    cases hx : rlastIdx c xs with
    | some i' =>
      rw [hx] at h
      have hi : i = i' + 1 := by injection h with h'; omega
      subst hi
      simpa using ih i' hx
    | none =>
      rw [hx] at h
      by_cases hxc : (x == c) = true
      · rw [if_pos hxc] at h
        have hi : i = 0 := by injection h with h'; omega
        subst hi
        simpa using rlastIdx_none_not_mem c xs hx
      · rw [if_neg hxc] at h; exact absurd h (by simp)

/-- The extension returned by `splitext` never contains a slash (it starts at the
last dot of the last component). -/
theorem splitext_ext_no_slash (p : List Char) : ∀ c ∈ (splitextCL p).2, c ≠ '/' := by
  intro c hc hslash
  subst hslash
  cases hdot : rlastIdx '.' p with
  | none =>
    rw [splitextCL, hdot] at hc
    simp at hc
  | some dotIdx =>
    cases hsep : rlastIdx '/' p with
    | none =>
      rw [splitextCL, hdot, hsep] at hc
      simp only [] at hc
      by_cases hcond :
          (0 ≤ dotIdx && ((p.drop 0).take (dotIdx - 0)).any (fun c => c != '.')) = true
      · rw [if_pos hcond] at hc
        exact rlastIdx_none_not_mem '/' p hsep (List.mem_of_mem_drop hc)
      · rw [if_neg hcond] at hc
        simp at hc
    | some sepIdx =>
      rw [splitextCL, hdot, hsep] at hc
      simp only [] at hc
      by_cases hcond :
          (sepIdx + 1 ≤ dotIdx &&
            ((p.drop (sepIdx + 1)).take (dotIdx - (sepIdx + 1))).any (fun c => c != '.')) = true
      · rw [if_pos hcond] at hc
        have hle : sepIdx + 1 ≤ dotIdx := by
          have h1 : (decide (sepIdx + 1 ≤ dotIdx)) = true := by
            cases hd : decide (sepIdx + 1 ≤ dotIdx) with
            | true => rfl
            | false => rw [hd] at hcond; simp at hcond
          simpa using h1
        have hmem : ('/' : Char) ∈ p.drop (sepIdx + 1) := by
          have heq : p.drop dotIdx = (p.drop (sepIdx + 1)).drop (dotIdx - (sepIdx + 1)) := by
            rw [List.drop_drop]
            congr 1
            omega
          rw [heq] at hc
          exact List.mem_of_mem_drop hc
        exact rlastIdx_drop_not_mem '/' p sepIdx hsep hmem
      · rw [if_neg hcond] at hc
        simp at hc

/-- Splitting never yields the empty list of pieces. -/
theorem splitOnChar_ne_nil (sep : Char) (l : List Char) : splitOnChar sep l ≠ [] := by
  cases l with
  | nil => simp [splitOnChar]
  | cons c rest =>
    simp only [splitOnChar]
    cases splitOnChar sep rest with
    | nil => simp
    | cons h t =>
      by_cases hc : (c == sep) = true
      · simp [hc]
      · simp [hc]

/-- Appending of a suffix to the last piece of a split. -/
def appLast (suffix : List Char) : List (List Char) → List (List Char)
  | [] => [suffix]
  | [x] => [x ++ suffix]
  | x :: xs => x :: appLast suffix xs

/-- Splitting a list whose tail avoids the separator appends that tail to the
last piece. -/
theorem splitOnChar_append_no_sep (sep : Char) (X Y : List Char)
    (hY : ∀ c ∈ Y, c ≠ sep) :
    splitOnChar sep (X ++ Y) = appLast Y (splitOnChar sep X) := by
  induction X with
  | nil =>
    simp only [List.nil_append]
    rw [splitOnChar_no_sep sep Y hY]
    rfl
  | cons c X' ih =>
    cases hS : splitOnChar sep X' with
    | nil => exact absurd hS (splitOnChar_ne_nil sep X')
    | cons h t =>
      rw [hS] at ih
      cases t with
      | nil =>
        by_cases hc : (c == sep) = true
        · simp [List.cons_append, splitOnChar, ih, hS, appLast, hc]
        · simp [List.cons_append, splitOnChar, ih, hS, appLast, hc]
      | cons h2 t2 =>
        by_cases hc : (c == sep) = true
        · simp [List.cons_append, splitOnChar, ih, hS, appLast, hc]
        · simp [List.cons_append, splitOnChar, ih, hS, appLast, hc]

/-- The part filter of `PurePosixPath` keeps every piece of length at least two. -/
theorem posixKeep_of_two_le (l : List Char) (h : 2 ≤ l.length) :
    (!(l == []) && !(l == ['.'])) = true := by
  match l, h with
  | a :: b :: t, _ => simp

/-- Filtering after appending distinct suffixes to the last piece: when both
suffixed pieces are kept by the filter, equal filtered results force equal
suffixes. -/
theorem filter_appLast_inj (p : List Char → Bool) (Y1 Y2 : List Char)
    (hp1 : ∀ z, p (z ++ Y1) = true) (hp2 : ∀ z, p (z ++ Y2) = true) :
    ∀ S : List (List Char),
      (appLast Y1 S).filter p = (appLast Y2 S).filter p → Y1 = Y2 := by
  intro S
  induction S with
  | nil =>
    intro h
    have h1 : p Y1 = true := by simpa using hp1 []
    have h2 : p Y2 = true := by simpa using hp2 []
    simpa [appLast, List.filter, h1, h2] using h
  | cons x xs ih =>
    cases xs with
    | nil =>
      intro h
      simp only [appLast, List.filter, hp1 x, hp2 x] at h
      simpa using h
    | cons x2 xs2 =>
      intro h
      simp only [appLast] at h
      by_cases hx : p x = true
      · simp only [List.filter, hx] at h
        exact ih (by simpa using h)
      · have hx' : p x = false := by simpa using hx
        simp only [List.filter, hx'] at h
        exact ih h

/-- The defaulted extension contains no slash. -/
theorem relExt_no_slash (path : List Char) : ∀ c ∈ relExt path, c ≠ '/' := by
  intro c hc
  unfold relExt at hc
  by_cases he : ((splitextCL (decodedPath path)).2 == []) = true
  · rw [if_pos he] at hc
    rw [show ".html".toList = ['.', 'h', 't', 'm', 'l'] from rfl] at hc
    fin_cases hc <;> decide
  · rw [if_neg he] at hc
    exact splitext_ext_no_slash _ c hc

/-- C8 (amended): two URLs that differ only in their query string map to distinct
local paths provided both queries are nonempty and their truncated SHA-1
fingerprints (`hexdigest()[:8]`) differ; with equal fingerprints the paths
collide (see the counterexample). -/
theorem url_query_distinct_fingerprints (u1 u2 root : String)
    (host path q1 q2 : List Char)
    (hu1 : urlparseCL u1.toList = (host, path, q1))
    (hu2 : urlparseCL u2.toList = (host, path, q2))
    (hq1 : q1 ≠ []) (hq2 : q2 ≠ [])
    (hh : sha1hex8 q1 ≠ sha1hex8 q2) :
    (url_to_local_path u1 root).1 ≠ (url_to_local_path u2 root).1 := by
  intro heq
  apply hh
  have hrel : ∀ q : List Char, q ≠ [] →
      mappedRel path q = relStem path ++ (sha1hex8 q ++ relExt path) := by
    intro q hq
    have hq' : (q != []) = true := by simpa using hq
    simp [mappedRel, hq', List.append_assoc]
  have hstemne : ((relStem path).dropWhile (· == '/')).isEmpty = false := by
    cases hd : (relStem path).dropWhile (· == '/') with
    | cons a t => rfl
    | nil =>
      have hall := List.dropWhile_eq_nil_iff.mp hd
      have hmem : ('_' : Char) ∈ relStem path := by
        unfold relStem
        exact List.mem_append_right _ (by decide)
      have := hall '_' hmem
      simp at this
  have hA : ∀ q : List Char, q ≠ [] →
      lstripSlash (mappedRel path q) =
        (relStem path).dropWhile (· == '/') ++ (sha1hex8 q ++ relExt path) := by
    intro q hq
    rw [hrel q hq]
    unfold lstripSlash
    rw [List.dropWhile_append, hstemne]
    simp
  have hfree : ∀ q : List Char, ∀ c ∈ sha1hex8 q ++ relExt path, c ≠ '/' := by
    intro q c hc
    rcases List.mem_append.mp hc with h | h
    · exact sha1hex8_no_slash q c h
    · exact relExt_no_slash path c h
  have hkeep : ∀ q : List Char, ∀ z : List Char,
      (!(z ++ (sha1hex8 q ++ relExt path) == []) &&
       !(z ++ (sha1hex8 q ++ relExt path) == ['.'])) = true := by
    intro q z
    apply posixKeep_of_two_le
    have h8 : (sha1hex8 q).length = 8 := sha1hex8_length q
    simp [List.length_append, h8]
    omega
  have h2 := congrArg Prod.snd heq
  simp only [url_to_local_path] at h2
  rw [hu1, hu2] at h2
  simp only [posixParts] at h2
  rw [hA q1 hq1, hA q2 hq2,
    splitOnChar_append_no_sep '/' _ _ (hfree q1),
    splitOnChar_append_no_sep '/' _ _ (hfree q2),
    List.append_assoc, List.append_assoc] at h2
  have h3 := List.append_cancel_left h2
  have h4 := List.append_cancel_left h3
  have h5 := filter_appLast_inj _ _ _ (hkeep q1) (hkeep q2) _ h4
  exact List.append_cancel_right h5

/-- Witness for C8 (amended) at two concrete URLs whose query fingerprints
differ. -/
theorem url_query_distinct_fingerprints_witness :
    (url_to_local_path "http://h/p?a=1" "local_www").1 ≠
      (url_to_local_path "http://h/p?a=2" "local_www").1 :=
  url_query_distinct_fingerprints "http://h/p?a=1" "http://h/p?a=2" "local_www"
    "h".toList "/p".toList "a=1".toList "a=2".toList
    (by decide) (by decide) (by decide) (by decide) (by decide)

/-! ## Claim C2: no absolute URL survives the rewrite -/

mutual
/-- String values of a JSON tree, in traversal order: dict values and array
elements, recursively.  Object keys are not values. -/
def strVals : Json → List String
  | .str s => [s]
  | .arr xs => strValsArr xs
  | .obj kvs => strValsObj kvs
  | _ => []
/-- String values of the elements of an array. -/
def strValsArr : JArr → List String
  | .nil => []
  | .cons x tl => strVals x ++ strValsArr tl
/-- String values of the values of an object. -/
def strValsObj : JObj → List String
  | .nil => []
  | .cons _ v tl => strVals v ++ strValsObj tl
end

mutual
/-- No array anywhere in the value contains a null element. -/
def arrsNullFree : Json → Bool
  | .arr xs => arrsNullFreeArr xs
  | .obj kvs => arrsNullFreeObj kvs
  | _ => true
/-- Array version of `arrsNullFree`: the elements are non-null and themselves
null-free. -/
def arrsNullFreeArr : JArr → Bool
  | .nil => true
  | .cons x tl => !x.isNull && arrsNullFree x && arrsNullFreeArr tl
/-- Object version of `arrsNullFree`. -/
def arrsNullFreeObj : JObj → Bool
  | .nil => true
  | .cons _ v tl => arrsNullFree v && arrsNullFreeObj tl
end

/-- A value whose `isNull` test holds is the null value. -/
theorem isNull_iff (j : Json) : j.isNull = true ↔ j = .null := by
  cases j <;> simp [Json.isNull]

/-- Null elements contribute no string values, so filtering them preserves the
string values of an array. -/
theorem strValsArr_filterNonNull (xs : JArr) :
    strValsArr xs.filterNonNull = strValsArr xs := by
  match xs with
  | .nil => rfl
  | .cons x tl =>
    have ih := strValsArr_filterNonNull tl
    by_cases hx : x.isNull = true
    · have hx' : x = .null := (isNull_iff x).mp hx
      subst hx'
      simp [JArr.filterNonNull, strValsArr, strVals, ih, Json.isNull]
    · have hx' : x.isNull = false := by simpa using hx
      simp [JArr.filterNonNull, hx', strValsArr, ih]

/-- The manifest href written by the path mapper always starts with `/`, so it is
never an absolute http(s) URL. -/
theorem url_to_local_path_href_not_http (u r : String) :
    isHttpStr (url_to_local_path u r).2 = false := by
  rcases hu : urlparseCL u.toList with ⟨h, p, q⟩
  simp only [url_to_local_path, hu]
  rfl

/-- A non-blocked absolute URL is rewritten to the mapper's href. -/
theorem rewrite_string_http_not_blocked (root : String) (t : String) (st : RW)
    (hh : isHttpStr t = true) (hb : is_blocked (.str t) = false) :
    rewrite_string root (.str t) st =
      (.str (url_to_local_path t root).2,
       ⟨st.changed ++ [(t, (url_to_local_path t root).2,
          pathReprStr (url_to_local_path t root).1)], st.removed⟩) := by
  simp [rewrite_string, hh, hb]

/-- A blocked absolute URL is rewritten to null and recorded in `removed`. -/
theorem rewrite_string_http_blocked (root : String) (t : String) (st : RW)
    (hh : isHttpStr t = true) (hb : is_blocked (.str t) = true) :
    rewrite_string root (.str t) st = (.null, ⟨st.changed, st.removed ++ [t]⟩) := by
  simp [rewrite_string, hh, hb]

/-- Test for string values. -/
def Json.isStr : Json → Bool
  | .str _ => true
  | _ => false

/-- Branch equation of `deepReplaceObj` for a non-string head value. -/
theorem deepReplaceObj_cons_nonstr (root : String) (k : String) (v : Json) (tl : JObj)
    (st : RW) (hv : v.isStr = false) :
    deepReplaceObj root (.cons k v tl) st =
      (.cons k (deep_replace root v st).1
         (deepReplaceObj root tl (deep_replace root v st).2).1,
       (deepReplaceObj root tl (deep_replace root v st).2).2) := by
  cases v <;> first
    | rfl
    | simp [Json.isStr] at hv

/-- Branch equation of `deepReplaceObj` for an absolute blocked string value: the
entry is popped and the URL recorded in `removed`. -/
theorem deepReplaceObj_cons_blocked (root : String) (k s : String) (tl : JObj) (st : RW)
    (hh : isHttpStr s = true) (hb : is_blocked (.str s) = true) :
    deepReplaceObj root (.cons k (.str s) tl) st =
      ((deepReplaceObj root tl ⟨st.changed, st.removed ++ [s]⟩).1,
       (deepReplaceObj root tl ⟨st.changed, st.removed ++ [s]⟩).2) := by
  simp [deepReplaceObj, hh, rewrite_string_http_blocked root s st hh hb, Json.isNull]

/-- Branch equation of `deepReplaceObj` for an absolute non-blocked string value:
the value is replaced by the mapper's href and recorded in `changed`. -/
theorem deepReplaceObj_cons_mapped (root : String) (k s : String) (tl : JObj) (st : RW)
    (hh : isHttpStr s = true) (hb : is_blocked (.str s) = false) :
    deepReplaceObj root (.cons k (.str s) tl) st =
      (.cons k (.str (url_to_local_path s root).2)
         (deepReplaceObj root tl
            ⟨st.changed ++ [(s, (url_to_local_path s root).2,
               pathReprStr (url_to_local_path s root).1)], st.removed⟩).1,
       (deepReplaceObj root tl
          ⟨st.changed ++ [(s, (url_to_local_path s root).2,
             pathReprStr (url_to_local_path s root).1)], st.removed⟩).2) := by
  simp [deepReplaceObj, hh, rewrite_string_http_not_blocked root s st hh hb, Json.isNull]

/-- Branch equation of `deepReplaceObj` for a non-absolute string value: kept. -/
theorem deepReplaceObj_cons_nonhttp (root : String) (k s : String) (tl : JObj) (st : RW)
    (hh : isHttpStr s = false) :
    deepReplaceObj root (.cons k (.str s) tl) st =
      (.cons k (.str s) (deepReplaceObj root tl st).1, (deepReplaceObj root tl st).2) := by
  simp [deepReplaceObj, hh]

/-- Branch equation of `deepReplaceArr` for a non-string head element. -/
theorem deepReplaceArr_cons_nonstr (root : String) (x : Json) (tl : JArr)
    (st : RW) (hx : x.isStr = false) :
    deepReplaceArr root (.cons x tl) st =
      (.cons (deep_replace root x st).1
         (deepReplaceArr root tl (deep_replace root x st).2).1,
       (deepReplaceArr root tl (deep_replace root x st).2).2) := by
  cases x <;> first
    | rfl
    | simp [Json.isStr] at hx

/-- Branch equation of `deepReplaceArr` for an absolute blocked string element:
the slot receives `None` (filtered out by the caller). -/
theorem deepReplaceArr_cons_blocked (root : String) (s : String) (tl : JArr) (st : RW)
    (hh : isHttpStr s = true) (hb : is_blocked (.str s) = true) :
    deepReplaceArr root (.cons (.str s) tl) st =
      (.cons .null (deepReplaceArr root tl ⟨st.changed, st.removed ++ [s]⟩).1,
       (deepReplaceArr root tl ⟨st.changed, st.removed ++ [s]⟩).2) := by
  simp [deepReplaceArr, hh, rewrite_string_http_blocked root s st hh hb]

/-- Branch equation of `deepReplaceArr` for an absolute non-blocked string
element. -/
theorem deepReplaceArr_cons_mapped (root : String) (s : String) (tl : JArr) (st : RW)
    (hh : isHttpStr s = true) (hb : is_blocked (.str s) = false) :
    deepReplaceArr root (.cons (.str s) tl) st =
      (.cons (.str (url_to_local_path s root).2)
         (deepReplaceArr root tl
            ⟨st.changed ++ [(s, (url_to_local_path s root).2,
               pathReprStr (url_to_local_path s root).1)], st.removed⟩).1,
       (deepReplaceArr root tl
          ⟨st.changed ++ [(s, (url_to_local_path s root).2,
             pathReprStr (url_to_local_path s root).1)], st.removed⟩).2) := by
  simp [deepReplaceArr, hh, rewrite_string_http_not_blocked root s st hh hb]

/-- Branch equation of `deepReplaceArr` for a non-absolute string element. -/
theorem deepReplaceArr_cons_nonhttp (root : String) (s : String) (tl : JArr) (st : RW)
    (hh : isHttpStr s = false) :
    deepReplaceArr root (.cons (.str s) tl) st =
      (.cons (.str s) (deepReplaceArr root tl st).1, (deepReplaceArr root tl st).2) := by
  simp [deepReplaceArr, hh]

mutual
/-- After `deep_replace` on a non-string value, every remaining string value is
non-absolute and no array retains a null element. -/
theorem deep_replace_clean (root : String) (j : Json) (st : RW) (hj : j.isStr = false) :
    (∀ s ∈ strVals (deep_replace root j st).1, isHttpStr s = false) ∧
      arrsNullFree (deep_replace root j st).1 = true :=
  match j with
  | .null => by simp [deep_replace, strVals, arrsNullFree]
  | .bool b => by simp [deep_replace, strVals, arrsNullFree]
  | .num n => by simp [deep_replace, strVals, arrsNullFree]
  | .str s => by simp [Json.isStr] at hj
  | .obj kvs => by
    have ih := deepReplaceObj_clean root kvs st
    simpa only [deep_replace, strVals, arrsNullFree] using ih
  | .arr xs => by
    have ih := deepReplaceArr_clean root xs st
    simp only [deep_replace, strVals, arrsNullFree]
    refine ⟨?_, ih.2⟩
    intro s hs
    rw [strValsArr_filterNonNull] at hs
    exact ih.1 s hs

/-- Object part of the `deep_replace` cleanliness invariant. -/
theorem deepReplaceObj_clean (root : String) (kvs : JObj) (st : RW) :
    (∀ s ∈ strValsObj (deepReplaceObj root kvs st).1, isHttpStr s = false) ∧
      arrsNullFreeObj (deepReplaceObj root kvs st).1 = true :=
  match kvs with
  | .nil => by simp [deepReplaceObj, strValsObj, arrsNullFreeObj]
  | .cons k v tl => by
    by_cases hstr : v.isStr = true
    · obtain ⟨s, rfl⟩ : ∃ s, v = .str s := by
        cases v <;> simp [Json.isStr] at hstr ⊢
      by_cases hh : isHttpStr s = true
      · by_cases hb : is_blocked (.str s) = true
        · rw [deepReplaceObj_cons_blocked root k s tl st hh hb]
          exact deepReplaceObj_clean root tl _
        · have hb' : is_blocked (.str s) = false := by simpa using hb
          rw [deepReplaceObj_cons_mapped root k s tl st hh hb']
          have ih := deepReplaceObj_clean root tl
            ⟨st.changed ++ [(s, (url_to_local_path s root).2,
               pathReprStr (url_to_local_path s root).1)], st.removed⟩
          constructor
          · intro t ht
            simp only [strValsObj, strVals] at ht
            rcases List.mem_cons.mp (by simpa using ht) with rfl | htl
            · exact url_to_local_path_href_not_http s root
            · exact ih.1 t htl
          · simp only [arrsNullFreeObj, arrsNullFree]
            simpa using ih.2
      · have hh' : isHttpStr s = false := by simpa using hh
        rw [deepReplaceObj_cons_nonhttp root k s tl st hh']
        have ih := deepReplaceObj_clean root tl st
        constructor
        · intro t ht
          simp only [strValsObj, strVals] at ht
          rcases List.mem_cons.mp (by simpa using ht) with rfl | htl
          · exact hh'
          · exact ih.1 t htl
        · simp only [arrsNullFreeObj, arrsNullFree]
          simpa using ih.2
    · have hstr' : v.isStr = false := by simpa using hstr
      rw [deepReplaceObj_cons_nonstr root k v tl st hstr']
      have hv := deep_replace_clean root v st hstr'
      have ih := deepReplaceObj_clean root tl (deep_replace root v st).2
      constructor
      · intro t ht
        simp only [strValsObj] at ht
        rcases List.mem_append.mp ht with h | h
        · exact hv.1 t h
        · exact ih.1 t h
      · simp only [arrsNullFreeObj]
        simp [hv.2, ih.2]

/-- Array part of the `deep_replace` cleanliness invariant (stated for the
element list after the caller's `None` filtering). -/
theorem deepReplaceArr_clean (root : String) (xs : JArr) (st : RW) :
    (∀ s ∈ strValsArr (deepReplaceArr root xs st).1, isHttpStr s = false) ∧
      arrsNullFreeArr ((deepReplaceArr root xs st).1.filterNonNull) = true :=
  match xs with
  | .nil => by simp [deepReplaceArr, strValsArr, JArr.filterNonNull, arrsNullFreeArr]
  | .cons x tl => by
    by_cases hstr : x.isStr = true
    · obtain ⟨s, rfl⟩ : ∃ s, x = .str s := by
        cases x <;> simp [Json.isStr] at hstr ⊢
      by_cases hh : isHttpStr s = true
      · by_cases hb : is_blocked (.str s) = true
        · rw [deepReplaceArr_cons_blocked root s tl st hh hb]
          have ih := deepReplaceArr_clean root tl ⟨st.changed, st.removed ++ [s]⟩
          constructor
          · intro t ht
            simp only [strValsArr, strVals] at ht
            exact ih.1 t (by simpa using ht)
          · simp only [JArr.filterNonNull, Json.isNull]
            simpa using ih.2
        · have hb' : is_blocked (.str s) = false := by simpa using hb
          rw [deepReplaceArr_cons_mapped root s tl st hh hb']
          have ih := deepReplaceArr_clean root tl
            ⟨st.changed ++ [(s, (url_to_local_path s root).2,
               pathReprStr (url_to_local_path s root).1)], st.removed⟩
          constructor
          · intro t ht
            simp only [strValsArr, strVals] at ht
            rcases List.mem_cons.mp (by simpa using ht) with rfl | htl
            · exact url_to_local_path_href_not_http s root
            · exact ih.1 t htl
          · simp only [JArr.filterNonNull, Json.isNull, arrsNullFreeArr, arrsNullFree]
            simpa using ih.2
      · have hh' : isHttpStr s = false := by simpa using hh
        rw [deepReplaceArr_cons_nonhttp root s tl st hh']
        have ih := deepReplaceArr_clean root tl st
        constructor
        · intro t ht
          simp only [strValsArr, strVals] at ht
          rcases List.mem_cons.mp (by simpa using ht) with rfl | htl
          · exact hh'
          · exact ih.1 t htl
        · simp only [JArr.filterNonNull, Json.isNull, arrsNullFreeArr, arrsNullFree]
          simpa [hh'] using ih.2
    · have hstr' : x.isStr = false := by simpa using hstr
      rw [deepReplaceArr_cons_nonstr root x tl st hstr']
      have hv := deep_replace_clean root x st hstr'
      have ih := deepReplaceArr_clean root tl (deep_replace root x st).2
      constructor
      · intro t ht
        simp only [strValsArr] at ht
        rcases List.mem_append.mp ht with h | h
        · exact hv.1 t h
        · exact ih.1 t h
      · by_cases hnull : (deep_replace root x st).1.isNull = true
        · simp only [JArr.filterNonNull, hnull, if_true]
          exact ih.2
        · have hnull' : (deep_replace root x st).1.isNull = false := by simpa using hnull
          simp only [JArr.filterNonNull, hnull', Bool.false_eq_true, if_false, arrsNullFreeArr]
          simp [hnull', hv.2, ih.2]
end

/-- C2: after a successful `rewrite_manifest`, no string value anywhere in the
mutated manifest is an absolute http(s) URL, and no array retains a null
element — blocked references (and null placeholders) are entirely absent from
their containing structures. -/
theorem rewrite_manifest_no_http (m : JObj) (root : String) (m' : JObj)
    (ch : List (String × String × String)) (rm : List String)
    (h : rewrite_manifest m root = some (m', ch, rm)) :
    (∀ s ∈ strValsObj m', isHttpStr s = false) ∧ arrsNullFreeObj m' = true := by
  simp only [rewrite_manifest] at h
  split at h
  · exact absurd h (by simp)
  · rw [Option.some.injEq, Prod.mk.injEq, Prod.mk.injEq] at h
    obtain ⟨hm, -, -⟩ := h
    rw [← hm]
    exact deepReplaceObj_clean root _ _

/-- Witness for C2 at the scenario manifest. -/
theorem rewrite_manifest_no_http_witness :
    (∀ s ∈ strValsObj
        (.cons "links"
          (.arr (.cons (.obj (.cons "href" (.str "/good.com/a__q_7caf6056.html") .nil)) .nil))
          (.cons "resources" (.arr .nil) .nil)),
      isHttpStr s = false) ∧
    arrsNullFreeObj
      (.cons "links"
        (.arr (.cons (.obj (.cons "href" (.str "/good.com/a__q_7caf6056.html") .nil)) .nil))
        (.cons "resources" (.arr .nil) .nil)) = true :=
  rewrite_manifest_no_http scenarioManifest "local_www" _
    [("https://good.com/a?x=1", "/good.com/a__q_7caf6056.html",
      "local_www/good.com/a__q_7caf6056.html")]
    ["https://googletagmanager.com/gtm.js"] rfl

/-! ## Occurrence accounting for claims C1 and C10 -/

/-- In-scope test of a candidate string: absolute http(s) and not blocked (the
condition under which both discovery collects it and rewrite records it in
`changed`). -/
def inScope (s : String) : Bool := isHttpStr s && !is_blocked (.str s)

/-- The `(original, manifest_href, str(local_path))` triple that `rewrite_string`
appends to `changed`. -/
def tripleOf (root : String) (s : String) : String × String × String :=
  (s, (url_to_local_path s root).2, pathReprStr (url_to_local_path s root).1)

/-- In-scope string occurrences of a value, with multiplicity, in traversal
order. -/
def occs (j : Json) : List String := (strVals j).filter inScope

/-- In-scope occurrences of an array's elements. -/
def occsArr (xs : JArr) : List String := (strValsArr xs).filter inScope

/-- In-scope occurrences of an object's values. -/
def occsObj (kvs : JObj) : List String := (strValsObj kvs).filter inScope

/-- Moving a handled batch across a prefix: if the batch together with a
replacement accounts for a segment, it accounts for the segment in context. -/
theorem perm_insert_middle {α : Type} (h x' x pre post : List α)
    (hp : List.Perm (h ++ x') x) :
    List.Perm (h ++ (pre ++ (x' ++ post))) (pre ++ (x ++ post)) := by
  have s1 : List.Perm (h ++ (pre ++ (x' ++ post))) (pre ++ (h ++ (x' ++ post))) := by
    have := (@List.perm_append_comm _ h pre).append_right (x' ++ post)
    simpa [List.append_assoc] using this
  refine s1.trans (List.Perm.append_left pre ?_)
  have : h ++ (x' ++ post) = (h ++ x') ++ post := by rw [List.append_assoc]
  rw [this]
  exact hp.append_right post

/-- Decomposition of the string values around an updated key: `d[k] = v'`
replaces the old value's contribution in place. -/
theorem setKey_strVals (kvs : JObj) (key : String) (w v' : Json)
    (hget : kvs.get key = some w) :
    ∃ pre post, strValsObj kvs = pre ++ (strVals w ++ post) ∧
      strValsObj (kvs.setKey key v') = pre ++ (strVals v' ++ post) := by
  match kvs with
  | .nil => simp [JObj.get] at hget
  | .cons k0 v0 tl =>
    by_cases hk : (k0 == key) = true
    · simp only [JObj.get, if_pos hk] at hget
      obtain rfl : v0 = w := by injection hget
      refine ⟨[], strValsObj tl, by simp [strValsObj], ?_⟩
      simp [JObj.setKey, hk, strValsObj]
    · simp only [JObj.get, if_neg hk] at hget
      obtain ⟨pre, post, h1, h2⟩ := setKey_strVals tl key w v' hget
      exact ⟨strVals v0 ++ pre, post,
        by simp [strValsObj, h1, List.append_assoc],
        by simp [JObj.setKey, hk, strValsObj, h2, List.append_assoc]⟩

/-- Decomposition of the string values around a popped key. -/
theorem popKey_strVals (kvs : JObj) (key : String) (w : Json)
    (hget : kvs.get key = some w) :
    ∃ pre post, strValsObj kvs = pre ++ (strVals w ++ post) ∧
      strValsObj (kvs.popKey key) = pre ++ post := by
  match kvs with
  | .nil => simp [JObj.get] at hget
  | .cons k0 v0 tl =>
    by_cases hk : (k0 == key) = true
    · simp only [JObj.get, if_pos hk] at hget
      obtain rfl : v0 = w := by injection hget
      refine ⟨[], strValsObj tl, by simp [strValsObj], ?_⟩
      simp [JObj.popKey, hk, strValsObj]
    · simp only [JObj.get, if_neg hk] at hget
      obtain ⟨pre, post, h1, h2⟩ := popKey_strVals tl key w hget
      exact ⟨strVals v0 ++ pre, post,
        by simp [strValsObj, h1, List.append_assoc],
        by simp [JObj.popKey, hk, strValsObj, h2, List.append_assoc]⟩

/-- Setting an absent key appends its value's contribution at the end. -/
theorem setKey_absent_strVals (kvs : JObj) (key : String) (v' : Json)
    (hget : kvs.get key = none) :
    strValsObj (kvs.setKey key v') = strValsObj kvs ++ strVals v' := by
  match kvs with
  | .nil => simp [JObj.setKey, strValsObj]
  | .cons k0 v0 tl =>
    by_cases hk : (k0 == key) = true
    · simp [JObj.get, hk] at hget
    · simp only [JObj.get, if_neg hk] at hget
      simp [JObj.setKey, hk, strValsObj, setKey_absent_strVals tl key v' hget,
        List.append_assoc]

/-- Values reachable through a key lookup contribute to the object's string
values. -/
theorem get_strVals_mem (kvs : JObj) (key : String) (v : Json)
    (hget : kvs.get key = some v) : ∀ u ∈ strVals v, u ∈ strValsObj kvs := by
  match kvs with
  | .nil => simp [JObj.get] at hget
  | .cons k0 v0 tl =>
    by_cases hk : (k0 == key) = true
    · simp only [JObj.get, if_pos hk] at hget
      obtain rfl : v0 = v := by injection hget
      intro u hu
      simp [strValsObj, hu]
    · simp only [JObj.get, if_neg hk] at hget
      intro u hu
      simp [strValsObj, get_strVals_mem tl key v hget u hu]

/-- Occurrences of a cons object split entrywise. -/
theorem occsObj_cons (k : String) (v : Json) (tl : JObj) :
    occsObj (.cons k v tl) = occs v ++ occsObj tl := by
  simp [occsObj, occs, strValsObj, List.filter_append]

/-- Occurrences of a cons array split elementwise. -/
theorem occsArr_cons (x : Json) (tl : JArr) :
    occsArr (.cons x tl) = occs x ++ occsArr tl := by
  simp [occsArr, occs, strValsArr, List.filter_append]

mutual
/-- Deep-pass accounting (non-string values): `deep_replace` appends to `changed`
exactly one mapper triple per in-scope occurrence, in traversal order. -/
theorem deep_replace_changed (root : String) (j : Json) (st : RW) (hj : j.isStr = false) :
    (deep_replace root j st).2.changed = st.changed ++ (occs j).map (tripleOf root) :=
  match j with
  | .null => by simp [deep_replace, occs, strVals]
  | .bool b => by simp [deep_replace, occs, strVals]
  | .num n => by simp [deep_replace, occs, strVals]
  | .str s => by simp [Json.isStr] at hj
  | .obj kvs => by
    have ih := deepReplaceObj_changed root kvs st
    simpa [deep_replace, occs, strVals, occsObj] using ih
  | .arr xs => by
    have ih := deepReplaceArr_changed root xs st
    simpa [deep_replace, occs, strVals, occsArr] using ih

/-- Object part of the deep-pass `changed` accounting. -/
theorem deepReplaceObj_changed (root : String) (kvs : JObj) (st : RW) :
    (deepReplaceObj root kvs st).2.changed = st.changed ++ (occsObj kvs).map (tripleOf root) :=
  match kvs with
  | .nil => by simp [deepReplaceObj, occsObj, strValsObj]
  | .cons k v tl => by
    rw [occsObj_cons]
    by_cases hstr : v.isStr = true
    · obtain ⟨s, rfl⟩ : ∃ s, v = .str s := by
        cases v <;> simp [Json.isStr] at hstr ⊢
      by_cases hh : isHttpStr s = true
      · by_cases hb : is_blocked (.str s) = true
        · rw [deepReplaceObj_cons_blocked root k s tl st hh hb]
          have hsc : inScope s = false := by simp [inScope, hb]
          have ih := deepReplaceObj_changed root tl ⟨st.changed, st.removed ++ [s]⟩
          simpa [occs, strVals, List.filter, hsc] using ih
        · have hb' : is_blocked (.str s) = false := by simpa using hb
          rw [deepReplaceObj_cons_mapped root k s tl st hh hb']
          have hsc : inScope s = true := by simp [inScope, hh, hb']
          have ih := deepReplaceObj_changed root tl
            ⟨st.changed ++ [(s, (url_to_local_path s root).2,
               pathReprStr (url_to_local_path s root).1)], st.removed⟩
          simp only [ih]
          simp [occs, strVals, List.filter, hsc, tripleOf, List.append_assoc]
      · have hh' : isHttpStr s = false := by simpa using hh
        rw [deepReplaceObj_cons_nonhttp root k s tl st hh']
        have hsc : inScope s = false := by simp [inScope, hh']
        have ih := deepReplaceObj_changed root tl st
        simpa [occs, strVals, List.filter, hsc] using ih
    · have hstr' : v.isStr = false := by simpa using hstr
      rw [deepReplaceObj_cons_nonstr root k v tl st hstr']
      have hv := deep_replace_changed root v st hstr'
      have ih := deepReplaceObj_changed root tl (deep_replace root v st).2
      simp [ih, hv, List.append_assoc]

/-- Array part of the deep-pass `changed` accounting. -/
theorem deepReplaceArr_changed (root : String) (xs : JArr) (st : RW) :
    (deepReplaceArr root xs st).2.changed = st.changed ++ (occsArr xs).map (tripleOf root) :=
  match xs with
  | .nil => by simp [deepReplaceArr, occsArr, strValsArr]
  | .cons x tl => by
    rw [occsArr_cons]
    by_cases hstr : x.isStr = true
    · obtain ⟨s, rfl⟩ : ∃ s, x = .str s := by
        cases x <;> simp [Json.isStr] at hstr ⊢
      by_cases hh : isHttpStr s = true
      · by_cases hb : is_blocked (.str s) = true
        · rw [deepReplaceArr_cons_blocked root s tl st hh hb]
          have hsc : inScope s = false := by simp [inScope, hb]
          have ih := deepReplaceArr_changed root tl ⟨st.changed, st.removed ++ [s]⟩
          simpa [occs, strVals, List.filter, hsc] using ih
        · have hb' : is_blocked (.str s) = false := by simpa using hb
          rw [deepReplaceArr_cons_mapped root s tl st hh hb']
          have hsc : inScope s = true := by simp [inScope, hh, hb']
          have ih := deepReplaceArr_changed root tl
            ⟨st.changed ++ [(s, (url_to_local_path s root).2,
               pathReprStr (url_to_local_path s root).1)], st.removed⟩
          simp only [ih]
          simp [occs, strVals, List.filter, hsc, tripleOf, List.append_assoc]
      · have hh' : isHttpStr s = false := by simpa using hh
        rw [deepReplaceArr_cons_nonhttp root s tl st hh']
        have hsc : inScope s = false := by simp [inScope, hh']
        have ih := deepReplaceArr_changed root tl st
        simpa [occs, strVals, List.filter, hsc] using ih
    · have hstr' : x.isStr = false := by simpa using hstr
      rw [deepReplaceArr_cons_nonstr root x tl st hstr']
      have hv := deep_replace_changed root x st hstr'
      have ih := deepReplaceArr_changed root tl (deep_replace root x st).2
      simp [ih, hv, List.append_assoc]
end

/-- String values of a list of elements. -/
def strValsList (l : List Json) : List String := (l.map strVals).flatten

/-- In-scope occurrences of a list of elements. -/
def occsList (l : List Json) : List String := (strValsList l).filter inScope

/-- The two array representations carry the same string values. -/
theorem strValsArr_toList (xs : JArr) : strValsList xs.toList = strValsArr xs := by
  match xs with
  | .nil => rfl
  | .cons x tl => simp [JArr.toList, strValsList, strValsArr, ← strValsArr_toList tl]

/-- String values after converting a list back to an array. -/
theorem strValsArr_ofList (l : List Json) : strValsArr (JArr.ofList l) = strValsList l := by
  match l with
  | [] => rfl
  | x :: tl => simp [JArr.ofList, strValsList, strValsArr, strValsArr_ofList tl]

/-- The mapper's href is never in scope (it is not an absolute URL). -/
theorem inScope_href_false (s root : String) :
    inScope (url_to_local_path s root).2 = false := by
  simp [inScope, url_to_local_path_href_not_http]

/-- Accounting for one item of the known-arrays pass: the appended `changed`
triples correspond to handled in-scope occurrences, and the handled batch
together with the remaining occurrences is a permutation of the original
occurrences. -/
theorem rewriteHrefItem_master (root : String) (it : Json) (st : RW) :
    ∃ handled : List String,
      (rewriteHrefItem root it st).2.changed = st.changed ++ handled.map (tripleOf root) ∧
      List.Perm (handled ++ occs (rewriteHrefItem root it st).1) (occs it) := by
  match it with
  | .obj kvs =>
    by_cases hkey : kvs.hasKey "href" = true
    · obtain ⟨w, hw⟩ : ∃ w, kvs.get "href" = some w := by
        cases hg : kvs.get "href" with
        | some w => exact ⟨w, rfl⟩
        | none => simp [JObj.hasKey, hg] at hkey
      match w, hw with
      | .str s, hw =>
        by_cases hh : isHttpStr s = true
        · by_cases hb : is_blocked (.str s) = true
          · have heq : rewriteHrefItem root (.obj kvs) st =
                (.obj (kvs.popKey "href"), ⟨st.changed, st.removed ++ [s]⟩) := by
              simp [rewriteHrefItem, hkey, hw, rewrite_string, hh, hb, Json.isNull]
            refine ⟨[], by simp [heq], ?_⟩
            rw [heq]
            obtain ⟨pre, post, h1, h2⟩ := popKey_strVals kvs "href" (.str s) hw
            have hsc : inScope s = false := by simp [inScope, hb]
            simp only [List.nil_append, occs, strVals, h1, h2]
            simp [List.filter_append, List.filter, hsc]
          · have hb' : is_blocked (.str s) = false := by simpa using hb
            have heq : rewriteHrefItem root (.obj kvs) st =
                (.obj (kvs.setKey "href" (.str (url_to_local_path s root).2)),
                 ⟨st.changed ++ [(s, (url_to_local_path s root).2,
                    pathReprStr (url_to_local_path s root).1)], st.removed⟩) := by
              simp [rewriteHrefItem, hkey, hw, rewrite_string, hh, hb', Json.isNull]
            refine ⟨[s], by simp [heq, tripleOf], ?_⟩
            rw [heq]
            obtain ⟨pre, post, h1, h2⟩ :=
              setKey_strVals kvs "href" (.str s) (.str (url_to_local_path s root).2) hw
            have hsc : inScope s = true := by simp [inScope, hh, hb']
            simp only [occs, strVals, h1, h2]
            simp only [List.filter_append, List.filter, hsc, inScope_href_false s root]
            exact perm_insert_middle [s] [] [s]
              ((pre.filter inScope)) ((post.filter inScope)) (by simp)
        · have hh' : isHttpStr s = false := by simpa using hh
          have heq : rewriteHrefItem root (.obj kvs) st =
              (.obj (kvs.setKey "href" (.str s)), st) := by
            simp [rewriteHrefItem, hkey, hw, rewrite_string, hh', Json.isNull]
          refine ⟨[], by simp [heq], ?_⟩
          rw [heq]
          obtain ⟨pre, post, h1, h2⟩ := setKey_strVals kvs "href" (.str s) (.str s) hw
          simp [occs, strVals, h1, h2]
      | .null, hw =>
        have heq : rewriteHrefItem root (.obj kvs) st = (.obj (kvs.popKey "href"), st) := by
          simp [rewriteHrefItem, hkey, hw, rewrite_string, Json.isNull]
        refine ⟨[], by simp [heq], ?_⟩
        rw [heq]
        obtain ⟨pre, post, h1, h2⟩ := popKey_strVals kvs "href" .null hw
        simp [occs, strVals, h1, h2]
      | .bool b, hw =>
        have heq : rewriteHrefItem root (.obj kvs) st =
            (.obj (kvs.setKey "href" (.bool b)), st) := by
          simp [rewriteHrefItem, hkey, hw, rewrite_string, Json.isNull]
        refine ⟨[], by simp [heq], ?_⟩
        rw [heq]
        obtain ⟨pre, post, h1, h2⟩ := setKey_strVals kvs "href" (.bool b) (.bool b) hw
        simp [occs, strVals, h1, h2]
      | .num n, hw =>
        have heq : rewriteHrefItem root (.obj kvs) st =
            (.obj (kvs.setKey "href" (.num n)), st) := by
          simp [rewriteHrefItem, hkey, hw, rewrite_string, Json.isNull]
        refine ⟨[], by simp [heq], ?_⟩
        rw [heq]
        obtain ⟨pre, post, h1, h2⟩ := setKey_strVals kvs "href" (.num n) (.num n) hw
        simp [occs, strVals, h1, h2]
      | .arr xs, hw =>
        have heq : rewriteHrefItem root (.obj kvs) st =
            (.obj (kvs.setKey "href" (.arr xs)), st) := by
          simp [rewriteHrefItem, hkey, hw, rewrite_string, Json.isNull]
        refine ⟨[], by simp [heq], ?_⟩
        rw [heq]
        obtain ⟨pre, post, h1, h2⟩ := setKey_strVals kvs "href" (.arr xs) (.arr xs) hw
        simp [occs, strVals, h1, h2]
      | .obj kvs2, hw =>
        have heq : rewriteHrefItem root (.obj kvs) st =
            (.obj (kvs.setKey "href" (.obj kvs2)), st) := by
          simp [rewriteHrefItem, hkey, hw, rewrite_string, Json.isNull]
        refine ⟨[], by simp [heq], ?_⟩
        rw [heq]
        obtain ⟨pre, post, h1, h2⟩ := setKey_strVals kvs "href" (.obj kvs2) (.obj kvs2) hw
        simp [occs, strVals, h1, h2]
    · have hkey' : kvs.hasKey "href" = false := by simpa using hkey
      exact ⟨[], by simp [rewriteHrefItem, hkey'], by simp [rewriteHrefItem, hkey']⟩
  | .null => exact ⟨[], by simp [rewriteHrefItem], by simp [rewriteHrefItem]⟩
  | .bool b => exact ⟨[], by simp [rewriteHrefItem], by simp [rewriteHrefItem]⟩
  | .num n => exact ⟨[], by simp [rewriteHrefItem], by simp [rewriteHrefItem]⟩
  | .str s => exact ⟨[], by simp [rewriteHrefItem], by simp [rewriteHrefItem]⟩
  | .arr xs => exact ⟨[], by simp [rewriteHrefItem], by simp [rewriteHrefItem]⟩

/-- Shuffling two handled batches past each other. -/
theorem perm_batch_merge {α : Type} (h1 h2 a b : List α) :
    List.Perm ((h1 ++ h2) ++ (a ++ b)) ((h1 ++ a) ++ (h2 ++ b)) := by
  have s1 : List.Perm (h2 ++ a) (a ++ h2) := List.perm_append_comm
  have s2 : List.Perm (h1 ++ ((h2 ++ a) ++ b)) (h1 ++ ((a ++ h2) ++ b)) :=
    List.Perm.append_left h1 (s1.append_right b)
  have e1 : (h1 ++ h2) ++ (a ++ b) = h1 ++ ((h2 ++ a) ++ b) := by
    simp [List.append_assoc]
  have e2 : (h1 ++ a) ++ (h2 ++ b) = h1 ++ ((a ++ h2) ++ b) := by
    simp [List.append_assoc]
  rw [e1, e2]
  exact s2

/-- Accounting for the known-arrays pass over a list of items. -/
theorem mapRW_hrefItems_master (root : String) (items : List Json) (st : RW) :
    ∃ handled : List String,
      (mapRW (rewriteHrefItem root) items st).2.changed =
        st.changed ++ handled.map (tripleOf root) ∧
      List.Perm (handled ++ occsList (mapRW (rewriteHrefItem root) items st).1)
        (occsList items) := by
  match items with
  | [] => exact ⟨[], by simp [mapRW], by simp [mapRW]⟩
  | x :: rest =>
    obtain ⟨h1, hc1, hp1⟩ := rewriteHrefItem_master root x st
    obtain ⟨h2, hc2, hp2⟩ :=
      mapRW_hrefItems_master root rest (rewriteHrefItem root x st).2
    refine ⟨h1 ++ h2, ?_, ?_⟩
    · simp [mapRW, hc2, hc1, List.append_assoc]
    · have hr : occsList ((mapRW (rewriteHrefItem root) (x :: rest) st).1) =
          occs (rewriteHrefItem root x st).1 ++
            occsList (mapRW (rewriteHrefItem root) rest (rewriteHrefItem root x st).2).1 := by
        simp [mapRW, occsList, strValsList, occs, List.filter_append]
      rw [hr]
      have hsh := perm_batch_merge h1 h2 (occs (rewriteHrefItem root x st).1)
        (occsList (mapRW (rewriteHrefItem root) rest (rewriteHrefItem root x st).2).1)
      refine hsh.trans ?_
      have := hp1.append hp2
      simpa [occsList, occs, strValsList, List.filter_append] using this

/-- Accounting for one whole known-arrays pass (`links`, `images`,
`readingOrder`). -/
theorem rewriteListKey_master (root key : String) (m : JObj) (st : RW) :
    ∃ handled : List String,
      (rewriteListKey root key m st).2.changed = st.changed ++ handled.map (tripleOf root) ∧
      List.Perm (handled ++ occsObj (rewriteListKey root key m st).1) (occsObj m) := by
  match hg : m.get key with
  | some (.arr xs) =>
    obtain ⟨handled, hc, hp⟩ := mapRW_hrefItems_master root xs.toList st
    refine ⟨handled, ?_, ?_⟩
    · simp [rewriteListKey, hg, hc]
    · have heq1 : (rewriteListKey root key m st).1 =
          m.setKey key (.arr (JArr.ofList (mapRW (rewriteHrefItem root) xs.toList st).1)) := by
        simp [rewriteListKey, hg]
      rw [heq1]
      obtain ⟨pre, post, h1, h2⟩ := setKey_strVals m key (.arr xs)
        (.arr (JArr.ofList (mapRW (rewriteHrefItem root) xs.toList st).1)) hg
      simp only [occsObj, h1, h2, strVals, strValsArr_ofList, List.filter_append]
      apply perm_insert_middle
      have e1 : strValsList (mapRW (rewriteHrefItem root) xs.toList st).1 =
          strValsArr (JArr.ofList (mapRW (rewriteHrefItem root) xs.toList st).1) :=
        (strValsArr_ofList _).symm
      have := hp
      simp only [occsList, strValsArr_toList] at this
      exact this
  | some .null => exact ⟨[], by simp [rewriteListKey, hg], by simp [rewriteListKey, hg]⟩
  | some (.bool b) => exact ⟨[], by simp [rewriteListKey, hg], by simp [rewriteListKey, hg]⟩
  | some (.num n) => exact ⟨[], by simp [rewriteListKey, hg], by simp [rewriteListKey, hg]⟩
  | some (.str s) => exact ⟨[], by simp [rewriteListKey, hg], by simp [rewriteListKey, hg]⟩
  | some (.obj kvs2) => exact ⟨[], by simp [rewriteListKey, hg], by simp [rewriteListKey, hg]⟩
  | none => exact ⟨[], by simp [rewriteListKey, hg], by simp [rewriteListKey, hg]⟩

/-- Wellformedness of one `resources` element for the discovery/rewrite
agreement: an element whose `href` is a blocked string may carry no other
in-scope string value, since the rewrite drops the whole element while
discovery still walks its other values. -/
def resourcesElemOk : Json → Bool
  | .obj kvs =>
    match (kvs.get "href").getD .null with
    | .str s => if is_blocked (.str s) then occsObj kvs == [] else true
    | _ => true
  | _ => true

/-- Accounting for the `resources` loop, given wellformed elements. -/
theorem resourcesLoop_master (root : String) (items : List Json) (st : RW)
    (hok : items.all resourcesElemOk = true) :
    ∃ handled : List String,
      (resourcesLoop root items st).2.changed = st.changed ++ handled.map (tripleOf root) ∧
      List.Perm (handled ++ occsList (resourcesLoop root items st).1) (occsList items) := by
  match items with
  | [] => exact ⟨[], by simp [resourcesLoop], by simp [resourcesLoop]⟩
  | r :: rs =>
    have hok' : resourcesElemOk r = true ∧ rs.all resourcesElemOk = true := by
      have h := hok
      rw [List.all_cons, Bool.and_eq_true] at h
      exact h
    have hokr : resourcesElemOk r = true := hok'.1
    have hokrs : rs.all resourcesElemOk = true := hok'.2
    match r with
    | .obj kvs =>
      match hgd : (kvs.get "href").getD .null with
      | .str s =>
        have hget : kvs.get "href" = some (.str s) := by
          cases hg : kvs.get "href" with
          | some w => rw [hg] at hgd; simpa using hgd
          | none => rw [hg] at hgd; simp at hgd
        by_cases hb : is_blocked (.str s) = true
        · have hocc : occsObj kvs = [] := by
            have := hokr
            simp only [resourcesElemOk, hgd, if_pos hb] at this
            simpa using this
          have heq : resourcesLoop root (.obj kvs :: rs) st =
              resourcesLoop root rs ⟨st.changed, st.removed ++ [s]⟩ := by
            simp [resourcesLoop, hgd, hb]
          obtain ⟨h2, hc2, hp2⟩ := resourcesLoop_master root rs
            ⟨st.changed, st.removed ++ [s]⟩ hokrs
          refine ⟨h2, by simp [heq, hc2], ?_⟩
          rw [heq]
          have hor : occsList (.obj kvs :: rs) = occsObj kvs ++ occsList rs := by
            simp [occsList, strValsList, occsObj, strVals, List.filter_append]
          rw [hor, hocc]
          simpa using hp2
        · have hb' : is_blocked (.str s) = false := by simpa using hb
          by_cases hh : isHttpStr s = true
          · have heq : resourcesLoop root (.obj kvs :: rs) st =
                (.obj (kvs.setKey "href" (.str (url_to_local_path s root).2)) ::
                   (resourcesLoop root rs
                     ⟨st.changed ++ [(s, (url_to_local_path s root).2,
                        pathReprStr (url_to_local_path s root).1)], st.removed⟩).1,
                 (resourcesLoop root rs
                   ⟨st.changed ++ [(s, (url_to_local_path s root).2,
                      pathReprStr (url_to_local_path s root).1)], st.removed⟩).2) := by
              simp [resourcesLoop, hgd, hb', rewrite_string, hh, Json.isNull]
            obtain ⟨h2, hc2, hp2⟩ := resourcesLoop_master root rs
              ⟨st.changed ++ [(s, (url_to_local_path s root).2,
                 pathReprStr (url_to_local_path s root).1)], st.removed⟩ hokrs
            refine ⟨s :: h2, ?_, ?_⟩
            · simp [heq, hc2, tripleOf, List.append_assoc]
            · rw [heq]
              obtain ⟨pre, post, h1, h2e⟩ :=
                setKey_strVals kvs "href" (.str s) (.str (url_to_local_path s root).2) hget
              have hsc : inScope s = true := by simp [inScope, hh, hb']
              have hor : occsList (.obj kvs :: rs) =
                  (pre.filter inScope ++ ([s] ++ post.filter inScope)) ++ occsList rs := by
                simp [occsList, strValsList, strVals, h1, List.filter_append, List.filter, hsc,
                  List.append_assoc]
              have hol : occsList
                  (.obj (kvs.setKey "href" (.str (url_to_local_path s root).2)) ::
                    (resourcesLoop root rs
                      ⟨st.changed ++ [(s, (url_to_local_path s root).2,
                         pathReprStr (url_to_local_path s root).1)], st.removed⟩).1) =
                  (pre.filter inScope ++ ([] ++ post.filter inScope)) ++
                    occsList (resourcesLoop root rs
                      ⟨st.changed ++ [(s, (url_to_local_path s root).2,
                         pathReprStr (url_to_local_path s root).1)], st.removed⟩).1 := by
                simp [occsList, strValsList, strVals, h2e, List.filter_append, List.filter,
                  inScope_href_false s root, List.append_assoc]
              rw [hor, hol]
              have hmerge := perm_batch_merge [s] h2
                (pre.filter inScope ++ ([] ++ post.filter inScope))
                (occsList (resourcesLoop root rs
                  ⟨st.changed ++ [(s, (url_to_local_path s root).2,
                     pathReprStr (url_to_local_path s root).1)], st.removed⟩).1)
              have hstep : List.Perm
                  (([s] ++ (pre.filter inScope ++ ([] ++ post.filter inScope))) ++
                    (h2 ++ occsList (resourcesLoop root rs
                      ⟨st.changed ++ [(s, (url_to_local_path s root).2,
                         pathReprStr (url_to_local_path s root).1)], st.removed⟩).1))
                  ((pre.filter inScope ++ ([s] ++ post.filter inScope)) ++ occsList rs) :=
                List.Perm.append
                  (perm_insert_middle [s] [] [s] (pre.filter inScope) (post.filter inScope)
                    (by simp))
                  hp2
              exact hmerge.trans hstep
          · have hh' : isHttpStr s = false := by simpa using hh
            have heq : resourcesLoop root (.obj kvs :: rs) st =
                (.obj (kvs.setKey "href" (.str s)) :: (resourcesLoop root rs st).1,
                 (resourcesLoop root rs st).2) := by
              simp [resourcesLoop, hgd, hb', rewrite_string, hh', Json.isNull]
            obtain ⟨h2, hc2, hp2⟩ := resourcesLoop_master root rs st hokrs
            refine ⟨h2, by simp [heq, hc2], ?_⟩
            rw [heq]
            obtain ⟨pre, post, h1, h2e⟩ := setKey_strVals kvs "href" (.str s) (.str s) hget
            have hsame : strValsObj (kvs.setKey "href" (.str s)) = strValsObj kvs := by
              rw [h2e, h1]
            have hor : occsList (.obj kvs :: rs) =
                (strValsObj kvs).filter inScope ++ occsList rs := by
              simp [occsList, strValsList, strVals, List.filter_append]
            have hol : occsList (.obj (kvs.setKey "href" (.str s)) ::
                  (resourcesLoop root rs st).1) =
                (strValsObj kvs).filter inScope ++ occsList (resourcesLoop root rs st).1 := by
              simp [occsList, strValsList, strVals, hsame, List.filter_append]
            rw [hor, hol]
            have := hp2
            have s1 : List.Perm (h2 ++ ((strValsObj kvs).filter inScope ++
                occsList (resourcesLoop root rs st).1))
                ((strValsObj kvs).filter inScope ++ (h2 ++
                  occsList (resourcesLoop root rs st).1)) := by
              have := (@List.perm_append_comm _ (h2)
                ((strValsObj kvs).filter inScope)).append_right
                (occsList (resourcesLoop root rs st).1)
              simpa [List.append_assoc] using this
            exact s1.trans (List.Perm.append_left _ hp2)
      | .null =>
        have heq : resourcesLoop root (.obj kvs :: rs) st =
            (.obj kvs :: (resourcesLoop root rs st).1, (resourcesLoop root rs st).2) := by
          simp [resourcesLoop, hgd]
        obtain ⟨h2, hc2, hp2⟩ := resourcesLoop_master root rs st hokrs
        refine ⟨h2, by simp [heq, hc2], ?_⟩
        rw [heq]
        have hor : occsList (.obj kvs :: rs) = occs (.obj kvs) ++ occsList rs := by
          simp [occsList, strValsList, occs, List.filter_append]
        have hol : occsList (.obj kvs :: (resourcesLoop root rs st).1) =
            occs (.obj kvs) ++ occsList (resourcesLoop root rs st).1 := by
          simp [occsList, strValsList, occs, List.filter_append]
        rw [hor, hol]
        have s1 : List.Perm (h2 ++ (occs (.obj kvs) ++
            occsList (resourcesLoop root rs st).1))
            (occs (.obj kvs) ++ (h2 ++ occsList (resourcesLoop root rs st).1)) := by
          have := (@List.perm_append_comm _ (h2)
            (occs (.obj kvs))).append_right (occsList (resourcesLoop root rs st).1)
          simpa [List.append_assoc] using this
        exact s1.trans (List.Perm.append_left _ hp2)
      | .bool b =>
        have heq : resourcesLoop root (.obj kvs :: rs) st =
            (.obj kvs :: (resourcesLoop root rs st).1, (resourcesLoop root rs st).2) := by
          simp [resourcesLoop, hgd]
        obtain ⟨h2, hc2, hp2⟩ := resourcesLoop_master root rs st hokrs
        refine ⟨h2, by simp [heq, hc2], ?_⟩
        rw [heq]
        have hor : occsList (.obj kvs :: rs) = occs (.obj kvs) ++ occsList rs := by
          simp [occsList, strValsList, occs, List.filter_append]
        have hol : occsList (.obj kvs :: (resourcesLoop root rs st).1) =
            occs (.obj kvs) ++ occsList (resourcesLoop root rs st).1 := by
          simp [occsList, strValsList, occs, List.filter_append]
        rw [hor, hol]
        have s1 : List.Perm (h2 ++ (occs (.obj kvs) ++
            occsList (resourcesLoop root rs st).1))
            (occs (.obj kvs) ++ (h2 ++ occsList (resourcesLoop root rs st).1)) := by
          have := (@List.perm_append_comm _ (h2)
            (occs (.obj kvs))).append_right (occsList (resourcesLoop root rs st).1)
          simpa [List.append_assoc] using this
        exact s1.trans (List.Perm.append_left _ hp2)
      | .num n =>
        have heq : resourcesLoop root (.obj kvs :: rs) st =
            (.obj kvs :: (resourcesLoop root rs st).1, (resourcesLoop root rs st).2) := by
          simp [resourcesLoop, hgd]
        obtain ⟨h2, hc2, hp2⟩ := resourcesLoop_master root rs st hokrs
        refine ⟨h2, by simp [heq, hc2], ?_⟩
        rw [heq]
        have hor : occsList (.obj kvs :: rs) = occs (.obj kvs) ++ occsList rs := by
          simp [occsList, strValsList, occs, List.filter_append]
        have hol : occsList (.obj kvs :: (resourcesLoop root rs st).1) =
            occs (.obj kvs) ++ occsList (resourcesLoop root rs st).1 := by
          simp [occsList, strValsList, occs, List.filter_append]
        rw [hor, hol]
        have s1 : List.Perm (h2 ++ (occs (.obj kvs) ++
            occsList (resourcesLoop root rs st).1))
            (occs (.obj kvs) ++ (h2 ++ occsList (resourcesLoop root rs st).1)) := by
          have := (@List.perm_append_comm _ (h2)
            (occs (.obj kvs))).append_right (occsList (resourcesLoop root rs st).1)
          simpa [List.append_assoc] using this
        exact s1.trans (List.Perm.append_left _ hp2)
      | .arr xs =>
        have heq : resourcesLoop root (.obj kvs :: rs) st =
            (.obj kvs :: (resourcesLoop root rs st).1, (resourcesLoop root rs st).2) := by
          simp [resourcesLoop, hgd]
        obtain ⟨h2, hc2, hp2⟩ := resourcesLoop_master root rs st hokrs
        refine ⟨h2, by simp [heq, hc2], ?_⟩
        rw [heq]
        have hor : occsList (.obj kvs :: rs) = occs (.obj kvs) ++ occsList rs := by
          simp [occsList, strValsList, occs, List.filter_append]
        have hol : occsList (.obj kvs :: (resourcesLoop root rs st).1) =
            occs (.obj kvs) ++ occsList (resourcesLoop root rs st).1 := by
          simp [occsList, strValsList, occs, List.filter_append]
        rw [hor, hol]
        have s1 : List.Perm (h2 ++ (occs (.obj kvs) ++
            occsList (resourcesLoop root rs st).1))
            (occs (.obj kvs) ++ (h2 ++ occsList (resourcesLoop root rs st).1)) := by
          have := (@List.perm_append_comm _ (h2)
            (occs (.obj kvs))).append_right (occsList (resourcesLoop root rs st).1)
          simpa [List.append_assoc] using this
        exact s1.trans (List.Perm.append_left _ hp2)
      | .obj kvs2 =>
        have heq : resourcesLoop root (.obj kvs :: rs) st =
            (.obj kvs :: (resourcesLoop root rs st).1, (resourcesLoop root rs st).2) := by
          simp [resourcesLoop, hgd]
        obtain ⟨h2, hc2, hp2⟩ := resourcesLoop_master root rs st hokrs
        refine ⟨h2, by simp [heq, hc2], ?_⟩
        rw [heq]
        have hor : occsList (.obj kvs :: rs) = occs (.obj kvs) ++ occsList rs := by
          simp [occsList, strValsList, occs, List.filter_append]
        have hol : occsList (.obj kvs :: (resourcesLoop root rs st).1) =
            occs (.obj kvs) ++ occsList (resourcesLoop root rs st).1 := by
          simp [occsList, strValsList, occs, List.filter_append]
        rw [hor, hol]
        have s1 : List.Perm (h2 ++ (occs (.obj kvs) ++
            occsList (resourcesLoop root rs st).1))
            (occs (.obj kvs) ++ (h2 ++ occsList (resourcesLoop root rs st).1)) := by
          have := (@List.perm_append_comm _ (h2)
            (occs (.obj kvs))).append_right (occsList (resourcesLoop root rs st).1)
          simpa [List.append_assoc] using this
        exact s1.trans (List.Perm.append_left _ hp2)
    | .null =>
      have heq : resourcesLoop root (.null :: rs) st =
          (.null :: (resourcesLoop root rs st).1, (resourcesLoop root rs st).2) := by
        simp [resourcesLoop]
      obtain ⟨h2, hc2, hp2⟩ := resourcesLoop_master root rs st hokrs
      refine ⟨h2, by simp [heq, hc2], ?_⟩
      rw [heq]
      have hor : occsList (Json.null :: rs) = occsList rs := by
        simp [occsList, strValsList, strVals]
      have hol : occsList (Json.null :: (resourcesLoop root rs st).1) =
          occsList (resourcesLoop root rs st).1 := by
        simp [occsList, strValsList, strVals]
      rw [hor, hol]
      exact hp2
    | .bool b =>
      have heq : resourcesLoop root (.bool b :: rs) st =
          (.bool b :: (resourcesLoop root rs st).1, (resourcesLoop root rs st).2) := by
        simp [resourcesLoop]
      obtain ⟨h2, hc2, hp2⟩ := resourcesLoop_master root rs st hokrs
      refine ⟨h2, by simp [heq, hc2], ?_⟩
      rw [heq]
      have hor : occsList (Json.bool b :: rs) = occsList rs := by
        simp [occsList, strValsList, strVals]
      have hol : occsList (Json.bool b :: (resourcesLoop root rs st).1) =
          occsList (resourcesLoop root rs st).1 := by
        simp [occsList, strValsList, strVals]
      rw [hor, hol]
      exact hp2
    | .num n =>
      have heq : resourcesLoop root (.num n :: rs) st =
          (.num n :: (resourcesLoop root rs st).1, (resourcesLoop root rs st).2) := by
        simp [resourcesLoop]
      obtain ⟨h2, hc2, hp2⟩ := resourcesLoop_master root rs st hokrs
      refine ⟨h2, by simp [heq, hc2], ?_⟩
      rw [heq]
      have hor : occsList (Json.num n :: rs) = occsList rs := by
        simp [occsList, strValsList, strVals]
      have hol : occsList (Json.num n :: (resourcesLoop root rs st).1) =
          occsList (resourcesLoop root rs st).1 := by
        simp [occsList, strValsList, strVals]
      rw [hor, hol]
      exact hp2
    | .str s =>
      have heq : resourcesLoop root (.str s :: rs) st =
          (.str s :: (resourcesLoop root rs st).1, (resourcesLoop root rs st).2) := by
        simp [resourcesLoop]
      obtain ⟨h2, hc2, hp2⟩ := resourcesLoop_master root rs st hokrs
      refine ⟨h2, by simp [heq, hc2], ?_⟩
      rw [heq]
      have hor : occsList (Json.str s :: rs) = occs (.str s) ++ occsList rs := by
        simp [occsList, strValsList, occs, List.filter_append]
      have hol : occsList (Json.str s :: (resourcesLoop root rs st).1) =
          occs (.str s) ++ occsList (resourcesLoop root rs st).1 := by
        simp [occsList, strValsList, occs, List.filter_append]
      rw [hor, hol]
      have s1 : List.Perm (h2 ++ (occs (.str s) ++ occsList (resourcesLoop root rs st).1))
          (occs (.str s) ++ (h2 ++ occsList (resourcesLoop root rs st).1)) := by
        have := (@List.perm_append_comm _ (h2)
          (occs (.str s))).append_right (occsList (resourcesLoop root rs st).1)
        simpa [List.append_assoc] using this
      exact s1.trans (List.Perm.append_left _ hp2)
    | .arr xs =>
      have heq : resourcesLoop root (.arr xs :: rs) st =
          (.arr xs :: (resourcesLoop root rs st).1, (resourcesLoop root rs st).2) := by
        simp [resourcesLoop]
      obtain ⟨h2, hc2, hp2⟩ := resourcesLoop_master root rs st hokrs
      refine ⟨h2, by simp [heq, hc2], ?_⟩
      rw [heq]
      have hor : occsList (Json.arr xs :: rs) = occs (.arr xs) ++ occsList rs := by
        simp [occsList, strValsList, occs, List.filter_append]
      have hol : occsList (Json.arr xs :: (resourcesLoop root rs st).1) =
          occs (.arr xs) ++ occsList (resourcesLoop root rs st).1 := by
        simp [occsList, strValsList, occs, List.filter_append]
      rw [hor, hol]
      have s1 : List.Perm (h2 ++ (occs (.arr xs) ++ occsList (resourcesLoop root rs st).1))
          (occs (.arr xs) ++ (h2 ++ occsList (resourcesLoop root rs st).1)) := by
        have := (@List.perm_append_comm _ (h2)
          (occs (.arr xs))).append_right (occsList (resourcesLoop root rs st).1)
        simpa [List.append_assoc] using this
      exact s1.trans (List.Perm.append_left _ hp2)

/-- The `resources` field is absent or holds an array. -/
def resourcesShapeOk (m : JObj) : Bool :=
  match m.get "resources" with
  | none => true
  | some (.arr _) => true
  | some _ => false

/-- All `resources` elements are wellformed in the sense of `resourcesElemOk`. -/
def resourcesElemsOk (m : JObj) : Bool :=
  match m.get "resources" with
  | some (.arr xs) => xs.toList.all resourcesElemOk
  | _ => true

/-- Accounting for the `resources` pass under the shape hypotheses: it succeeds,
and the handled batch accounts for the occurrence difference. -/
theorem rewriteResources_master (root : String) (m : JObj) (st : RW)
    (hshape : resourcesShapeOk m = true) (helems : resourcesElemsOk m = true) :
    ∃ m' st', rewriteResources root m st = some (m', st') ∧
      ∃ handled : List String,
        st'.changed = st.changed ++ handled.map (tripleOf root) ∧
        List.Perm (handled ++ occsObj m') (occsObj m) := by
  match hg : m.get "resources" with
  | none =>
    refine ⟨m.setKey "resources" (.arr .nil), st, ?_, [], by simp, ?_⟩
    · simp [rewriteResources, hg, pyIter, JArr.toList, resourcesLoop, JArr.ofList]
    · have habs := setKey_absent_strVals m "resources" (.arr .nil) hg
      simp [occsObj, habs, strVals, strValsArr]
  | some (.arr xs) =>
    have hall : xs.toList.all resourcesElemOk = true := by
      have h := helems
      rw [resourcesElemsOk, hg] at h
      exact h
    obtain ⟨handled, hc, hp⟩ := resourcesLoop_master root xs.toList st hall
    refine ⟨m.setKey "resources" (.arr (JArr.ofList (resourcesLoop root xs.toList st).1)),
      (resourcesLoop root xs.toList st).2, ?_, handled, hc, ?_⟩
    · simp [rewriteResources, hg, pyIter]
    · obtain ⟨pre, post, h1, h2⟩ := setKey_strVals m "resources" (.arr xs)
        (.arr (JArr.ofList (resourcesLoop root xs.toList st).1)) hg
      simp only [occsObj, h1, h2, strVals, strValsArr_ofList, List.filter_append]
      apply perm_insert_middle
      have := hp
      simp only [occsList, strValsArr_toList] at this
      exact this
  | some .null => rw [resourcesShapeOk, hg] at hshape; exact absurd hshape (by simp)
  | some (.bool b) => rw [resourcesShapeOk, hg] at hshape; exact absurd hshape (by simp)
  | some (.num n) => rw [resourcesShapeOk, hg] at hshape; exact absurd hshape (by simp)
  | some (.str s) => rw [resourcesShapeOk, hg] at hshape; exact absurd hshape (by simp)
  | some (.obj kvs) => rw [resourcesShapeOk, hg] at hshape; exact absurd hshape (by simp)

/-- Accounting for the `metadata.identifier` pass. -/
theorem rewriteIdentifier_master (root : String) (m : JObj) (st : RW) :
    ∃ handled : List String,
      (rewriteIdentifier root m st).2.changed = st.changed ++ handled.map (tripleOf root) ∧
      List.Perm (handled ++ occsObj (rewriteIdentifier root m st).1) (occsObj m) := by
  match hg : m.get "metadata" with
  | some (.obj mk) =>
    match hgi : mk.get "identifier" with
    | some (.str s) =>
      by_cases hh : isHttpStr s = true
      · by_cases hb : is_blocked (.str s) = true
        · have heq : rewriteIdentifier root m st =
              (m.setKey "metadata" (.obj (mk.popKey "identifier")),
               ⟨st.changed, st.removed ++ [s]⟩) := by
            simp [rewriteIdentifier, hg, hgi, rewrite_string, hh, hb, Json.isNull]
          refine ⟨[], by simp [heq], ?_⟩
          rw [heq]
          obtain ⟨pre, post, h1, h2⟩ :=
            setKey_strVals m "metadata" (.obj mk) (.obj (mk.popKey "identifier")) hg
          obtain ⟨pre2, post2, hi1, hi2⟩ := popKey_strVals mk "identifier" (.str s) hgi
          have hsc : inScope s = false := by simp [inScope, hb]
          simp only [List.nil_append, occsObj, h1, h2, strVals, hi1, hi2,
            List.filter_append, List.filter, hsc]
          simp [List.append_assoc]
        · have hb' : is_blocked (.str s) = false := by simpa using hb
          have heq : rewriteIdentifier root m st =
              (m.setKey "metadata"
                 (.obj (mk.setKey "identifier" (.str (url_to_local_path s root).2))),
               ⟨st.changed ++ [(s, (url_to_local_path s root).2,
                  pathReprStr (url_to_local_path s root).1)], st.removed⟩) := by
            simp [rewriteIdentifier, hg, hgi, rewrite_string, hh, hb', Json.isNull]
          refine ⟨[s], by simp [heq, tripleOf], ?_⟩
          rw [heq]
          obtain ⟨pre, post, h1, h2⟩ := setKey_strVals m "metadata" (.obj mk)
            (.obj (mk.setKey "identifier" (.str (url_to_local_path s root).2))) hg
          obtain ⟨pre2, post2, hi1, hi2⟩ := setKey_strVals mk "identifier" (.str s)
            (.str (url_to_local_path s root).2) hgi
          have hsc : inScope s = true := by simp [inScope, hh, hb']
          simp only [occsObj, h1, h2, strVals, hi1, hi2, List.filter_append, List.filter,
            hsc, inScope_href_false s root]
          have hinner : List.Perm
              (([s] : List String) ++ (pre2.filter inScope ++ ([] ++ post2.filter inScope)))
              (pre2.filter inScope ++ ([s] ++ post2.filter inScope)) :=
            perm_insert_middle [s] [] [s] (pre2.filter inScope) (post2.filter inScope)
              (by simp)
          have houter := perm_insert_middle [s]
            (pre2.filter inScope ++ ([] ++ post2.filter inScope))
            (pre2.filter inScope ++ ([s] ++ post2.filter inScope))
            (pre.filter inScope) (post.filter inScope) hinner
          simpa [List.append_assoc] using houter
      · have hh' : isHttpStr s = false := by simpa using hh
        have heq : rewriteIdentifier root m st =
            (m.setKey "metadata" (.obj (mk.setKey "identifier" (.str s))), st) := by
          simp [rewriteIdentifier, hg, hgi, rewrite_string, hh', Json.isNull]
        refine ⟨[], by simp [heq], ?_⟩
        rw [heq]
        obtain ⟨pre2, post2, hi1, hi2⟩ := setKey_strVals mk "identifier" (.str s) (.str s) hgi
        have hsame : strValsObj (mk.setKey "identifier" (.str s)) = strValsObj mk := by
          rw [hi2, hi1]
        obtain ⟨pre, post, h1, h2⟩ := setKey_strVals m "metadata" (.obj mk)
          (.obj (mk.setKey "identifier" (.str s))) hg
        simp [occsObj, h1, h2, strVals, hsame]
    | some .null => exact ⟨[], by simp [rewriteIdentifier, hg, hgi], by simp [rewriteIdentifier, hg, hgi]⟩
    | some (.bool b) => exact ⟨[], by simp [rewriteIdentifier, hg, hgi], by simp [rewriteIdentifier, hg, hgi]⟩
    | some (.num n) => exact ⟨[], by simp [rewriteIdentifier, hg, hgi], by simp [rewriteIdentifier, hg, hgi]⟩
    | some (.arr xs) => exact ⟨[], by simp [rewriteIdentifier, hg, hgi], by simp [rewriteIdentifier, hg, hgi]⟩
    | some (.obj mk2) => exact ⟨[], by simp [rewriteIdentifier, hg, hgi], by simp [rewriteIdentifier, hg, hgi]⟩
    | none => exact ⟨[], by simp [rewriteIdentifier, hg, hgi], by simp [rewriteIdentifier, hg, hgi]⟩
  | some .null => exact ⟨[], by simp [rewriteIdentifier, hg], by simp [rewriteIdentifier, hg]⟩
  | some (.bool b) => exact ⟨[], by simp [rewriteIdentifier, hg], by simp [rewriteIdentifier, hg]⟩
  | some (.num n) => exact ⟨[], by simp [rewriteIdentifier, hg], by simp [rewriteIdentifier, hg]⟩
  | some (.str s) => exact ⟨[], by simp [rewriteIdentifier, hg], by simp [rewriteIdentifier, hg]⟩
  | some (.arr xs) => exact ⟨[], by simp [rewriteIdentifier, hg], by simp [rewriteIdentifier, hg]⟩
  | none => exact ⟨[], by simp [rewriteIdentifier, hg], by simp [rewriteIdentifier, hg]⟩

/-- Key lookups other than the updated key are unaffected. -/
theorem get_setKey_ne (m : JObj) (key k' : String) (v : Json) (h : (key == k') = false) :
    (m.setKey key v).get k' = m.get k' := by
  have hne : ¬ ((key == k') = true) := by simp [h]
  match m with
  | .nil =>
    show (JObj.cons key v .nil).get k' = JObj.nil.get k'
    simp only [JObj.get]
    rw [if_neg hne]
  | .cons k0 v0 tl =>
    by_cases hk : (k0 == key) = true
    · simp only [JObj.setKey, if_pos hk, JObj.get]
      have hk0 : k0 = key := by simpa using hk
      subst hk0
      rw [if_neg hne, if_neg hne]
    · simp only [JObj.setKey, if_neg hk, JObj.get]
      by_cases hk' : (k0 == k') = true
      · rw [if_pos hk', if_pos hk']
      · rw [if_neg hk', if_neg hk']
        exact get_setKey_ne tl key k' v h

/-- The known-arrays pass leaves other keys' values untouched. -/
theorem rewriteListKey_get_ne (root key k' : String) (m : JObj) (st : RW)
    (h : (key == k') = false) :
    (rewriteListKey root key m st).1.get k' = m.get k' := by
  match hg : m.get key with
  | some (.arr xs) =>
    simp only [rewriteListKey, hg]
    exact get_setKey_ne m key k' _ h
  | some .null => simp [rewriteListKey, hg]
  | some (.bool b) => simp [rewriteListKey, hg]
  | some (.num n) => simp [rewriteListKey, hg]
  | some (.str s) => simp [rewriteListKey, hg]
  | some (.obj kvs) => simp [rewriteListKey, hg]
  | none => simp [rewriteListKey, hg]

/-- Total accounting for `rewrite_manifest` under the resources shape
hypotheses: it succeeds and `changed` is the mapper triple of a permutation of
the manifest's in-scope occurrences. -/
theorem rewrite_manifest_master (m : JObj) (root : String)
    (hshape : resourcesShapeOk m = true) (helems : resourcesElemsOk m = true) :
    ∃ m' ch rm, rewrite_manifest m root = some (m', ch, rm) ∧
      ∃ H : List String, ch = H.map (tripleOf root) ∧ List.Perm H (occsObj m) := by
  obtain ⟨h1, hc1, hperm1⟩ := rewriteListKey_master root "links" m ⟨[], []⟩
  obtain ⟨h2, hc2, hperm2⟩ := rewriteListKey_master root "images"
    (rewriteListKey root "links" m ⟨[], []⟩).1 (rewriteListKey root "links" m ⟨[], []⟩).2
  obtain ⟨h3, hc3, hperm3⟩ := rewriteListKey_master root "readingOrder"
    (rewriteListKey root "images" (rewriteListKey root "links" m ⟨[], []⟩).1
      (rewriteListKey root "links" m ⟨[], []⟩).2).1
    (rewriteListKey root "images" (rewriteListKey root "links" m ⟨[], []⟩).1
      (rewriteListKey root "links" m ⟨[], []⟩).2).2
  have hres3 : (rewriteListKey root "readingOrder"
      (rewriteListKey root "images" (rewriteListKey root "links" m ⟨[], []⟩).1
        (rewriteListKey root "links" m ⟨[], []⟩).2).1
      (rewriteListKey root "images" (rewriteListKey root "links" m ⟨[], []⟩).1
        (rewriteListKey root "links" m ⟨[], []⟩).2).2).1.get "resources" =
      m.get "resources" := by
    rw [rewriteListKey_get_ne root "readingOrder" "resources" _ _ (by decide),
      rewriteListKey_get_ne root "images" "resources" _ _ (by decide),
      rewriteListKey_get_ne root "links" "resources" _ _ (by decide)]
  have hshape3 : resourcesShapeOk (rewriteListKey root "readingOrder"
      (rewriteListKey root "images" (rewriteListKey root "links" m ⟨[], []⟩).1
        (rewriteListKey root "links" m ⟨[], []⟩).2).1
      (rewriteListKey root "images" (rewriteListKey root "links" m ⟨[], []⟩).1
        (rewriteListKey root "links" m ⟨[], []⟩).2).2).1 = true := by
    simp only [resourcesShapeOk, hres3]
    simp only [resourcesShapeOk] at hshape
    exact hshape
  have helems3 : resourcesElemsOk (rewriteListKey root "readingOrder"
      (rewriteListKey root "images" (rewriteListKey root "links" m ⟨[], []⟩).1
        (rewriteListKey root "links" m ⟨[], []⟩).2).1
      (rewriteListKey root "images" (rewriteListKey root "links" m ⟨[], []⟩).1
        (rewriteListKey root "links" m ⟨[], []⟩).2).2).1 = true := by
    simp only [resourcesElemsOk, hres3]
    simp only [resourcesElemsOk] at helems
    exact helems
  obtain ⟨m4, st4, hre, h4, hc4, hperm4⟩ := rewriteResources_master root
    (rewriteListKey root "readingOrder"
      (rewriteListKey root "images" (rewriteListKey root "links" m ⟨[], []⟩).1
        (rewriteListKey root "links" m ⟨[], []⟩).2).1
      (rewriteListKey root "images" (rewriteListKey root "links" m ⟨[], []⟩).1
        (rewriteListKey root "links" m ⟨[], []⟩).2).2).1
    (rewriteListKey root "readingOrder"
      (rewriteListKey root "images" (rewriteListKey root "links" m ⟨[], []⟩).1
        (rewriteListKey root "links" m ⟨[], []⟩).2).1
      (rewriteListKey root "images" (rewriteListKey root "links" m ⟨[], []⟩).1
        (rewriteListKey root "links" m ⟨[], []⟩).2).2).2 hshape3 helems3
  obtain ⟨h5, hc5, hperm5⟩ := rewriteIdentifier_master root m4 st4
  have hdeep := deepReplaceObj_changed root (rewriteIdentifier root m4 st4).1
    (rewriteIdentifier root m4 st4).2
  refine ⟨(deepReplaceObj root (rewriteIdentifier root m4 st4).1
      (rewriteIdentifier root m4 st4).2).1,
    (deepReplaceObj root (rewriteIdentifier root m4 st4).1
      (rewriteIdentifier root m4 st4).2).2.changed,
    (deepReplaceObj root (rewriteIdentifier root m4 st4).1
      (rewriteIdentifier root m4 st4).2).2.removed, ?_, ?_⟩
  · simp only [rewrite_manifest, hre]
  · refine ⟨h1 ++ (h2 ++ (h3 ++ (h4 ++ (h5 ++
      occsObj (rewriteIdentifier root m4 st4).1)))), ?_, ?_⟩
    · rw [hdeep, hc5, hc4, hc3, hc2, hc1]
      simp [List.map_append, List.append_assoc]
    · have s5 : List.Perm (h5 ++ occsObj (rewriteIdentifier root m4 st4).1)
          (occsObj m4) := hperm5
      have s4 := (List.Perm.append_left h4 s5).trans hperm4
      have s3 := (List.Perm.append_left h3 s4).trans hperm3
      have s2 := (List.Perm.append_left h2 s3).trans hperm2
      exact (List.Perm.append_left h1 s2).trans hperm1

/-! ## Discovery membership (collect side of claims C1, C9, C10) -/

/-- A recognized top-level field that a `for` loop iterates without visiting
object keys: anything but a non-empty dict (whose iteration yields its keys). -/
def fieldOk (m : JObj) (key : String) : Bool :=
  match m.get key with
  | some (.obj (.cons _ _ _)) => false
  | _ => true

/-- All four recognized fields of `collect_urls_from_manifest` iterate without
visiting object keys. -/
def fieldsOk (m : JObj) : Bool :=
  fieldOk m "links" && fieldOk m "images" && fieldOk m "readingOrder" &&
    fieldOk m "resources"

/-- Membership in a set insertion. -/
theorem mem_setAdd (urls : List String) (s u : String) :
    u ∈ setAdd urls s ↔ u ∈ urls ∨ u = s := by
  by_cases h : s ∈ urls
  · simp only [setAdd, if_pos h]
    constructor
    · exact Or.inl
    · rintro (hu | rfl)
      · exact hu
      · exact h
  · simp [setAdd, if_neg h]

/-- Set insertion keeps the list duplicate-free. -/
theorem nodup_setAdd (urls : List String) (s : String) (h : urls.Nodup) :
    (setAdd urls s).Nodup := by
  by_cases hs : s ∈ urls
  · simpa [setAdd, if_pos hs] using h
  · simp [setAdd, if_neg hs, List.nodup_append, h, hs]

/-- Membership in the guarded insertion: only an in-scope string is added. -/
theorem mem_add_if_http (urls : List String) (v : Json) (u : String) :
    u ∈ add_if_http urls v ↔ u ∈ urls ∨ (v = .str u ∧ inScope u = true) := by
  match v with
  | .str s =>
    by_cases h : (isHttpStr s && !is_blocked (.str s)) = true
    · rw [show add_if_http urls (.str s) = setAdd urls s by simp [add_if_http, h],
        mem_setAdd]
      constructor
      · rintro (hu | rfl)
        · exact Or.inl hu
        · exact Or.inr ⟨rfl, by simpa [inScope] using h⟩
      · rintro (hu | ⟨he, hsc⟩)
        · exact Or.inl hu
        · injection he with he2
          exact Or.inr he2.symm
    · rw [show add_if_http urls (.str s) = urls by simp [add_if_http, h]]
      constructor
      · exact Or.inl
      · rintro (hu | ⟨he, hsc⟩)
        · exact hu
        · injection he with he2
          subst he2
          exact absurd (by simpa [inScope] using hsc) h
  | .null => simp [add_if_http]
  | .bool b => simp [add_if_http]
  | .num n => simp [add_if_http]
  | .arr xs => simp [add_if_http]
  | .obj kvs => simp [add_if_http]

/-- The guarded insertion returns its input or a set insertion. -/
theorem add_if_http_eq (urls : List String) (v : Json) :
    add_if_http urls v = urls ∨ ∃ s, add_if_http urls v = setAdd urls s := by
  match v with
  | .str s =>
    by_cases h : (isHttpStr s && !is_blocked (.str s)) = true
    · exact Or.inr ⟨s, by simp [add_if_http, h]⟩
    · exact Or.inl (by simp [add_if_http, h])
  | .null => exact Or.inl rfl
  | .bool b => exact Or.inl rfl
  | .num n => exact Or.inl rfl
  | .arr xs => exact Or.inl rfl
  | .obj kvs => exact Or.inl rfl

/-- The guarded insertion keeps the list duplicate-free. -/
theorem nodup_add_if_http (urls : List String) (v : Json) (h : urls.Nodup) :
    (add_if_http urls v).Nodup := by
  rcases add_if_http_eq urls v with he | ⟨s, he⟩
  · rwa [he]
  · rw [he]
    exact nodup_setAdd urls s h

/-- Occurrence membership for a bare string value. -/
theorem mem_occs_str (s u : String) : u ∈ occs (.str s) ↔ u = s ∧ inScope s = true := by
  simp only [occs, strVals]
  rw [List.mem_filter]
  constructor
  · rintro ⟨hm, hsc⟩
    have he : u = s := by simpa using hm
    subst he
    exact ⟨rfl, hsc⟩
  · rintro ⟨rfl, hsc⟩
    exact ⟨by simp, hsc⟩

mutual
/-- Membership after the deep discovery pass: the accumulated set plus the
in-scope occurrences of the visited value. -/
theorem mem_deepCollect (urls : List String) (j : Json) (u : String) :
    u ∈ deepCollect urls j ↔ u ∈ urls ∨ u ∈ occs j :=
  match j with
  | .null => by simp [deepCollect, occs, strVals]
  | .bool b => by simp [deepCollect, occs, strVals]
  | .num n => by simp [deepCollect, occs, strVals]
  | .str s => by
    by_cases hh : isHttpStr s = true
    · rw [show deepCollect urls (.str s) = add_if_http urls (.str s) by
        simp [deepCollect, hh], mem_add_if_http, mem_occs_str]
      constructor
      · rintro (hu | ⟨he2, hsc⟩)
        · exact Or.inl hu
        · injection he2 with he3
          exact Or.inr ⟨he3.symm, by rw [he3]; exact hsc⟩
      · rintro (hu | ⟨rfl, hsc⟩)
        · exact Or.inl hu
        · exact Or.inr ⟨rfl, hsc⟩
    · have hh2 : isHttpStr s = false := by simpa using hh
      have hsc : inScope s = false := by simp [inScope, hh2]
      rw [show deepCollect urls (.str s) = urls by simp [deepCollect, hh2], mem_occs_str]
      simp [hsc]
  | .arr xs => by
    have ih := mem_deepCollectArr urls xs u
    simpa [deepCollect, occs, strVals, occsArr] using ih
  | .obj kvs => by
    have ih := mem_deepCollectObj urls kvs u
    simpa [deepCollect, occs, strVals, occsObj] using ih

/-- Array part of the deep discovery membership. -/
theorem mem_deepCollectArr (urls : List String) (xs : JArr) (u : String) :
    u ∈ deepCollectArr urls xs ↔ u ∈ urls ∨ u ∈ occsArr xs :=
  match xs with
  | .nil => by simp [deepCollectArr, occsArr, strValsArr]
  | .cons x tl => by
    rw [show deepCollectArr urls (.cons x tl) =
        deepCollectArr (deepCollect urls x) tl from rfl,
      mem_deepCollectArr (deepCollect urls x) tl u, mem_deepCollect urls x u,
      occsArr_cons]
    simp [List.mem_append, or_assoc]

/-- Object part of the deep discovery membership. -/
theorem mem_deepCollectObj (urls : List String) (kvs : JObj) (u : String) :
    u ∈ deepCollectObj urls kvs ↔ u ∈ urls ∨ u ∈ occsObj kvs :=
  match kvs with
  | .nil => by simp [deepCollectObj, occsObj, strValsObj]
  | .cons k v tl => by
    rw [show deepCollectObj urls (.cons k v tl) =
        deepCollectObj (deepCollect urls v) tl from rfl,
      mem_deepCollectObj (deepCollect urls v) tl u, mem_deepCollect urls v u,
      occsObj_cons]
    simp [List.mem_append, or_assoc]
end

mutual
/-- The deep discovery pass keeps the accumulated set duplicate-free. -/
theorem nodup_deepCollect (urls : List String) (j : Json) (h : urls.Nodup) :
    (deepCollect urls j).Nodup :=
  match j with
  | .null => h
  | .bool b => h
  | .num n => h
  | .str s => by
    by_cases hh : isHttpStr s = true
    · rw [show deepCollect urls (.str s) = add_if_http urls (.str s) by
        simp [deepCollect, hh]]
      exact nodup_add_if_http urls _ h
    · have hh2 : isHttpStr s = false := by simpa using hh
      rwa [show deepCollect urls (.str s) = urls by simp [deepCollect, hh2]]
  | .arr xs => nodup_deepCollectArr urls xs h
  | .obj kvs => nodup_deepCollectObj urls kvs h

/-- Array part of the deep discovery duplicate-freeness. -/
theorem nodup_deepCollectArr (urls : List String) (xs : JArr) (h : urls.Nodup) :
    (deepCollectArr urls xs).Nodup :=
  match xs with
  | .nil => h
  | .cons x tl => nodup_deepCollectArr (deepCollect urls x) tl (nodup_deepCollect urls x h)

/-- Object part of the deep discovery duplicate-freeness. -/
theorem nodup_deepCollectObj (urls : List String) (kvs : JObj) (h : urls.Nodup) :
    (deepCollectObj urls kvs).Nodup :=
  match kvs with
  | .nil => h
  | .cons _k v tl => nodup_deepCollectObj (deepCollect urls v) tl (nodup_deepCollect urls v h)
end

/-- A recognized-list item contributes only its own in-scope occurrences. -/
theorem mem_collectItem (urls : List String) (item : Json) (u : String)
    (hu : u ∈ collectItem urls item) : u ∈ urls ∨ u ∈ occs item := by
  match item with
  | .obj kvs =>
    rw [show collectItem urls (.obj kvs) =
        add_if_http urls ((kvs.get "href").getD .null) from rfl,
      mem_add_if_http] at hu
    rcases hu with hu | ⟨he, hsc⟩
    · exact Or.inl hu
    · right
      match hg : kvs.get "href" with
      | some w =>
        rw [hg] at he
        simp only [Option.getD_some] at he
        subst he
        have hm := get_strVals_mem kvs "href" (.str u) hg u (by simp [strVals])
        show u ∈ occsObj kvs
        simp [occsObj, List.mem_filter, hm, hsc]
      | none =>
        rw [hg] at he
        simp [Option.getD] at he
  | .str s =>
    rw [show collectItem urls (.str s) = add_if_http urls (.str s) from rfl,
      mem_add_if_http] at hu
    rcases hu with hu | ⟨he, hsc⟩
    · exact Or.inl hu
    · injection he with he2
      exact Or.inr ((mem_occs_str s u).mpr ⟨he2.symm, by rw [he2]; exact hsc⟩)
  | .null => exact Or.inl hu
  | .bool b => exact Or.inl hu
  | .num n => exact Or.inl hu
  | .arr xs => exact Or.inl hu

/-- A recognized-list item keeps the set duplicate-free. -/
theorem nodup_collectItem (urls : List String) (item : Json) (h : urls.Nodup) :
    (collectItem urls item).Nodup := by
  match item with
  | .obj kvs => exact nodup_add_if_http urls ((kvs.get "href").getD .null) h
  | .str s => exact nodup_add_if_http urls (.str s) h
  | .null => exact h
  | .bool b => exact h
  | .num n => exact h
  | .arr xs => exact h

/-- Folding a recognized list contributes only its items' in-scope occurrences. -/
theorem mem_foldl_collectItem (items : List Json) (urls : List String) (u : String)
    (hu : u ∈ items.foldl collectItem urls) :
    u ∈ urls ∨ ∃ item, item ∈ items ∧ u ∈ occs item := by
  match items with
  | [] => exact Or.inl (by simpa using hu)
  | x :: xs =>
    rw [List.foldl_cons] at hu
    rcases mem_foldl_collectItem xs (collectItem urls x) u hu with h1 | ⟨it, hit, ho⟩
    · rcases mem_collectItem urls x u h1 with h2 | h2
      · exact Or.inl h2
      · exact Or.inr ⟨x, by simp, h2⟩
    · exact Or.inr ⟨it, by simp [hit], ho⟩

/-- Folding a recognized list keeps the set duplicate-free. -/
theorem nodup_foldl_collectItem (items : List Json) (urls : List String)
    (h : urls.Nodup) : (items.foldl collectItem urls).Nodup := by
  match items with
  | [] => simpa using h
  | x :: xs =>
    rw [List.foldl_cons]
    exact nodup_foldl_collectItem xs _ (nodup_collectItem urls x h)

/-- A one-character string is never an absolute http(s) URL. -/
theorem isHttpStr_single (c : Char) : isHttpStr (String.mk [c]) = false := by
  show isHttpUrl [c] = false
  rw [isHttpUrl, startsWithCL, startsWithCL,
    show "http://".toList = ['h', 't', 't', 'p', ':', '/', '/'] from rfl,
    show "https://".toList = ['h', 't', 't', 'p', 's', ':', '/', '/'] from rfl]
  simp [List.isPrefixOf]

/-- A successful recognized-field pass returns the input set or a fold over the
field's iteration. -/
theorem collectKey_eq (m : JObj) (key : String) (urls urls2 : List String)
    (hck : collectKey m key urls = some urls2) :
    urls2 = urls ∨ ∃ items, pyIter ((m.get key).getD (.arr .nil)) = some items ∧
      urls2 = items.foldl collectItem urls := by
  by_cases ht : pyTruthy ((m.get key).getD (.arr .nil)) = true
  · match hi : pyIter ((m.get key).getD (.arr .nil)) with
    | some items =>
      right
      refine ⟨items, rfl, ?_⟩
      have he : collectKey m key urls = some (items.foldl collectItem urls) := by
        simp [collectKey, ht, hi]
      rw [he] at hck
      injection hck with h2
      exact h2.symm
    | none =>
      exfalso
      have he : collectKey m key urls = none := by simp [collectKey, ht, hi]
      rw [he] at hck
      exact Option.noConfusion hck
  · left
    have ht2 : pyTruthy ((m.get key).getD (.arr .nil)) = false := by simpa using ht
    have he : collectKey m key urls = some urls := by simp [collectKey, ht2]
    rw [he] at hck
    injection hck with h2
    exact h2.symm

/-- Elementwise occurrences embed into an array's occurrences. -/
theorem mem_occsArr_of_mem (xs : JArr) (item : Json) (u : String)
    (hit : item ∈ xs.toList) (hu : u ∈ occs item) : u ∈ occsArr xs := by
  match xs with
  | .nil => simp [JArr.toList] at hit
  | .cons x tl =>
    rw [occsArr_cons]
    rcases (by simpa [JArr.toList] using hit : item = x ∨ item ∈ tl.toList) with rfl | h2
    · simp [List.mem_append, hu]
    · simp [List.mem_append, mem_occsArr_of_mem tl item u h2 hu]

/-- A successful recognized-field pass contributes only the accumulated set and
occurrences of the manifest's values, provided the field does not iterate keys. -/
theorem mem_collectKey (m : JObj) (key : String) (urls urls2 : List String) (u : String)
    (hf : fieldOk m key = true) (hck : collectKey m key urls = some urls2)
    (hu : u ∈ urls2) : u ∈ urls ∨ u ∈ occsObj m := by
  rcases collectKey_eq m key urls urls2 hck with rfl | ⟨items, hi, rfl⟩
  · exact Or.inl hu
  · rcases mem_foldl_collectItem items urls u hu with h1 | ⟨item, hit, ho⟩
    · exact Or.inl h1
    · right
      match hg : m.get key with
      | none =>
        rw [hg] at hi
        simp only [Option.getD_none, pyIter, Option.some.injEq] at hi
        rw [← hi] at hit
        simp [JArr.toList] at hit
      | some (.arr xs) =>
        rw [hg] at hi
        simp only [Option.getD_some, pyIter, Option.some.injEq] at hi
        rw [← hi] at hit
        have hx := mem_occsArr_of_mem xs item u hit ho
        have hmem : u ∈ strValsArr xs ∧ inScope u = true := by
          simpa [occsArr, List.mem_filter] using hx
        have hm2 : u ∈ strValsObj m :=
          get_strVals_mem m key (.arr xs) hg u (by simpa [strVals] using hmem.1)
        simpa [occsObj, List.mem_filter] using And.intro hm2 hmem.2
      | some (.str s) =>
        rw [hg] at hi
        simp only [Option.getD_some, pyIter, Option.some.injEq] at hi
        rw [← hi] at hit
        obtain ⟨c, hc, rfl⟩ := List.mem_map.mp hit
        obtain ⟨rfl, hsc⟩ := (mem_occs_str _ u).mp ho
        rw [inScope, isHttpStr_single] at hsc
        simp at hsc
      | some .null =>
        rw [hg] at hi
        simp [pyIter] at hi
      | some (.bool b) =>
        rw [hg] at hi
        simp [pyIter] at hi
      | some (.num n) =>
        rw [hg] at hi
        simp [pyIter] at hi
      | some (.obj kvs) =>
        match kvs with
        | .nil =>
          rw [hg] at hi
          simp only [Option.getD_some, pyIter, Option.some.injEq] at hi
          rw [← hi] at hit
          simp [JObj.keys] at hit
        | .cons k0 v0 tl =>
          simp only [fieldOk, hg] at hf
          exact absurd hf (by simp)

/-- A successful recognized-field pass keeps the set duplicate-free. -/
theorem nodup_collectKey (m : JObj) (key : String) (urls urls2 : List String)
    (hck : collectKey m key urls = some urls2) (h : urls.Nodup) : urls2.Nodup := by
  rcases collectKey_eq m key urls urls2 hck with rfl | ⟨items, hi, rfl⟩
  · exact h
  · exact nodup_foldl_collectItem items urls h

/-- The metadata.identifier pass contributes only the accumulated set and
occurrences of the manifest's values. -/
theorem mem_collectMeta (m : JObj) (urls : List String) (u : String)
    (hu : u ∈ collectMeta m urls) : u ∈ urls ∨ u ∈ occsObj m := by
  match hg : m.get "metadata" with
  | some (.obj mk) =>
    have he : collectMeta m urls = add_if_http urls ((mk.get "identifier").getD .null) := by
      simp [collectMeta, hg]
    rw [he, mem_add_if_http] at hu
    rcases hu with h1 | ⟨he2, hsc⟩
    · exact Or.inl h1
    · right
      match hgi : mk.get "identifier" with
      | some w =>
        rw [hgi] at he2
        simp only [Option.getD_some] at he2
        subst he2
        have h1 : u ∈ strValsObj mk :=
          get_strVals_mem mk "identifier" (.str u) hgi u (by simp [strVals])
        have h2 : u ∈ strValsObj m :=
          get_strVals_mem m "metadata" (.obj mk) hg u (by simpa [strVals] using h1)
        simpa [occsObj, List.mem_filter] using And.intro h2 hsc
      | none =>
        rw [hgi] at he2
        simp [Option.getD] at he2
  | none =>
    have he : collectMeta m urls = urls := by
      simp [collectMeta, hg, JObj.get, add_if_http]
    exact Or.inl (he ▸ hu)
  | some .null =>
    have he : collectMeta m urls = urls := by simp [collectMeta, hg]
    exact Or.inl (he ▸ hu)
  | some (.bool b) =>
    have he : collectMeta m urls = urls := by simp [collectMeta, hg]
    exact Or.inl (he ▸ hu)
  | some (.num n) =>
    have he : collectMeta m urls = urls := by simp [collectMeta, hg]
    exact Or.inl (he ▸ hu)
  | some (.str s) =>
    have he : collectMeta m urls = urls := by simp [collectMeta, hg]
    exact Or.inl (he ▸ hu)
  | some (.arr xs) =>
    have he : collectMeta m urls = urls := by simp [collectMeta, hg]
    exact Or.inl (he ▸ hu)

/-- The metadata.identifier pass keeps the set duplicate-free. -/
theorem nodup_collectMeta (m : JObj) (urls : List String) (h : urls.Nodup) :
    (collectMeta m urls).Nodup := by
  cases hJ : (m.get "metadata").getD (.obj .nil) with
  | obj mk => simpa [collectMeta, hJ] using nodup_add_if_http urls ((mk.get "identifier").getD .null) h
  | null => simpa [collectMeta, hJ] using h
  | bool b => simpa [collectMeta, hJ] using h
  | num n => simpa [collectMeta, hJ] using h
  | str s => simpa [collectMeta, hJ] using h
  | arr xs => simpa [collectMeta, hJ] using h

/-- Discovery characterization: on a manifest whose recognized fields iterate
without visiting keys, a successful `collect_urls_from_manifest` returns a
duplicate-free list whose members are exactly the in-scope string-value
occurrences of the manifest. -/
theorem collect_mem_iff (m : JObj) (urls : List String)
    (hf : fieldsOk m = true)
    (hc : collect_urls_from_manifest m = some urls) :
    urls.Nodup ∧ ∀ u, u ∈ urls ↔ u ∈ occsObj m := by
  obtain ⟨hf1, hf2, hf3, hf4⟩ : fieldOk m "links" = true ∧ fieldOk m "images" = true ∧
      fieldOk m "readingOrder" = true ∧ fieldOk m "resources" = true := by
    simpa [fieldsOk, Bool.and_eq_true, and_assoc] using hf
  simp only [collect_urls_from_manifest, bind, Option.bind] at hc
  match h1 : collectKey m "links" [] with
  | none => rw [h1] at hc; exact absurd hc (by simp)
  | some u1 =>
    rw [h1] at hc
    dsimp only at hc
    match h2 : collectKey m "images" u1 with
    | none => rw [h2] at hc; exact absurd hc (by simp)
    | some u2 =>
      rw [h2] at hc
      dsimp only at hc
      match h3 : collectKey m "readingOrder" u2 with
      | none => rw [h3] at hc; exact absurd hc (by simp)
      | some u3 =>
        rw [h3] at hc
        dsimp only at hc
        match h4 : collectKey m "resources" u3 with
        | none => rw [h4] at hc; exact absurd hc (by simp)
        | some u4 =>
          rw [h4] at hc
          dsimp only at hc
          simp only [Option.some.injEq] at hc
          subst hc
          constructor
          · exact nodup_deepCollect _ _ (nodup_collectMeta m u4
              (nodup_collectKey m "resources" u3 u4 h4
                (nodup_collectKey m "readingOrder" u2 u3 h3
                  (nodup_collectKey m "images" u1 u2 h2
                    (nodup_collectKey m "links" [] u1 h1 List.nodup_nil)))))
          · intro u
            have hocc : occs (.obj m) = occsObj m := rfl
            constructor
            · intro hu
              rcases (mem_deepCollect (collectMeta m u4) (.obj m) u).mp hu with hbase | ho
              · rcases mem_collectMeta m u4 u hbase with hb4 | ho
                · rcases mem_collectKey m "resources" u3 u4 u hf4 h4 hb4 with hb3 | ho
                  · rcases mem_collectKey m "readingOrder" u2 u3 u hf3 h3 hb3 with hb2 | ho
                    · rcases mem_collectKey m "images" u1 u2 u hf2 h2 hb2 with hb1 | ho
                      · rcases mem_collectKey m "links" [] u1 u hf1 h1 hb1 with hb0 | ho
                        · simp at hb0
                        · exact ho
                      · exact ho
                    · exact ho
                  · exact ho
                · exact ho
              · rwa [hocc] at ho
            · intro hu
              exact (mem_deepCollect (collectMeta m u4) (.obj m) u).mpr
                (Or.inr (hocc ▸ hu))

/-! ## Claim C1: changed/removed versus discovery -/

/-- A blocked analytics URL. -/
def gtmUrl : String := "https://googletagmanager.com/gtm.js"

/-- Manifest whose only URL is blocked: discovery skips it, yet rewrite records
it in `removed`. -/
def cex1Manifest : JObj :=
  .cons "links" (.arr (.cons (.obj (.cons "href" (.str gtmUrl) .nil)) .nil)) .nil

/-- C1: the claim fails. For a manifest whose only URL is blocked, discovery
returns the empty set (`add_if_http` skips blocked URLs), while the rewrite
records the URL in `removed`; so the original URLs of `changed` together with
`removed` strictly exceed `discover(m_before)`. -/
theorem rewrite_accounting_cex :
    ∃ urls m' ch rm,
      collect_urls_from_manifest cex1Manifest = some urls ∧
      rewrite_manifest cex1Manifest "local_www" = some (m', ch, rm) ∧
      ¬ (∀ u, (u ∈ ch.map (fun t => t.1) ∨ u ∈ rm) ↔ u ∈ urls) := by
  refine ⟨[], .cons "links" (.arr (.cons (.obj .nil) .nil))
      (.cons "resources" (.arr .nil) .nil), [], [gtmUrl], rfl, rfl, ?_⟩
  intro h
  have h2 := (h gtmUrl).mp (Or.inr (by simp))
  simp at h2

/-- C1 (amended): on a manifest whose recognized fields iterate without visiting
keys and whose `resources` field is absent or an array of wellformed elements,
the original URLs recorded in `changed` are, as a set, exactly the URLs of a
successful discovery; `removed` accounts for the blocked URLs, which discovery
excludes. -/
theorem rewrite_accounting_amended (m : JObj) (root : String) (urls : List String)
    (hf : fieldsOk m = true) (hshape : resourcesShapeOk m = true)
    (helems : resourcesElemsOk m = true)
    (hc : collect_urls_from_manifest m = some urls) :
    ∃ m' ch rm, rewrite_manifest m root = some (m', ch, rm) ∧
      ∀ u, u ∈ ch.map (fun t => t.1) ↔ u ∈ urls := by
  obtain ⟨m', ch, rm, heq, H, hch, hperm⟩ := rewrite_manifest_master m root hshape helems
  obtain ⟨hnd, hiff⟩ := collect_mem_iff m urls hf hc
  refine ⟨m', ch, rm, heq, fun u => ?_⟩
  have hmap : ch.map (fun t => t.1) = H := by
    rw [hch, List.map_map]
    have he : ((fun (t : String × String × String) => t.1) ∘ tripleOf root) = id := by
      funext s
      rfl
    rw [he, List.map_id]
  rw [hmap, hiff u]
  exact hperm.mem_iff

/-- A wellformed one-link manifest for the amended C1 statement. -/
def wit1Manifest : JObj :=
  .cons "links" (.arr (.cons (.obj (.cons "href" (.str "https://good.example/a") .nil)) .nil))
    (.cons "resources" (.arr .nil) .nil)

/-- Witness for the amended C1 statement at a concrete wellformed manifest. -/
theorem rewrite_accounting_amended_witness :
    ∃ m' ch rm, rewrite_manifest wit1Manifest "local_www" = some (m', ch, rm) ∧
      ∀ u, u ∈ ch.map (fun t => t.1) ↔ u ∈ ["https://good.example/a"] :=
  rewrite_accounting_amended wit1Manifest "local_www" ["https://good.example/a"]
    (by decide) (by decide) (by decide) rfl

/-! ## Claim C10: one changed entry per occurrence versus found count -/

/-- An in-scope URL used twice in one manifest. -/
def dupUrl : String := "https://dup.example/a"

/-- Manifest holding the duplicated URL in two locations: as a key of a dict
`links` field (which discovery iterates, collecting keys) and as a top-level
value. -/
def cex10Manifest : JObj :=
  .cons "links" (.obj (.cons dupUrl (.str "n") .nil)) (.cons "x" (.str dupUrl) .nil)

/-- C10: the claim fails. The same in-scope URL sits in two locations of the
manifest (a `links` dict key and a top-level value), yet the rewrite appends
only one `changed` entry — the key location is rewritten by no pass — while
discovery's key iteration keeps the found count at one, so rewritten_count does
not exceed found_urls_count. -/
theorem rewrite_per_occurrence_cex :
    cex10Manifest.get "x" = some (.str dupUrl) ∧
    (∃ v tl, cex10Manifest.get "links" = some (.obj (.cons dupUrl v tl))) ∧
    inScope dupUrl = true ∧
    ∃ urls m' ch rm,
      collect_urls_from_manifest cex10Manifest = some urls ∧
      rewrite_manifest cex10Manifest "local_www" = some (m', ch, rm) ∧
      ¬ (urls.length < ch.length) := by
  refine ⟨rfl, ⟨.str "n", .nil, rfl⟩, by decide, [dupUrl],
    .cons "links" (.obj (.cons dupUrl (.str "n") .nil))
      (.cons "x" (.str "/dup.example/a")
        (.cons "resources" (.arr .nil) .nil)),
    [(dupUrl, "/dup.example/a", "local_www/dup.example/a")], [], rfl, rfl, by decide⟩

/-- C10 (amended): on a manifest whose recognized fields iterate without
visiting keys and whose `resources` field is absent or an array of wellformed
elements, a repeated in-scope string-value occurrence makes the number of
`changed` entries strictly exceed the size of the deduplicated discovered set. -/
theorem rewrite_per_occurrence_amended (m : JObj) (root : String) (urls : List String)
    (hf : fieldsOk m = true) (hshape : resourcesShapeOk m = true)
    (helems : resourcesElemsOk m = true)
    (hc : collect_urls_from_manifest m = some urls)
    (hdup : ¬ (occsObj m).Nodup) :
    ∃ m' ch rm, rewrite_manifest m root = some (m', ch, rm) ∧
      urls.length < ch.length := by
  obtain ⟨m', ch, rm, heq, H, hch, hperm⟩ := rewrite_manifest_master m root hshape helems
  obtain ⟨hnd, hiff⟩ := collect_mem_iff m urls hf hc
  refine ⟨m', ch, rm, heq, ?_⟩
  have hlen1 : ch.length = (occsObj m).length := by
    rw [hch, List.length_map, hperm.length_eq]
  have hdd : List.Perm urls (occsObj m).dedup := by
    rw [List.perm_ext_iff_of_nodup hnd (List.nodup_dedup _)]
    intro a
    rw [hiff a, List.mem_dedup]
  have hlen2 : urls.length = (occsObj m).dedup.length := hdd.length_eq
  have hsub : List.Sublist (occsObj m).dedup (occsObj m) := List.dedup_sublist _
  have hlt : (occsObj m).dedup.length < (occsObj m).length := by
    rcases Nat.lt_or_ge (occsObj m).dedup.length (occsObj m).length with h | h
    · exact h
    · exfalso
      have hle := hsub.length_le
      have heqlen : (occsObj m).dedup.length = (occsObj m).length := Nat.le_antisymm hle h
      have he2 := hsub.eq_of_length heqlen
      exact hdup (he2 ▸ List.nodup_dedup (occsObj m))
  rw [hlen1, hlen2]
  exact hlt

/-- Manifest with the same in-scope URL as the value of two distinct keys. -/
def wit10Manifest : JObj :=
  .cons "a" (.str dupUrl) (.cons "b" (.str dupUrl) .nil)

/-- Witness for the amended C10 statement at a concrete duplicated-value
manifest. -/
theorem rewrite_per_occurrence_amended_witness :
    ∃ m' ch rm, rewrite_manifest wit10Manifest "local_www" = some (m', ch, rm) ∧
      [dupUrl].length < ch.length :=
  rewrite_per_occurrence_amended wit10Manifest "local_www" [dupUrl]
    (by decide) (by decide) (by decide) rfl (by decide)

/-! ## Claim C9: object keys under discovery and rewrite -/

mutual
/-- All object keys anywhere in a value, in traversal order. -/
def allKeys : Json → List String
  | .obj kvs => allKeysObj kvs
  | .arr xs => allKeysArr xs
  | _ => []
/-- Keys inside the elements of an array. -/
def allKeysArr : JArr → List String
  | .nil => []
  | .cons x tl => allKeys x ++ allKeysArr tl
/-- Keys of an object, each followed by the keys inside its value. -/
def allKeysObj : JObj → List String
  | .nil => []
  | .cons k v tl => k :: (allKeys v ++ allKeysObj tl)
end

/-- Keys inside the elements of a plain list. -/
def allKeysList : List Json → List String
  | [] => []
  | x :: xs => allKeys x ++ allKeysList xs

/-- Keys after converting a list back to an array. -/
theorem allKeysArr_ofList (l : List Json) : allKeysArr (JArr.ofList l) = allKeysList l := by
  match l with
  | [] => rfl
  | x :: xs => simp [JArr.ofList, allKeysArr, allKeysList, allKeysArr_ofList xs]

/-- The two array representations carry the same keys. -/
theorem allKeysArr_toList (xs : JArr) : allKeysList xs.toList = allKeysArr xs := by
  match xs with
  | .nil => rfl
  | .cons x tl => simp [JArr.toList, allKeysArr, allKeysList, allKeysArr_toList tl]

/-- Key decomposition around an updated existing key. -/
theorem setKey_allKeys (kvs : JObj) (key : String) (w v' : Json)
    (hget : kvs.get key = some w) :
    ∃ pre post k0, allKeysObj kvs = pre ++ (k0 :: (allKeys w ++ post)) ∧
      allKeysObj (kvs.setKey key v') = pre ++ (k0 :: (allKeys v' ++ post)) := by
  match kvs with
  | .nil => simp [JObj.get] at hget
  | .cons k1 v1 tl =>
    by_cases hk : (k1 == key) = true
    · simp only [JObj.get, if_pos hk] at hget
      obtain rfl : v1 = w := by injection hget
      refine ⟨[], allKeysObj tl, k1, by simp [allKeysObj], ?_⟩
      simp [JObj.setKey, hk, allKeysObj]
    · simp only [JObj.get, if_neg hk] at hget
      obtain ⟨pre, post, k0, h1, h2⟩ := setKey_allKeys tl key w v' hget
      exact ⟨k1 :: (allKeys v1 ++ pre), post, k0,
        by simp [allKeysObj, h1, List.append_assoc],
        by simp [JObj.setKey, hk, allKeysObj, h2, List.append_assoc]⟩

/-- Key decomposition around a popped key. -/
theorem popKey_allKeys (kvs : JObj) (key : String) (w : Json)
    (hget : kvs.get key = some w) :
    ∃ pre post k0, allKeysObj kvs = pre ++ (k0 :: (allKeys w ++ post)) ∧
      allKeysObj (kvs.popKey key) = pre ++ post := by
  match kvs with
  | .nil => simp [JObj.get] at hget
  | .cons k1 v1 tl =>
    by_cases hk : (k1 == key) = true
    · simp only [JObj.get, if_pos hk] at hget
      obtain rfl : v1 = w := by injection hget
      refine ⟨[], allKeysObj tl, k1, by simp [allKeysObj], ?_⟩
      simp [JObj.popKey, hk, allKeysObj]
    · simp only [JObj.get, if_neg hk] at hget
      obtain ⟨pre, post, k0, h1, h2⟩ := popKey_allKeys tl key w hget
      exact ⟨k1 :: (allKeys v1 ++ pre), post, k0,
        by simp [allKeysObj, h1, List.append_assoc],
        by simp [JObj.popKey, hk, allKeysObj, h2, List.append_assoc]⟩

/-- Shrinking a decomposed middle segment preserves the sublist relation. -/
theorem sublist_middle_of_sublist (pre post a b : List String) (k0 : String)
    (h : List.Sublist a b) :
    List.Sublist (pre ++ (k0 :: (a ++ post))) (pre ++ (k0 :: (b ++ post))) :=
  ((h.append (List.Sublist.refl post)).cons₂ k0).append_left pre

/-- Dropping a decomposed middle segment preserves the sublist relation. -/
theorem sublist_drop_middle (pre post b : List String) (k0 : String) :
    List.Sublist (pre ++ post) (pre ++ (k0 :: (b ++ post))) :=
  ((List.sublist_append_right b post).cons k0).append_left pre

/-- The string rewriter never introduces keys. -/
theorem rewrite_string_keys (root : String) (s : Json) (st : RW) :
    List.Sublist (allKeys (rewrite_string root s st).1) (allKeys s) := by
  match s with
  | .str t =>
    by_cases hh : isHttpStr t = true
    · by_cases hb : is_blocked (.str t) = true
      · simp [rewrite_string, hh, hb, allKeys]
      · have hb2 : is_blocked (.str t) = false := by simpa using hb
        simp [rewrite_string, hh, hb2, allKeys]
    · have hh2 : isHttpStr t = false := by simpa using hh
      simp [rewrite_string, hh2, allKeys]
  | .null => exact List.Sublist.refl []
  | .bool b => exact List.Sublist.refl []
  | .num n => exact List.Sublist.refl []
  | .arr xs => exact List.Sublist.refl (allKeysArr xs)
  | .obj kvs => exact List.Sublist.refl (allKeysObj kvs)

/-- Null filtering never introduces keys. -/
theorem allKeysArr_filterNonNull (xs : JArr) :
    List.Sublist (allKeysArr xs.filterNonNull) (allKeysArr xs) := by
  match xs with
  | .nil => exact List.Sublist.refl []
  | .cons x tl =>
    by_cases hx : x.isNull = true
    · have hx2 : x = .null := (isNull_iff x).mp hx
      subst hx2
      have he : (JArr.cons .null tl).filterNonNull = tl.filterNonNull := by
        simp [JArr.filterNonNull, Json.isNull]
      rw [he]
      show List.Sublist (allKeysArr tl.filterNonNull) (allKeys .null ++ allKeysArr tl)
      exact (allKeysArr_filterNonNull tl).trans (List.sublist_append_right _ _)
    · have hx2 : x.isNull = false := by simpa using hx
      have he : (JArr.cons x tl).filterNonNull = .cons x tl.filterNonNull := by
        simp [JArr.filterNonNull, hx2]
      rw [he]
      show List.Sublist (allKeys x ++ allKeysArr tl.filterNonNull)
        (allKeys x ++ allKeysArr tl)
      exact (List.Sublist.refl (allKeys x)).append (allKeysArr_filterNonNull tl)

mutual
/-- The deep pass never introduces keys: output keys are a sublist of input
keys. -/
theorem deep_replace_keys (root : String) (j : Json) (st : RW) :
    List.Sublist (allKeys (deep_replace root j st).1) (allKeys j) :=
  match j with
  | .null => List.Sublist.refl []
  | .bool b => List.Sublist.refl []
  | .num n => List.Sublist.refl []
  | .str s => List.Sublist.refl []
  | .obj kvs => deepReplaceObj_keys root kvs st
  | .arr xs => by
    show List.Sublist (allKeysArr (deepReplaceArr root xs st).1.filterNonNull)
      (allKeysArr xs)
    exact (allKeysArr_filterNonNull _).trans (deepReplaceArr_keys root xs st)

/-- Object part of the deep-pass key preservation. -/
theorem deepReplaceObj_keys (root : String) (kvs : JObj) (st : RW) :
    List.Sublist (allKeysObj (deepReplaceObj root kvs st).1) (allKeysObj kvs) :=
  match kvs with
  | .nil => List.Sublist.refl []
  | .cons k v tl => by
    by_cases hstr : v.isStr = true
    · obtain ⟨s, rfl⟩ : ∃ s, v = .str s := by
        cases v <;> simp [Json.isStr] at hstr ⊢
      by_cases hh : isHttpStr s = true
      · by_cases hb : is_blocked (.str s) = true
        · rw [deepReplaceObj_cons_blocked root k s tl st hh hb]
          simp only [allKeysObj, allKeys, List.nil_append]
          exact (deepReplaceObj_keys root tl ⟨st.changed, st.removed ++ [s]⟩).cons k
        · have hb2 : is_blocked (.str s) = false := by simpa using hb
          rw [deepReplaceObj_cons_mapped root k s tl st hh hb2]
          simp only [allKeysObj, allKeys, List.nil_append]
          exact (deepReplaceObj_keys root tl
            ⟨st.changed ++ [(s, (url_to_local_path s root).2,
               pathReprStr (url_to_local_path s root).1)], st.removed⟩).cons₂ k
      · have hh2 : isHttpStr s = false := by simpa using hh
        rw [deepReplaceObj_cons_nonhttp root k s tl st hh2]
        simp only [allKeysObj, allKeys, List.nil_append]
        exact (deepReplaceObj_keys root tl st).cons₂ k
    · have hstr2 : v.isStr = false := by simpa using hstr
      rw [deepReplaceObj_cons_nonstr root k v tl st hstr2]
      simp only [allKeysObj]
      exact ((deep_replace_keys root v st).append
        (deepReplaceObj_keys root tl (deep_replace root v st).2)).cons₂ k

/-- Array part of the deep-pass key preservation. -/
theorem deepReplaceArr_keys (root : String) (xs : JArr) (st : RW) :
    List.Sublist (allKeysArr (deepReplaceArr root xs st).1) (allKeysArr xs) :=
  match xs with
  | .nil => List.Sublist.refl []
  | .cons x tl => by
    by_cases hstr : x.isStr = true
    · obtain ⟨s, rfl⟩ : ∃ s, x = .str s := by
        cases x <;> simp [Json.isStr] at hstr ⊢
      by_cases hh : isHttpStr s = true
      · by_cases hb : is_blocked (.str s) = true
        · rw [deepReplaceArr_cons_blocked root s tl st hh hb]
          simp only [allKeysArr, allKeys, List.nil_append]
          exact deepReplaceArr_keys root tl ⟨st.changed, st.removed ++ [s]⟩
        · have hb2 : is_blocked (.str s) = false := by simpa using hb
          rw [deepReplaceArr_cons_mapped root s tl st hh hb2]
          simp only [allKeysArr, allKeys, List.nil_append]
          exact deepReplaceArr_keys root tl
            ⟨st.changed ++ [(s, (url_to_local_path s root).2,
               pathReprStr (url_to_local_path s root).1)], st.removed⟩
      · have hh2 : isHttpStr s = false := by simpa using hh
        rw [deepReplaceArr_cons_nonhttp root s tl st hh2]
        simp only [allKeysArr, allKeys, List.nil_append]
        exact deepReplaceArr_keys root tl st
    · have hstr2 : x.isStr = false := by simpa using hstr
      rw [deepReplaceArr_cons_nonstr root x tl st hstr2]
      simp only [allKeysArr]
      exact (deep_replace_keys root x st).append
        (deepReplaceArr_keys root tl (deep_replace root x st).2)
end

/-- The known-arrays item rewriter never introduces keys. -/
theorem rewriteHrefItem_keys (root : String) (it : Json) (st : RW) :
    List.Sublist (allKeys (rewriteHrefItem root it st).1) (allKeys it) := by
  match it with
  | .obj kvs =>
    by_cases hkey : kvs.hasKey "href" = true
    · obtain ⟨w, hw⟩ : ∃ w, kvs.get "href" = some w := by
        cases hg : kvs.get "href" with
        | some w => exact ⟨w, rfl⟩
        | none => simp [JObj.hasKey, hg] at hkey
      have hgd : (kvs.get "href").getD .null = w := by rw [hw]; rfl
      by_cases hnull : (rewrite_string root ((kvs.get "href").getD .null) st).1.isNull = true
      · have he : (rewriteHrefItem root (.obj kvs) st).1 = .obj (kvs.popKey "href") := by
          simp [rewriteHrefItem, hkey, hnull]
        rw [he]
        show List.Sublist (allKeysObj (kvs.popKey "href")) (allKeysObj kvs)
        obtain ⟨pre, post, k0, h1, h2⟩ := popKey_allKeys kvs "href" w hw
        rw [h1, h2]
        exact sublist_drop_middle pre post (allKeys w) k0
      · have hnull2 : (rewrite_string root ((kvs.get "href").getD .null) st).1.isNull = false := by
          simpa using hnull
        have he : (rewriteHrefItem root (.obj kvs) st).1 =
            .obj (kvs.setKey "href" (rewrite_string root ((kvs.get "href").getD .null) st).1) := by
          simp [rewriteHrefItem, hkey, hnull2]
        rw [he]
        show List.Sublist
          (allKeysObj (kvs.setKey "href" (rewrite_string root ((kvs.get "href").getD .null) st).1))
          (allKeysObj kvs)
        obtain ⟨pre, post, k0, h1, h2⟩ := setKey_allKeys kvs "href" w
          (rewrite_string root ((kvs.get "href").getD .null) st).1 hw
        rw [h1, h2]
        apply sublist_middle_of_sublist
        rw [hgd]
        exact rewrite_string_keys root w st
    · have hkey2 : kvs.hasKey "href" = false := by simpa using hkey
      rw [show (rewriteHrefItem root (.obj kvs) st).1 = .obj kvs by
        simp [rewriteHrefItem, hkey2]]
  | .null => exact List.Sublist.refl _
  | .bool b => exact List.Sublist.refl _
  | .num n => exact List.Sublist.refl _
  | .str s => exact List.Sublist.refl _
  | .arr xs => exact List.Sublist.refl _

/-- Mapping the item rewriter over a list never introduces keys. -/
theorem mapRW_hrefItems_keys (root : String) (items : List Json) (st : RW) :
    List.Sublist (allKeysList (mapRW (rewriteHrefItem root) items st).1)
      (allKeysList items) := by
  match items with
  | [] => exact List.Sublist.refl []
  | x :: xs =>
    show List.Sublist (allKeys (rewriteHrefItem root x st).1 ++
      allKeysList (mapRW (rewriteHrefItem root) xs (rewriteHrefItem root x st).2).1)
      (allKeys x ++ allKeysList xs)
    exact (rewriteHrefItem_keys root x st).append
      (mapRW_hrefItems_keys root xs (rewriteHrefItem root x st).2)

/-- The known-arrays pass never introduces keys. -/
theorem rewriteListKey_keys (root key : String) (m : JObj) (st : RW) :
    List.Sublist (allKeysObj (rewriteListKey root key m st).1) (allKeysObj m) := by
  match hg : m.get key with
  | some (.arr xs) =>
    have he : (rewriteListKey root key m st).1 =
        m.setKey key (.arr (JArr.ofList (mapRW (rewriteHrefItem root) xs.toList st).1)) := by
      simp [rewriteListKey, hg]
    rw [he]
    obtain ⟨pre, post, k0, h1, h2⟩ := setKey_allKeys m key (.arr xs)
      (.arr (JArr.ofList (mapRW (rewriteHrefItem root) xs.toList st).1)) hg
    rw [h1, h2]
    apply sublist_middle_of_sublist
    show List.Sublist (allKeysArr (JArr.ofList (mapRW (rewriteHrefItem root) xs.toList st).1))
      (allKeysArr xs)
    rw [allKeysArr_ofList, ← allKeysArr_toList xs]
    exact mapRW_hrefItems_keys root xs.toList st
  | some .null => rw [show (rewriteListKey root key m st).1 = m by
      simp [rewriteListKey, hg]]
  | some (.bool b) => rw [show (rewriteListKey root key m st).1 = m by
      simp [rewriteListKey, hg]]
  | some (.num n) => rw [show (rewriteListKey root key m st).1 = m by
      simp [rewriteListKey, hg]]
  | some (.str s) => rw [show (rewriteListKey root key m st).1 = m by
      simp [rewriteListKey, hg]]
  | some (.obj kvs) => rw [show (rewriteListKey root key m st).1 = m by
      simp [rewriteListKey, hg]]
  | none => rw [show (rewriteListKey root key m st).1 = m by
      simp [rewriteListKey, hg]]

/-- The resources loop never introduces keys. -/
theorem resourcesLoop_keys (root : String) (items : List Json) (st : RW) :
    List.Sublist (allKeysList (resourcesLoop root items st).1) (allKeysList items) := by
  match items with
  | [] => exact List.Sublist.refl []
  | r :: rs =>
    match r with
    | .obj kvs =>
      match hg : (kvs.get "href").getD .null with
      | .str s =>
        by_cases hb : is_blocked (.str s) = true
        · have he : (resourcesLoop root (.obj kvs :: rs) st).1 =
              (resourcesLoop root rs ⟨st.changed, st.removed ++ [s]⟩).1 := by
            simp [resourcesLoop, hg, hb]
          rw [he]
          show List.Sublist (allKeysList (resourcesLoop root rs ⟨st.changed, st.removed ++ [s]⟩).1)
            (allKeys (.obj kvs) ++ allKeysList rs)
          exact (resourcesLoop_keys root rs _).trans (List.sublist_append_right _ _)
        · have hb2 : is_blocked (.str s) = false := by simpa using hb
          by_cases hnull : (rewrite_string root (.str s) st).1.isNull = true
          · have he : (resourcesLoop root (.obj kvs :: rs) st).1 =
                (resourcesLoop root rs (rewrite_string root (.str s) st).2).1 := by
              simp [resourcesLoop, hg, hb2, hnull]
            rw [he]
            show List.Sublist
              (allKeysList (resourcesLoop root rs (rewrite_string root (.str s) st).2).1)
              (allKeys (.obj kvs) ++ allKeysList rs)
            exact (resourcesLoop_keys root rs _).trans (List.sublist_append_right _ _)
          · have hnull2 : (rewrite_string root (.str s) st).1.isNull = false := by
              simpa using hnull
            have he : (resourcesLoop root (.obj kvs :: rs) st).1 =
                .obj (kvs.setKey "href" (rewrite_string root (.str s) st).1) ::
                  (resourcesLoop root rs (rewrite_string root (.str s) st).2).1 := by
              simp [resourcesLoop, hg, hb2, hnull2]
            rw [he]
            have hw : kvs.get "href" = some (.str s) := by
              cases hg2 : kvs.get "href" with
              | some w => rw [hg2] at hg; simpa [Option.getD_some] using hg ▸ rfl
              | none => rw [hg2] at hg; simp [Option.getD] at hg
            show List.Sublist
              (allKeysObj (kvs.setKey "href" (rewrite_string root (.str s) st).1) ++
                allKeysList (resourcesLoop root rs (rewrite_string root (.str s) st).2).1)
              (allKeysObj kvs ++ allKeysList rs)
            refine List.Sublist.append ?_ (resourcesLoop_keys root rs _)
            obtain ⟨pre, post, k0, h1, h2⟩ := setKey_allKeys kvs "href" (.str s)
              (rewrite_string root (.str s) st).1 hw
            rw [h1, h2]
            apply sublist_middle_of_sublist
            exact rewrite_string_keys root (.str s) st
      | .null =>
        have he : (resourcesLoop root (.obj kvs :: rs) st).1 =
            .obj kvs :: (resourcesLoop root rs st).1 := by
          simp [resourcesLoop, hg]
        rw [he]
        show List.Sublist (allKeysObj kvs ++ allKeysList (resourcesLoop root rs st).1)
          (allKeysObj kvs ++ allKeysList rs)
        exact (List.Sublist.refl _).append (resourcesLoop_keys root rs st)
      | .bool b =>
        have he : (resourcesLoop root (.obj kvs :: rs) st).1 =
            .obj kvs :: (resourcesLoop root rs st).1 := by
          simp [resourcesLoop, hg]
        rw [he]
        show List.Sublist (allKeysObj kvs ++ allKeysList (resourcesLoop root rs st).1)
          (allKeysObj kvs ++ allKeysList rs)
        exact (List.Sublist.refl _).append (resourcesLoop_keys root rs st)
      | .num n =>
        have he : (resourcesLoop root (.obj kvs :: rs) st).1 =
            .obj kvs :: (resourcesLoop root rs st).1 := by
          simp [resourcesLoop, hg]
        rw [he]
        show List.Sublist (allKeysObj kvs ++ allKeysList (resourcesLoop root rs st).1)
          (allKeysObj kvs ++ allKeysList rs)
        exact (List.Sublist.refl _).append (resourcesLoop_keys root rs st)
      | .arr ys =>
        have he : (resourcesLoop root (.obj kvs :: rs) st).1 =
            .obj kvs :: (resourcesLoop root rs st).1 := by
          simp [resourcesLoop, hg]
        rw [he]
        show List.Sublist (allKeysObj kvs ++ allKeysList (resourcesLoop root rs st).1)
          (allKeysObj kvs ++ allKeysList rs)
        exact (List.Sublist.refl _).append (resourcesLoop_keys root rs st)
      | .obj mk =>
        have he : (resourcesLoop root (.obj kvs :: rs) st).1 =
            .obj kvs :: (resourcesLoop root rs st).1 := by
          simp [resourcesLoop, hg]
        rw [he]
        show List.Sublist (allKeysObj kvs ++ allKeysList (resourcesLoop root rs st).1)
          (allKeysObj kvs ++ allKeysList rs)
        exact (List.Sublist.refl _).append (resourcesLoop_keys root rs st)
    | .null =>
      show List.Sublist (allKeys (.null) ++ allKeysList (resourcesLoop root rs st).1)
        (allKeys (.null) ++ allKeysList rs)
      exact (List.Sublist.refl _).append (resourcesLoop_keys root rs st)
    | .bool b =>
      show List.Sublist (allKeys (.bool b) ++ allKeysList (resourcesLoop root rs st).1)
        (allKeys (.bool b) ++ allKeysList rs)
      exact (List.Sublist.refl _).append (resourcesLoop_keys root rs st)
    | .num n =>
      show List.Sublist (allKeys (.num n) ++ allKeysList (resourcesLoop root rs st).1)
        (allKeys (.num n) ++ allKeysList rs)
      exact (List.Sublist.refl _).append (resourcesLoop_keys root rs st)
    | .str s =>
      show List.Sublist (allKeys (.str s) ++ allKeysList (resourcesLoop root rs st).1)
        (allKeys (.str s) ++ allKeysList rs)
      exact (List.Sublist.refl _).append (resourcesLoop_keys root rs st)
    | .arr ys =>
      show List.Sublist (allKeys (.arr ys) ++ allKeysList (resourcesLoop root rs st).1)
        (allKeys (.arr ys) ++ allKeysList rs)
      exact (List.Sublist.refl _).append (resourcesLoop_keys root rs st)

/-- The resources pass never introduces keys when the field is present as an
array (when absent, it appends a fresh `resources` key). -/
theorem rewriteResources_keys (root : String) (m : JObj) (st : RW) (xs : JArr)
    (hres : m.get "resources" = some (.arr xs)) (m' : JObj) (st' : RW)
    (hre : rewriteResources root m st = some (m', st')) :
    List.Sublist (allKeysObj m') (allKeysObj m) := by
  have he : rewriteResources root m st =
      some (m.setKey "resources"
        (.arr (JArr.ofList (resourcesLoop root xs.toList st).1)),
        (resourcesLoop root xs.toList st).2) := by
    simp [rewriteResources, hres, pyIter]
  rw [he] at hre
  simp only [Option.some.injEq, Prod.mk.injEq] at hre
  obtain ⟨hm, hst⟩ := hre
  rw [← hm]
  obtain ⟨pre, post, k0, h1, h2⟩ := setKey_allKeys m "resources" (.arr xs)
    (.arr (JArr.ofList (resourcesLoop root xs.toList st).1)) hres
  rw [h1, h2]
  apply sublist_middle_of_sublist
  show List.Sublist (allKeysArr (JArr.ofList (resourcesLoop root xs.toList st).1))
    (allKeysArr xs)
  rw [allKeysArr_ofList, ← allKeysArr_toList xs]
  exact resourcesLoop_keys root xs.toList st

/-- The metadata.identifier pass never introduces keys. -/
theorem rewriteIdentifier_keys (root : String) (m : JObj) (st : RW) :
    List.Sublist (allKeysObj (rewriteIdentifier root m st).1) (allKeysObj m) := by
  match hg : m.get "metadata" with
  | some (.obj mk) =>
    match hgi : mk.get "identifier" with
    | some (.str s) =>
      by_cases hnull : (rewrite_string root (.str s) st).1.isNull = true
      · have he : (rewriteIdentifier root m st).1 =
            m.setKey "metadata" (.obj (mk.popKey "identifier")) := by
          simp [rewriteIdentifier, hg, hgi, hnull]
        rw [he]
        obtain ⟨pre, post, k0, h1, h2⟩ := setKey_allKeys m "metadata" (.obj mk)
          (.obj (mk.popKey "identifier")) hg
        rw [h1, h2]
        apply sublist_middle_of_sublist
        show List.Sublist (allKeysObj (mk.popKey "identifier")) (allKeysObj mk)
        obtain ⟨pre2, post2, k2, h3, h4⟩ := popKey_allKeys mk "identifier" (.str s) hgi
        rw [h3, h4]
        exact sublist_drop_middle pre2 post2 (allKeys (.str s)) k2
      · have hnull2 : (rewrite_string root (.str s) st).1.isNull = false := by
          simpa using hnull
        have he : (rewriteIdentifier root m st).1 =
            m.setKey "metadata"
              (.obj (mk.setKey "identifier" (rewrite_string root (.str s) st).1)) := by
          simp [rewriteIdentifier, hg, hgi, hnull2]
        rw [he]
        obtain ⟨pre, post, k0, h1, h2⟩ := setKey_allKeys m "metadata" (.obj mk)
          (.obj (mk.setKey "identifier" (rewrite_string root (.str s) st).1)) hg
        rw [h1, h2]
        apply sublist_middle_of_sublist
        show List.Sublist
          (allKeysObj (mk.setKey "identifier" (rewrite_string root (.str s) st).1))
          (allKeysObj mk)
        obtain ⟨pre2, post2, k2, h3, h4⟩ := setKey_allKeys mk "identifier" (.str s)
          (rewrite_string root (.str s) st).1 hgi
        rw [h3, h4]
        apply sublist_middle_of_sublist
        exact rewrite_string_keys root (.str s) st
    | some .null => rw [show (rewriteIdentifier root m st).1 = m by
        simp [rewriteIdentifier, hg, hgi]]
    | some (.bool b) => rw [show (rewriteIdentifier root m st).1 = m by
        simp [rewriteIdentifier, hg, hgi]]
    | some (.num n) => rw [show (rewriteIdentifier root m st).1 = m by
        simp [rewriteIdentifier, hg, hgi]]
    | some (.arr ys) => rw [show (rewriteIdentifier root m st).1 = m by
        simp [rewriteIdentifier, hg, hgi]]
    | some (.obj mo) => rw [show (rewriteIdentifier root m st).1 = m by
        simp [rewriteIdentifier, hg, hgi]]
    | none => rw [show (rewriteIdentifier root m st).1 = m by
        simp [rewriteIdentifier, hg, hgi]]
  | some .null => rw [show (rewriteIdentifier root m st).1 = m by
      simp [rewriteIdentifier, hg]]
  | some (.bool b) => rw [show (rewriteIdentifier root m st).1 = m by
      simp [rewriteIdentifier, hg]]
  | some (.num n) => rw [show (rewriteIdentifier root m st).1 = m by
      simp [rewriteIdentifier, hg]]
  | some (.str s) => rw [show (rewriteIdentifier root m st).1 = m by
      simp [rewriteIdentifier, hg]]
  | some (.arr ys) => rw [show (rewriteIdentifier root m st).1 = m by
      simp [rewriteIdentifier, hg]]
  | none => rw [show (rewriteIdentifier root m st).1 = m by
      simp [rewriteIdentifier, hg]]

/-- Total key preservation: under a present-as-array `resources` field, a
successful rewrite returns a manifest whose keys (at every depth, in order)
form a sublist of the input's keys. -/
theorem rewrite_manifest_keys (m : JObj) (root : String) (xs : JArr)
    (hres : m.get "resources" = some (.arr xs))
    (m' : JObj) (ch : List (String × String × String)) (rm : List String)
    (hre : rewrite_manifest m root = some (m', ch, rm)) :
    List.Sublist (allKeysObj m') (allKeysObj m) := by
  simp only [rewrite_manifest] at hre
  have hres3 : (rewriteListKey root "readingOrder"
      (rewriteListKey root "images" (rewriteListKey root "links" m ⟨[], []⟩).1
        (rewriteListKey root "links" m ⟨[], []⟩).2).1
      (rewriteListKey root "images" (rewriteListKey root "links" m ⟨[], []⟩).1
        (rewriteListKey root "links" m ⟨[], []⟩).2).2).1.get "resources" =
      some (.arr xs) := by
    rw [rewriteListKey_get_ne root "readingOrder" "resources" _ _ (by decide),
      rewriteListKey_get_ne root "images" "resources" _ _ (by decide),
      rewriteListKey_get_ne root "links" "resources" _ _ (by decide)]
    exact hres
  match hR : rewriteResources root
    (rewriteListKey root "readingOrder"
      (rewriteListKey root "images" (rewriteListKey root "links" m ⟨[], []⟩).1
        (rewriteListKey root "links" m ⟨[], []⟩).2).1
      (rewriteListKey root "images" (rewriteListKey root "links" m ⟨[], []⟩).1
        (rewriteListKey root "links" m ⟨[], []⟩).2).2).1
    (rewriteListKey root "readingOrder"
      (rewriteListKey root "images" (rewriteListKey root "links" m ⟨[], []⟩).1
        (rewriteListKey root "links" m ⟨[], []⟩).2).1
      (rewriteListKey root "images" (rewriteListKey root "links" m ⟨[], []⟩).1
        (rewriteListKey root "links" m ⟨[], []⟩).2).2).2 with
  | none =>
    rw [hR] at hre
    exact absurd hre (by simp)
  | some p4 =>
    rw [hR] at hre
    dsimp only at hre
    simp only [Option.some.injEq, Prod.mk.injEq] at hre
    obtain ⟨hm', hch, hrm⟩ := hre
    have k1 := rewriteListKey_keys root "links" m ⟨[], []⟩
    have k2 := rewriteListKey_keys root "images"
      (rewriteListKey root "links" m ⟨[], []⟩).1 (rewriteListKey root "links" m ⟨[], []⟩).2
    have k3 := rewriteListKey_keys root "readingOrder"
      (rewriteListKey root "images" (rewriteListKey root "links" m ⟨[], []⟩).1
        (rewriteListKey root "links" m ⟨[], []⟩).2).1
      (rewriteListKey root "images" (rewriteListKey root "links" m ⟨[], []⟩).1
        (rewriteListKey root "links" m ⟨[], []⟩).2).2
    have k4 := rewriteResources_keys root _ _ xs hres3 p4.1 p4.2 hR
    have k5 := rewriteIdentifier_keys root p4.1 p4.2
    have k6 := deepReplaceObj_keys root (rewriteIdentifier root p4.1 p4.2).1
      (rewriteIdentifier root p4.1 p4.2).2
    rw [← hm']
    exact ((((k6.trans k5).trans k4).trans k3).trans k2).trans k1


/-- Appending a fresh key places it, and its value's keys, at the end. -/
theorem setKey_absent_allKeys (kvs : JObj) (key : String) (v' : Json)
    (hget : kvs.get key = none) :
    allKeysObj (kvs.setKey key v') = allKeysObj kvs ++ (key :: allKeys v') := by
  match kvs with
  | .nil => simp [JObj.setKey, allKeysObj]
  | .cons k0 v0 tl =>
    by_cases hk : (k0 == key) = true
    · simp [JObj.get, hk] at hget
    · simp only [JObj.get, if_neg hk] at hget
      simp [JObj.setKey, hk, allKeysObj, setKey_absent_allKeys tl key v' hget,
        List.append_assoc]

/-- A list of bare strings holds no keys. -/
theorem allKeysList_of_strs (l : List Json) (h : ∀ x ∈ l, x.isStr = true) :
    allKeysList l = [] := by
  match l with
  | [] => rfl
  | x :: xs =>
    have hx := h x (by simp)
    obtain ⟨s, rfl⟩ : ∃ s, x = .str s := by
      cases x <;> simp [Json.isStr] at hx ⊢
    show allKeys (.str s) ++ allKeysList xs = []
    simp [allKeys, allKeysList_of_strs xs (fun y hy => h y (by simp [hy]))]

/-- A successful resources pass on any manifest introduces at most the
`resources` key itself: output keys are a sublist of the input keys extended
with "resources". -/
theorem rewriteResources_keys_any (root : String) (M : JObj) (st : RW) (m4 : JObj)
    (st4 : RW) (hre : rewriteResources root M st = some (m4, st4)) :
    List.Sublist (allKeysObj m4) (allKeysObj M ++ ["resources"]) := by
  match hg : M.get "resources" with
  | some (.arr xs) =>
    exact (rewriteResources_keys root M st xs hg m4 st4 hre).trans
      (List.sublist_append_left _ _)
  | none =>
    have he : rewriteResources root M st =
        some (M.setKey "resources" (.arr (JArr.ofList (resourcesLoop root [] st).1)),
          (resourcesLoop root [] st).2) := by
      simp [rewriteResources, hg, pyIter, JArr.toList]
    rw [he] at hre
    simp only [Option.some.injEq, Prod.mk.injEq] at hre
    obtain ⟨hm, hst⟩ := hre
    rw [← hm, setKey_absent_allKeys M "resources" _ hg]
    show List.Sublist (allKeysObj M ++ ["resources"]) (allKeysObj M ++ ["resources"])
    exact List.Sublist.refl _
  | some (.str s) =>
    have he : rewriteResources root M st =
        some (M.setKey "resources" (.arr (JArr.ofList
          (resourcesLoop root (s.toList.map (fun c => .str (String.mk [c]))) st).1)),
          (resourcesLoop root (s.toList.map (fun c => .str (String.mk [c]))) st).2) := by
      simp [rewriteResources, hg, pyIter]
    rw [he] at hre
    simp only [Option.some.injEq, Prod.mk.injEq] at hre
    obtain ⟨hm, hst⟩ := hre
    rw [← hm]
    have hstr0 : allKeysList (s.toList.map (fun c => .str (String.mk [c]))) = [] := by
      refine allKeysList_of_strs _ (fun x hx => ?_)
      obtain ⟨c, hc, rfl⟩ := List.mem_map.mp hx
      rfl
    have h1 := resourcesLoop_keys root (s.toList.map (fun c => .str (String.mk [c]))) st
    rw [hstr0] at h1
    have hz2 : allKeys (.arr (JArr.ofList
        (resourcesLoop root (s.toList.map (fun c => .str (String.mk [c]))) st).1)) = [] := by
      show allKeysArr (JArr.ofList
        (resourcesLoop root (s.toList.map (fun c => .str (String.mk [c]))) st).1) = []
      rw [allKeysArr_ofList]
      exact List.sublist_nil.mp h1
    obtain ⟨pre, post, k0, hd1, hd2⟩ := setKey_allKeys M "resources" (.str s)
      (.arr (JArr.ofList
        (resourcesLoop root (s.toList.map (fun c => .str (String.mk [c]))) st).1)) hg
    rw [hd2, hz2]
    refine List.Sublist.trans ?_ (List.sublist_append_left _ _)
    rw [hd1]
    exact sublist_middle_of_sublist pre post [] (allKeys (.str s)) k0 (List.nil_sublist _)
  | some (.obj kvs2) =>
    have he : rewriteResources root M st =
        some (M.setKey "resources" (.arr (JArr.ofList
          (resourcesLoop root (kvs2.keys.map (fun k => .str k)) st).1)),
          (resourcesLoop root (kvs2.keys.map (fun k => .str k)) st).2) := by
      simp [rewriteResources, hg, pyIter]
    rw [he] at hre
    simp only [Option.some.injEq, Prod.mk.injEq] at hre
    obtain ⟨hm, hst⟩ := hre
    rw [← hm]
    have hstr0 : allKeysList (kvs2.keys.map (fun k => .str k)) = [] := by
      refine allKeysList_of_strs _ (fun x hx => ?_)
      obtain ⟨k, hk, rfl⟩ := List.mem_map.mp hx
      rfl
    have h1 := resourcesLoop_keys root (kvs2.keys.map (fun k => .str k)) st
    rw [hstr0] at h1
    have hz2 : allKeys (.arr (JArr.ofList
        (resourcesLoop root (kvs2.keys.map (fun k => .str k)) st).1)) = [] := by
      show allKeysArr (JArr.ofList
        (resourcesLoop root (kvs2.keys.map (fun k => .str k)) st).1) = []
      rw [allKeysArr_ofList]
      exact List.sublist_nil.mp h1
    obtain ⟨pre, post, k0, hd1, hd2⟩ := setKey_allKeys M "resources" (.obj kvs2)
      (.arr (JArr.ofList (resourcesLoop root (kvs2.keys.map (fun k => .str k)) st).1)) hg
    rw [hd2, hz2]
    refine List.Sublist.trans ?_ (List.sublist_append_left _ _)
    rw [hd1]
    exact sublist_middle_of_sublist pre post [] (allKeys (.obj kvs2)) k0 (List.nil_sublist _)
  | some .null =>
    have he : rewriteResources root M st = none := by simp [rewriteResources, hg, pyIter]
    rw [he] at hre
    exact absurd hre (by simp)
  | some (.bool b) =>
    have he : rewriteResources root M st = none := by simp [rewriteResources, hg, pyIter]
    rw [he] at hre
    exact absurd hre (by simp)
  | some (.num n) =>
    have he : rewriteResources root M st = none := by simp [rewriteResources, hg, pyIter]
    rw [he] at hre
    exact absurd hre (by simp)

/-- Total key discipline for every successful rewrite: object keys are never
rewritten, keys can only be dropped, and at most one fresh top-level
`resources` key is introduced. -/
theorem rewrite_manifest_keys_any (m : JObj) (root : String)
    (m' : JObj) (ch : List (String × String × String)) (rm : List String)
    (hre : rewrite_manifest m root = some (m', ch, rm)) :
    List.Sublist (allKeysObj m') (allKeysObj m ++ ["resources"]) := by
  simp only [rewrite_manifest] at hre
  match hR : rewriteResources root
    (rewriteListKey root "readingOrder"
      (rewriteListKey root "images" (rewriteListKey root "links" m ⟨[], []⟩).1
        (rewriteListKey root "links" m ⟨[], []⟩).2).1
      (rewriteListKey root "images" (rewriteListKey root "links" m ⟨[], []⟩).1
        (rewriteListKey root "links" m ⟨[], []⟩).2).2).1
    (rewriteListKey root "readingOrder"
      (rewriteListKey root "images" (rewriteListKey root "links" m ⟨[], []⟩).1
        (rewriteListKey root "links" m ⟨[], []⟩).2).1
      (rewriteListKey root "images" (rewriteListKey root "links" m ⟨[], []⟩).1
        (rewriteListKey root "links" m ⟨[], []⟩).2).2).2 with
  | none =>
    rw [hR] at hre
    exact absurd hre (by simp)
  | some p4 =>
    rw [hR] at hre
    dsimp only at hre
    simp only [Option.some.injEq, Prod.mk.injEq] at hre
    obtain ⟨hm2, hch, hrm⟩ := hre
    have k1 := rewriteListKey_keys root "links" m ⟨[], []⟩
    have k2 := rewriteListKey_keys root "images"
      (rewriteListKey root "links" m ⟨[], []⟩).1 (rewriteListKey root "links" m ⟨[], []⟩).2
    have k3 := rewriteListKey_keys root "readingOrder"
      (rewriteListKey root "images" (rewriteListKey root "links" m ⟨[], []⟩).1
        (rewriteListKey root "links" m ⟨[], []⟩).2).1
      (rewriteListKey root "images" (rewriteListKey root "links" m ⟨[], []⟩).1
        (rewriteListKey root "links" m ⟨[], []⟩).2).2
    have k4 := rewriteResources_keys_any root
      (rewriteListKey root "readingOrder"
      (rewriteListKey root "images" (rewriteListKey root "links" m ⟨[], []⟩).1
        (rewriteListKey root "links" m ⟨[], []⟩).2).1
      (rewriteListKey root "images" (rewriteListKey root "links" m ⟨[], []⟩).1
        (rewriteListKey root "links" m ⟨[], []⟩).2).2).1
      (rewriteListKey root "readingOrder"
      (rewriteListKey root "images" (rewriteListKey root "links" m ⟨[], []⟩).1
        (rewriteListKey root "links" m ⟨[], []⟩).2).1
      (rewriteListKey root "images" (rewriteListKey root "links" m ⟨[], []⟩).1
        (rewriteListKey root "links" m ⟨[], []⟩).2).2).2 p4.1 p4.2 hR
    have k5 := rewriteIdentifier_keys root p4.1 p4.2
    have k6 := deepReplaceObj_keys root (rewriteIdentifier root p4.1 p4.2).1
      (rewriteIdentifier root p4.1 p4.2).2
    rw [← hm2]
    refine ((k6.trans k5).trans k4).trans ?_
    exact ((k3.trans k2).trans k1).append (List.Sublist.refl ["resources"])

/-! ### Claim C9 theorems -/

/-- An absolute URL used only as an object key. -/
def keyUrl : String := "https://key.example/x"

/-- Manifest whose only entry has the key URL as its key and a blocked URL as
its value. -/
def cex9Manifest : JObj := .cons keyUrl (.str gtmUrl) .nil

/-- C9: the claim fails. The URL occurs only as an object key (it is none of the
manifest's string values), yet rewrite does not leave the key in place: the
value is a blocked absolute URL, so `deep_replace` pops the whole entry and the
key disappears from the output. -/
theorem key_urls_cex :
    isHttpStr keyUrl = true ∧
    (∀ u, u ∈ strValsObj cex9Manifest → u ≠ keyUrl) ∧
    cex9Manifest.hasKey keyUrl = true ∧
    ∃ m' ch rm, rewrite_manifest cex9Manifest "local_www" = some (m', ch, rm) ∧
      m'.hasKey keyUrl = false := by
  refine ⟨by decide, by decide, by decide,
    .cons "resources" (.arr .nil) .nil, [], [gtmUrl], rfl, by decide⟩

/-- C9 (amended): on a manifest whose recognized fields iterate without visiting
keys, a URL that is not among the manifest's string values is absent from a
successful discovery; and rewrite never rewrites object keys and introduces
none except possibly a single fresh top-level `resources` key: for every
successful rewrite, the output's keys form a sublist of the input's keys
extended with "resources" (keys can only be dropped, never rewritten). -/
theorem key_urls_amended (m : JObj) (root : String) (u : String) (urls : List String)
    (hf : fieldsOk m = true)
    (hc : collect_urls_from_manifest m = some urls)
    (hu : u ∉ strValsObj m)
    (m' : JObj) (ch : List (String × String × String)) (rm : List String)
    (hre : rewrite_manifest m root = some (m', ch, rm)) :
    u ∉ urls ∧ List.Sublist (allKeysObj m') (allKeysObj m ++ ["resources"]) := by
  obtain ⟨hnd, hiff⟩ := collect_mem_iff m urls hf hc
  constructor
  · intro hmem
    have ho := (hiff u).mp hmem
    simp only [occsObj] at ho
    exact hu (List.mem_filter.mp ho).1
  · exact rewrite_manifest_keys_any m root m' ch rm hre

/-- A manifest without a `resources` field and without the key URL among its
values: the rewrite appends the fresh `resources` key, the one key the code can
introduce. -/
def wit9Manifest : JObj := .cons "k" (.str "n") .nil

/-- Witness for the amended C9 statement at a concrete manifest. -/
theorem key_urls_amended_witness :
    keyUrl ∉ ([] : List String) ∧
    List.Sublist
      (allKeysObj (.cons "k" (.str "n") (.cons "resources" (.arr .nil) .nil)))
      (allKeysObj wit9Manifest ++ ["resources"]) :=
  key_urls_amended wit9Manifest "local_www" keyUrl [] (by decide) rfl (by decide)
    (.cons "k" (.str "n") (.cons "resources" (.arr .nil) .nil)) [] [] rfl

/-! ## Claim C4: frame property of the rewrite -/

/-- Test from the claim's words for a value that is removed from its containing
structure: a blocked absolute reference string. -/
def specRemoves : Json → Bool
  | .str s => isHttpStr s && is_blocked (.str s)
  | _ => false

mutual
/-- Spec-side transform written from the claim's words: every in-scope reference
string is replaced by its rewritten reference, every blocked absolute reference
is removed from its containing structure, and every other value is unchanged
and remains in place. -/
def specReplace (root : String) : Json → Json
  | .str s => if inScope s then .str (url_to_local_path s root).2 else .str s
  | .arr xs => .arr (specReplaceArr root xs)
  | .obj kvs => .obj (specReplaceObj root kvs)
  | j => j
/-- Sequence rule of the spec transform: blocked absolute reference elements are
removed, the rest is transformed in place. -/
def specReplaceArr (root : String) : JArr → JArr
  | .nil => .nil
  | .cons x tl =>
    match x with
    | .str s =>
      if isHttpStr s && is_blocked (.str s) then specReplaceArr root tl
      else .cons (if inScope s then .str (url_to_local_path s root).2 else .str s)
        (specReplaceArr root tl)
    | _ => .cons (specReplace root x) (specReplaceArr root tl)
/-- Mapping rule of the spec transform: entries whose value is a blocked
absolute reference are removed, other values are transformed in place and keys
are unchanged. -/
def specReplaceObj (root : String) : JObj → JObj
  | .nil => .nil
  | .cons k v tl =>
    match v with
    | .str s =>
      if isHttpStr s && is_blocked (.str s) then specReplaceObj root tl
      else .cons k (if inScope s then .str (url_to_local_path s root).2 else .str s)
        (specReplaceObj root tl)
    | _ => .cons k (specReplace root v) (specReplaceObj root tl)
end

/-- Entry rule of the spec transform for a kept value. -/
theorem specReplaceObj_cons_keep (root : String) (k : String) (v : Json) (tl : JObj)
    (hrem : specRemoves v = false) :
    specReplaceObj root (.cons k v tl) =
      .cons k (specReplace root v) (specReplaceObj root tl) := by
  match v with
  | .str s =>
    have hc : (isHttpStr s && is_blocked (.str s)) = false := by
      simpa [specRemoves] using hrem
    simp [specReplaceObj, specReplace, hc]
  | .null => rfl
  | .bool b => rfl
  | .num n => rfl
  | .arr xs => rfl
  | .obj kvs => rfl

/-- Entry rule of the spec transform for a removed value. -/
theorem specReplaceObj_cons_drop (root : String) (k s : String) (tl : JObj)
    (hrem : specRemoves (.str s) = true) :
    specReplaceObj root (.cons k (.str s) tl) = specReplaceObj root tl := by
  have hc : (isHttpStr s && is_blocked (.str s)) = true := by
    simpa [specRemoves] using hrem
  simp [specReplaceObj, hc]

/-- Element rule of the spec transform for a kept element. -/
theorem specReplaceArr_cons_keep (root : String) (x : Json) (tl : JArr)
    (hrem : specRemoves x = false) :
    specReplaceArr root (.cons x tl) =
      .cons (specReplace root x) (specReplaceArr root tl) := by
  match x with
  | .str s =>
    have hc : (isHttpStr s && is_blocked (.str s)) = false := by
      simpa [specRemoves] using hrem
    simp [specReplaceArr, specReplace, hc]
  | .null => rfl
  | .bool b => rfl
  | .num n => rfl
  | .arr xs => rfl
  | .obj kvs => rfl

/-- Element rule of the spec transform for a removed element. -/
theorem specReplaceArr_cons_drop (root : String) (s : String) (tl : JArr)
    (hrem : specRemoves (.str s) = true) :
    specReplaceArr root (.cons (.str s) tl) = specReplaceArr root tl := by
  have hc : (isHttpStr s && is_blocked (.str s)) = true := by
    simpa [specRemoves] using hrem
  simp [specReplaceArr, hc]

/-- Replacing an existing entry's value by one with the same transform and the
same keep status leaves the spec transform unchanged. -/
theorem specReplaceObj_setKey_swap (root : String) (kvs : JObj) (key : String)
    (w v : Json) (hget : kvs.get key = some w)
    (hremW : specRemoves w = false) (hremV : specRemoves v = false)
    (hs : specReplace root v = specReplace root w) :
    specReplaceObj root (kvs.setKey key v) = specReplaceObj root kvs := by
  match kvs with
  | .nil => simp [JObj.get] at hget
  | .cons k1 v1 tl =>
    by_cases hk : (k1 == key) = true
    · simp only [JObj.get, if_pos hk] at hget
      have hvw : v1 = w := by injection hget
      rw [hvw]
      rw [show (JObj.cons k1 w tl).setKey key v = .cons k1 v tl by
        simp [JObj.setKey, hk]]
      rw [specReplaceObj_cons_keep root k1 v tl hremV,
        specReplaceObj_cons_keep root k1 w tl hremW, hs]
    · simp only [JObj.get, if_neg hk] at hget
      rw [show (JObj.cons k1 v1 tl).setKey key v = .cons k1 v1 (tl.setKey key v) by
        simp [JObj.setKey, hk]]
      by_cases hrem1 : specRemoves v1 = true
      · obtain ⟨s, rfl⟩ : ∃ s, v1 = .str s := by
          cases v1 <;> simp [specRemoves] at hrem1 ⊢
        rw [specReplaceObj_cons_drop root k1 s (tl.setKey key v) hrem1,
          specReplaceObj_cons_drop root k1 s tl hrem1]
        exact specReplaceObj_setKey_swap root tl key w v hget hremW hremV hs
      · have hrem1f : specRemoves v1 = false := by simpa using hrem1
        rw [specReplaceObj_cons_keep root k1 v1 (tl.setKey key v) hrem1f,
          specReplaceObj_cons_keep root k1 v1 tl hrem1f,
          specReplaceObj_setKey_swap root tl key w v hget hremW hremV hs]

/-- Popping an entry whose value the spec transform removes anyway leaves the
spec transform unchanged. -/
theorem specReplaceObj_popKey_blocked (root : String) (kvs : JObj) (key s : String)
    (hget : kvs.get key = some (.str s)) (hrem : specRemoves (.str s) = true) :
    specReplaceObj root (kvs.popKey key) = specReplaceObj root kvs := by
  match kvs with
  | .nil => simp [JObj.get] at hget
  | .cons k1 v1 tl =>
    by_cases hk : (k1 == key) = true
    · simp only [JObj.get, if_pos hk] at hget
      have hvw : v1 = .str s := by injection hget
      rw [hvw]
      rw [show (JObj.cons k1 (.str s) tl).popKey key = tl by simp [JObj.popKey, hk]]
      rw [specReplaceObj_cons_drop root k1 s tl hrem]
    · simp only [JObj.get, if_neg hk] at hget
      rw [show (JObj.cons k1 v1 tl).popKey key = .cons k1 v1 (tl.popKey key) by
        simp [JObj.popKey, hk]]
      by_cases hrem1 : specRemoves v1 = true
      · obtain ⟨t, rfl⟩ : ∃ t, v1 = .str t := by
          cases v1 <;> simp [specRemoves] at hrem1 ⊢
        rw [specReplaceObj_cons_drop root k1 t (tl.popKey key) hrem1,
          specReplaceObj_cons_drop root k1 t tl hrem1]
        exact specReplaceObj_popKey_blocked root tl key s hget hrem
      · have hrem1f : specRemoves v1 = false := by simpa using hrem1
        rw [specReplaceObj_cons_keep root k1 v1 (tl.popKey key) hrem1f,
          specReplaceObj_cons_keep root k1 v1 tl hrem1f,
          specReplaceObj_popKey_blocked root tl key s hget hrem]

/-- Writing back an entry's own value is the identity. -/
theorem setKey_self (kvs : JObj) (key : String) (w : Json)
    (hget : kvs.get key = some w) : kvs.setKey key w = kvs := by
  match kvs with
  | .nil => simp [JObj.get] at hget
  | .cons k1 v1 tl =>
    by_cases hk : (k1 == key) = true
    · simp only [JObj.get, if_pos hk] at hget
      obtain rfl : v1 = w := by injection hget
      simp [JObj.setKey, hk]
    · simp only [JObj.get, if_neg hk] at hget
      simp [JObj.setKey, hk, setKey_self tl key w hget]

/-- A non-removed non-string value: every non-string value is kept. -/
theorem specRemoves_nonstr (v : Json) (hstr : v.isStr = false) :
    specRemoves v = false := by
  cases v <;> simp [specRemoves, Json.isStr] at hstr ⊢

/-- The deep pass never turns a non-null non-string value into null. -/
theorem deep_replace_isNull (root : String) (x : Json) (st : RW) (hx : x.isNull = false)
    (hstr : x.isStr = false) : (deep_replace root x st).1.isNull = false := by
  cases x <;> simp [deep_replace, Json.isNull, Json.isStr] at hx hstr ⊢

mutual
/-- On null-free non-string values, the deep pass computes exactly the spec
transform of claim C4. -/
theorem deep_replace_spec (root : String) (j : Json) (st : RW) (hj : j.isStr = false)
    (hn : arrsNullFree j = true) :
    (deep_replace root j st).1 = specReplace root j :=
  match j with
  | .null => rfl
  | .bool b => rfl
  | .num n => rfl
  | .str s => by simp [Json.isStr] at hj
  | .obj kvs => by
    show Json.obj (deepReplaceObj root kvs st).1 = .obj (specReplaceObj root kvs)
    rw [deepReplaceObj_spec root kvs st (by simpa [arrsNullFree] using hn)]
  | .arr xs => by
    show Json.arr (deepReplaceArr root xs st).1.filterNonNull =
      .arr (specReplaceArr root xs)
    rw [deepReplaceArr_spec root xs st (by simpa [arrsNullFree] using hn)]

/-- Object part of the deep-pass/spec correspondence. -/
theorem deepReplaceObj_spec (root : String) (kvs : JObj) (st : RW)
    (hn : arrsNullFreeObj kvs = true) :
    (deepReplaceObj root kvs st).1 = specReplaceObj root kvs :=
  match kvs with
  | .nil => rfl
  | .cons k v tl => by
    have hn2 : arrsNullFree v = true ∧ arrsNullFreeObj tl = true := by
      simpa [arrsNullFreeObj, Bool.and_eq_true] using hn
    by_cases hstr : v.isStr = true
    · obtain ⟨s, rfl⟩ : ∃ s, v = .str s := by
        cases v <;> simp [Json.isStr] at hstr ⊢
      by_cases hh : isHttpStr s = true
      · by_cases hb : is_blocked (.str s) = true
        · rw [deepReplaceObj_cons_blocked root k s tl st hh hb,
            specReplaceObj_cons_drop root k s tl (by simp [specRemoves, hh, hb])]
          exact deepReplaceObj_spec root tl _ hn2.2
        · have hb2 : is_blocked (.str s) = false := by simpa using hb
          have hsc : inScope s = true := by simp [inScope, hh, hb2]
          rw [deepReplaceObj_cons_mapped root k s tl st hh hb2,
            specReplaceObj_cons_keep root k (.str s) tl (by simp [specRemoves, hb2]),
            show specReplace root (.str s) = .str (url_to_local_path s root).2 by
              simp [specReplace, hsc],
            deepReplaceObj_spec root tl _ hn2.2]
      · have hh2 : isHttpStr s = false := by simpa using hh
        have hsc : inScope s = false := by simp [inScope, hh2]
        rw [deepReplaceObj_cons_nonhttp root k s tl st hh2,
          specReplaceObj_cons_keep root k (.str s) tl (by simp [specRemoves, hh2]),
          show specReplace root (.str s) = .str s by simp [specReplace, hsc],
          deepReplaceObj_spec root tl st hn2.2]
    · have hstr2 : v.isStr = false := by simpa using hstr
      rw [deepReplaceObj_cons_nonstr root k v tl st hstr2,
        specReplaceObj_cons_keep root k v tl (specRemoves_nonstr v hstr2),
        deep_replace_spec root v st hstr2 hn2.1,
        deepReplaceObj_spec root tl (deep_replace root v st).2 hn2.2]

/-- Array part of the deep-pass/spec correspondence (the caller's null filter
included). -/
theorem deepReplaceArr_spec (root : String) (xs : JArr) (st : RW)
    (hn : arrsNullFreeArr xs = true) :
    (deepReplaceArr root xs st).1.filterNonNull = specReplaceArr root xs :=
  match xs with
  | .nil => rfl
  | .cons x tl => by
    have hn3 : (!x.isNull && arrsNullFree x) = true ∧ arrsNullFreeArr tl = true := by
      simpa [arrsNullFreeArr, Bool.and_eq_true] using hn
    have hxn : x.isNull = false := by
      have h2 := hn3.1
      rw [Bool.and_eq_true] at h2
      simpa using h2.1
    have hxf : arrsNullFree x = true := by
      have h2 := hn3.1
      rw [Bool.and_eq_true] at h2
      exact h2.2
    by_cases hstr : x.isStr = true
    · obtain ⟨s, rfl⟩ : ∃ s, x = .str s := by
        cases x <;> simp [Json.isStr] at hstr ⊢
      by_cases hh : isHttpStr s = true
      · by_cases hb : is_blocked (.str s) = true
        · rw [deepReplaceArr_cons_blocked root s tl st hh hb]
          have he : (JArr.cons .null (deepReplaceArr root tl
              ⟨st.changed, st.removed ++ [s]⟩).1).filterNonNull =
              (deepReplaceArr root tl ⟨st.changed, st.removed ++ [s]⟩).1.filterNonNull := by
            simp [JArr.filterNonNull, Json.isNull]
          rw [he, specReplaceArr_cons_drop root s tl (by simp [specRemoves, hh, hb])]
          exact deepReplaceArr_spec root tl _ hn3.2
        · have hb2 : is_blocked (.str s) = false := by simpa using hb
          have hsc : inScope s = true := by simp [inScope, hh, hb2]
          rw [deepReplaceArr_cons_mapped root s tl st hh hb2]
          have he : (JArr.cons (.str (url_to_local_path s root).2)
              (deepReplaceArr root tl
                ⟨st.changed ++ [(s, (url_to_local_path s root).2,
                   pathReprStr (url_to_local_path s root).1)], st.removed⟩).1).filterNonNull =
              .cons (.str (url_to_local_path s root).2)
                (deepReplaceArr root tl
                  ⟨st.changed ++ [(s, (url_to_local_path s root).2,
                     pathReprStr (url_to_local_path s root).1)], st.removed⟩).1.filterNonNull := by
            simp [JArr.filterNonNull, Json.isNull]
          rw [he, specReplaceArr_cons_keep root (.str s) tl (by simp [specRemoves, hb2]),
            show specReplace root (.str s) = .str (url_to_local_path s root).2 by
              simp [specReplace, hsc],
            deepReplaceArr_spec root tl _ hn3.2]
      · have hh2 : isHttpStr s = false := by simpa using hh
        have hsc : inScope s = false := by simp [inScope, hh2]
        rw [deepReplaceArr_cons_nonhttp root s tl st hh2]
        have he : (JArr.cons (.str s) (deepReplaceArr root tl st).1).filterNonNull =
            .cons (.str s) (deepReplaceArr root tl st).1.filterNonNull := by
          simp [JArr.filterNonNull, Json.isNull]
        rw [he, specReplaceArr_cons_keep root (.str s) tl (by simp [specRemoves, hh2]),
          show specReplace root (.str s) = .str s by simp [specReplace, hsc],
          deepReplaceArr_spec root tl st hn3.2]
    · have hstr2 : x.isStr = false := by simpa using hstr
      rw [deepReplaceArr_cons_nonstr root x tl st hstr2]
      have hdn : (deep_replace root x st).1.isNull = false :=
        deep_replace_isNull root x st hxn hstr2
      have he : (JArr.cons (deep_replace root x st).1
          (deepReplaceArr root tl (deep_replace root x st).2).1).filterNonNull =
          .cons (deep_replace root x st).1
            (deepReplaceArr root tl (deep_replace root x st).2).1.filterNonNull := by
        simp [JArr.filterNonNull, hdn]
      rw [he, specReplaceArr_cons_keep root x tl (specRemoves_nonstr x hstr2),
        deep_replace_spec root x st hstr2 hxf,
        deepReplaceArr_spec root tl (deep_replace root x st).2 hn3.2]
end

/-- Round trip of the array representations. -/
theorem ofList_toList (xs : JArr) : JArr.ofList xs.toList = xs := by
  match xs with
  | .nil => rfl
  | .cons x tl => simp [JArr.toList, JArr.ofList, ofList_toList tl]

/-- Item of a known array whose `href` value is not null: the pass pops a null
href, while the spec transform keeps a null value in place. -/
def itemHrefNotNull : Json → Bool
  | .obj kvs =>
    match kvs.get "href" with
    | some .null => false
    | _ => true
  | _ => true

/-- Known-array field wellformedness for the frame claim. -/
def knownArrayOk (m : JObj) (key : String) : Bool :=
  match m.get key with
  | some (.arr xs) => xs.toList.all itemHrefNotNull
  | _ => true

/-- All three known-array fields are wellformed for the frame claim. -/
def hrefsFrameOk (m : JObj) : Bool :=
  knownArrayOk m "links" && knownArrayOk m "images" && knownArrayOk m "readingOrder"

/-- Resources element wellformedness for the frame claim: a string `href` is not
blocked (the loop drops whole blocked-href elements, which the spec transform
does not). -/
def resourcesElemFrameOk : Json → Bool
  | .obj kvs =>
    match (kvs.get "href").getD .null with
    | .str s => !is_blocked (.str s)
    | _ => true
  | _ => true

/-- Resources field wellformedness for the frame claim: present as an array of
wellformed elements (an absent field gets a fresh `resources` key appended). -/
def resourcesFrameOk (m : JObj) : Bool :=
  match m.get "resources" with
  | some (.arr xs) => xs.toList.all resourcesElemFrameOk
  | _ => false

/-- Manifest with a pre-existing null array element and no URL at all. -/
def cex4Manifest : JObj := .cons "a" (.arr (.cons .null (.cons (.num 5) .nil))) .nil

/-- C4: the claim fails. On a manifest containing no reference string at all
(`changed` and `removed` both end up empty), the rewrite still alters the
structure: the pre-existing null element of the sequence is dropped (and a
fresh `resources` key is appended), so values other than in-scope and blocked
references do not all remain in place. -/
theorem rewrite_frame_cex :
    cex4Manifest.get "a" = some (.arr (.cons .null (.cons (.num 5) .nil))) ∧
    ∃ m' ch rm, rewrite_manifest cex4Manifest "local_www" = some (m', ch, rm) ∧
      ch = [] ∧ rm = [] ∧
      m'.get "a" = some (.arr (.cons (.num 5) .nil)) :=
  ⟨rfl, .cons "a" (.arr (.cons (.num 5) .nil)) (.cons "resources" (.arr .nil) .nil),
    [], [], rfl, rfl, rfl, rfl⟩

/-- The known-arrays item rewriter preserves the spec transform of the item when
its href is not null. -/
theorem specReplace_hrefItem (root : String) (it : Json) (st : RW)
    (hok : itemHrefNotNull it = true) :
    specReplace root (rewriteHrefItem root it st).1 = specReplace root it := by
  match it with
  | .obj kvs =>
    match hg : kvs.get "href" with
    | none =>
      have hkey : kvs.hasKey "href" = false := by simp [JObj.hasKey, hg]
      rw [show (rewriteHrefItem root (.obj kvs) st).1 = .obj kvs by
        simp [rewriteHrefItem, hkey]]
    | some .null => simp [itemHrefNotNull, hg] at hok
    | some (.str s) =>
      have hkey : kvs.hasKey "href" = true := by simp [JObj.hasKey, hg]
      have hgd : (kvs.get "href").getD .null = .str s := by rw [hg]; rfl
      by_cases hh : isHttpStr s = true
      · by_cases hb : is_blocked (.str s) = true
        · have hrs : rewrite_string root ((kvs.get "href").getD .null) st =
              (.null, ⟨st.changed, st.removed ++ [s]⟩) := by
            rw [hgd]
            exact rewrite_string_http_blocked root s st hh hb
          rw [show (rewriteHrefItem root (.obj kvs) st).1 = .obj (kvs.popKey "href") by
            simp [rewriteHrefItem, hkey, hrs, Json.isNull]]
          show Json.obj (specReplaceObj root (kvs.popKey "href")) =
            .obj (specReplaceObj root kvs)
          rw [specReplaceObj_popKey_blocked root kvs "href" s hg
            (by simp [specRemoves, hh, hb])]
        · have hb2 : is_blocked (.str s) = false := by simpa using hb
          have hsc : inScope s = true := by simp [inScope, hh, hb2]
          have hrs : rewrite_string root ((kvs.get "href").getD .null) st =
              (.str (url_to_local_path s root).2,
               ⟨st.changed ++ [(s, (url_to_local_path s root).2,
                  pathReprStr (url_to_local_path s root).1)], st.removed⟩) := by
            rw [hgd]
            exact rewrite_string_http_not_blocked root s st hh hb2
          rw [show (rewriteHrefItem root (.obj kvs) st).1 =
              .obj (kvs.setKey "href" (.str (url_to_local_path s root).2)) by
            simp [rewriteHrefItem, hkey, hrs, Json.isNull]]
          show Json.obj (specReplaceObj root
              (kvs.setKey "href" (.str (url_to_local_path s root).2))) =
            .obj (specReplaceObj root kvs)
          rw [specReplaceObj_setKey_swap root kvs "href" (.str s)
            (.str (url_to_local_path s root).2) hg
            (by simp [specRemoves, hb2])
            (by simp [specRemoves, url_to_local_path_href_not_http])
            (by simp [specReplace, hsc, inScope_href_false])]
      · have hh2 : isHttpStr s = false := by simpa using hh
        have hrs : rewrite_string root ((kvs.get "href").getD .null) st = (.str s, st) := by
          rw [hgd]
          simp [rewrite_string, hh2]
        rw [show (rewriteHrefItem root (.obj kvs) st).1 = .obj (kvs.setKey "href" (.str s)) by
          simp [rewriteHrefItem, hkey, hrs, Json.isNull]]
        rw [setKey_self kvs "href" (.str s) hg]
    | some (.bool b) =>
      have hkey : kvs.hasKey "href" = true := by simp [JObj.hasKey, hg]
      have hrs : rewrite_string root ((kvs.get "href").getD .null) st = (.bool b, st) := by
        rw [show (kvs.get "href").getD .null = .bool b by rw [hg]; rfl]
        rfl
      rw [show (rewriteHrefItem root (.obj kvs) st).1 = .obj (kvs.setKey "href" (.bool b)) by
        simp [rewriteHrefItem, hkey, hrs, Json.isNull]]
      rw [setKey_self kvs "href" (.bool b) hg]
    | some (.num n) =>
      have hkey : kvs.hasKey "href" = true := by simp [JObj.hasKey, hg]
      have hrs : rewrite_string root ((kvs.get "href").getD .null) st = (.num n, st) := by
        rw [show (kvs.get "href").getD .null = .num n by rw [hg]; rfl]
        rfl
      rw [show (rewriteHrefItem root (.obj kvs) st).1 = .obj (kvs.setKey "href" (.num n)) by
        simp [rewriteHrefItem, hkey, hrs, Json.isNull]]
      rw [setKey_self kvs "href" (.num n) hg]
    | some (.arr ys) =>
      have hkey : kvs.hasKey "href" = true := by simp [JObj.hasKey, hg]
      have hrs : rewrite_string root ((kvs.get "href").getD .null) st = (.arr ys, st) := by
        rw [show (kvs.get "href").getD .null = .arr ys by rw [hg]; rfl]
        rfl
      rw [show (rewriteHrefItem root (.obj kvs) st).1 = .obj (kvs.setKey "href" (.arr ys)) by
        simp [rewriteHrefItem, hkey, hrs, Json.isNull]]
      rw [setKey_self kvs "href" (.arr ys) hg]
    | some (.obj mo) =>
      have hkey : kvs.hasKey "href" = true := by simp [JObj.hasKey, hg]
      have hrs : rewrite_string root ((kvs.get "href").getD .null) st = (.obj mo, st) := by
        rw [show (kvs.get "href").getD .null = .obj mo by rw [hg]; rfl]
        rfl
      rw [show (rewriteHrefItem root (.obj kvs) st).1 = .obj (kvs.setKey "href" (.obj mo)) by
        simp [rewriteHrefItem, hkey, hrs, Json.isNull]]
      rw [setKey_self kvs "href" (.obj mo) hg]
  | .null => rfl
  | .bool b => rfl
  | .num n => rfl
  | .str s => rfl
  | .arr ys => rfl

/-- The known-arrays item rewriter preserves the removal status of the item. -/
theorem rewriteHrefItem_specRemoves (root : String) (x : Json) (st : RW) :
    specRemoves (rewriteHrefItem root x st).1 = specRemoves x := by
  match x with
  | .obj kvs =>
    by_cases hkey : kvs.hasKey "href" = true
    · by_cases hnull : (rewrite_string root ((kvs.get "href").getD .null) st).1.isNull = true
      · rw [show (rewriteHrefItem root (.obj kvs) st).1 = .obj (kvs.popKey "href") by
          simp [rewriteHrefItem, hkey, hnull]]
        rfl
      · have hnull2 : (rewrite_string root ((kvs.get "href").getD .null) st).1.isNull = false := by
          simpa using hnull
        rw [show (rewriteHrefItem root (.obj kvs) st).1 =
            .obj (kvs.setKey "href" (rewrite_string root ((kvs.get "href").getD .null) st).1) by
          simp [rewriteHrefItem, hkey, hnull2]]
        rfl
    · have hkey2 : kvs.hasKey "href" = false := by simpa using hkey
      rw [show (rewriteHrefItem root (.obj kvs) st).1 = .obj kvs by
        simp [rewriteHrefItem, hkey2]]
  | .null => rfl
  | .bool b => rfl
  | .num n => rfl
  | .str s => rfl
  | .arr ys => rfl

/-- Elementwise congruence for the spec sequence rule. -/
theorem specReplaceArr_cons_congr (root : String) (a b : Json) (A B : JArr)
    (hrem : specRemoves a = specRemoves b)
    (hhead : specReplace root a = specReplace root b)
    (htail : specReplaceArr root A = specReplaceArr root B) :
    specReplaceArr root (.cons a A) = specReplaceArr root (.cons b B) := by
  by_cases hr : specRemoves a = true
  · have hrb : specRemoves b = true := by rw [← hrem]; exact hr
    obtain ⟨s, rfl⟩ : ∃ s, a = .str s := by cases a <;> simp [specRemoves] at hr ⊢
    obtain ⟨t, rfl⟩ : ∃ t, b = .str t := by cases b <;> simp [specRemoves] at hrb ⊢
    rw [specReplaceArr_cons_drop root s A hr, specReplaceArr_cons_drop root t B hrb, htail]
  · have hra : specRemoves a = false := by simpa using hr
    have hrb : specRemoves b = false := by rw [← hrem]; exact hra
    rw [specReplaceArr_cons_keep root a A hra, specReplaceArr_cons_keep root b B hrb,
      hhead, htail]

/-- The known-arrays pass over a list preserves the spec transform of the list's
array. -/
theorem specArr_mapRW (root : String) (items : List Json) (st : RW)
    (hok : items.all itemHrefNotNull = true) :
    specReplaceArr root (JArr.ofList (mapRW (rewriteHrefItem root) items st).1) =
      specReplaceArr root (JArr.ofList items) := by
  match items with
  | [] => rfl
  | x :: xs =>
    have hok2 : itemHrefNotNull x = true ∧ xs.all itemHrefNotNull = true := by
      rw [List.all_cons, Bool.and_eq_true] at hok
      exact hok
    show specReplaceArr root (.cons (rewriteHrefItem root x st).1
      (JArr.ofList (mapRW (rewriteHrefItem root) xs (rewriteHrefItem root x st).2).1)) =
      specReplaceArr root (.cons x (JArr.ofList xs))
    exact specReplaceArr_cons_congr root _ x _ _
      (rewriteHrefItem_specRemoves root x st)
      (specReplace_hrefItem root x st hok2.1)
      (specArr_mapRW root xs (rewriteHrefItem root x st).2 hok2.2)

/-- The known-arrays pass preserves the spec transform of the manifest when the
field is wellformed. -/
theorem specObj_rewriteListKey (root key : String) (m : JObj) (st : RW)
    (hok : knownArrayOk m key = true) :
    specReplaceObj root (rewriteListKey root key m st).1 = specReplaceObj root m := by
  match hg : m.get key with
  | some (.arr xs) =>
    have hall : xs.toList.all itemHrefNotNull = true := by
      simpa [knownArrayOk, hg] using hok
    rw [show (rewriteListKey root key m st).1 =
        m.setKey key (.arr (JArr.ofList (mapRW (rewriteHrefItem root) xs.toList st).1)) by
      simp [rewriteListKey, hg]]
    apply specReplaceObj_setKey_swap root m key (.arr xs) _ hg
      (by simp [specRemoves]) (by simp [specRemoves])
    show Json.arr (specReplaceArr root
        (JArr.ofList (mapRW (rewriteHrefItem root) xs.toList st).1)) =
      .arr (specReplaceArr root xs)
    rw [specArr_mapRW root xs.toList st hall, ofList_toList xs]
  | some .null => rw [show (rewriteListKey root key m st).1 = m by
      simp [rewriteListKey, hg]]
  | some (.bool b) => rw [show (rewriteListKey root key m st).1 = m by
      simp [rewriteListKey, hg]]
  | some (.num n) => rw [show (rewriteListKey root key m st).1 = m by
      simp [rewriteListKey, hg]]
  | some (.str s) => rw [show (rewriteListKey root key m st).1 = m by
      simp [rewriteListKey, hg]]
  | some (.obj mo) => rw [show (rewriteListKey root key m st).1 = m by
      simp [rewriteListKey, hg]]
  | none => rw [show (rewriteListKey root key m st).1 = m by
      simp [rewriteListKey, hg]]

/-- The resources loop preserves the spec transform of the element list when
every element is wellformed. -/
theorem specArr_resourcesLoop (root : String) (items : List Json) (st : RW)
    (hok : items.all resourcesElemFrameOk = true) :
    specReplaceArr root (JArr.ofList (resourcesLoop root items st).1) =
      specReplaceArr root (JArr.ofList items) := by
  match items with
  | [] => rfl
  | r :: rs =>
    have hok2 : resourcesElemFrameOk r = true ∧ rs.all resourcesElemFrameOk = true := by
      rw [List.all_cons, Bool.and_eq_true] at hok
      exact hok
    match r with
    | .obj kvs =>
      match hg : (kvs.get "href").getD .null with
      | .str s =>
        have hb : is_blocked (.str s) = false := by
          have h2 := hok2.1
          simp only [resourcesElemFrameOk, hg] at h2
          simpa using h2
        have hw : kvs.get "href" = some (.str s) := by
          cases hg2 : kvs.get "href" with
          | some w =>
            rw [hg2] at hg
            simp only [Option.getD_some] at hg
            rw [hg]
          | none =>
            rw [hg2] at hg
            simp [Option.getD] at hg
        by_cases hh : isHttpStr s = true
        · have hsc : inScope s = true := by simp [inScope, hh, hb]
          have hrs : rewrite_string root (.str s) st =
              (.str (url_to_local_path s root).2,
               ⟨st.changed ++ [(s, (url_to_local_path s root).2,
                  pathReprStr (url_to_local_path s root).1)], st.removed⟩) :=
            rewrite_string_http_not_blocked root s st hh hb
          have he : (resourcesLoop root (.obj kvs :: rs) st).1 =
              .obj (kvs.setKey "href" (.str (url_to_local_path s root).2)) ::
                (resourcesLoop root rs (rewrite_string root (.str s) st).2).1 := by
            simp [resourcesLoop, hg, hb, hrs, Json.isNull]
          rw [he]
          show specReplaceArr root
              (.cons (.obj (kvs.setKey "href" (.str (url_to_local_path s root).2)))
                (JArr.ofList (resourcesLoop root rs (rewrite_string root (.str s) st).2).1)) =
            specReplaceArr root (.cons (.obj kvs) (JArr.ofList rs))
          refine specReplaceArr_cons_congr root _ _ _ _ rfl ?_
            (specArr_resourcesLoop root rs _ hok2.2)
          show Json.obj (specReplaceObj root
              (kvs.setKey "href" (.str (url_to_local_path s root).2))) =
            .obj (specReplaceObj root kvs)
          rw [specReplaceObj_setKey_swap root kvs "href" (.str s)
            (.str (url_to_local_path s root).2) hw
            (by simp [specRemoves, hb])
            (by simp [specRemoves, url_to_local_path_href_not_http])
            (by simp [specReplace, hsc, inScope_href_false])]
        · have hh2 : isHttpStr s = false := by simpa using hh
          have hrs : rewrite_string root (.str s) st = (.str s, st) := by
            simp [rewrite_string, hh2]
          have he : (resourcesLoop root (.obj kvs :: rs) st).1 =
              .obj (kvs.setKey "href" (.str s)) :: (resourcesLoop root rs st).1 := by
            simp [resourcesLoop, hg, hb, hrs, Json.isNull]
          rw [he, setKey_self kvs "href" (.str s) hw]
          show specReplaceArr root (.cons (.obj kvs)
              (JArr.ofList (resourcesLoop root rs st).1)) =
            specReplaceArr root (.cons (.obj kvs) (JArr.ofList rs))
          exact specReplaceArr_cons_congr root _ _ _ _ rfl rfl
            (specArr_resourcesLoop root rs st hok2.2)
      | .null =>
        have he : (resourcesLoop root (.obj kvs :: rs) st).1 =
            .obj kvs :: (resourcesLoop root rs st).1 := by
          simp [resourcesLoop, hg]
        rw [he]
        exact specReplaceArr_cons_congr root _ _ _ _ rfl rfl
          (specArr_resourcesLoop root rs st hok2.2)
      | .bool b =>
        have he : (resourcesLoop root (.obj kvs :: rs) st).1 =
            .obj kvs :: (resourcesLoop root rs st).1 := by
          simp [resourcesLoop, hg]
        rw [he]
        exact specReplaceArr_cons_congr root _ _ _ _ rfl rfl
          (specArr_resourcesLoop root rs st hok2.2)
      | .num n =>
        have he : (resourcesLoop root (.obj kvs :: rs) st).1 =
            .obj kvs :: (resourcesLoop root rs st).1 := by
          simp [resourcesLoop, hg]
        rw [he]
        exact specReplaceArr_cons_congr root _ _ _ _ rfl rfl
          (specArr_resourcesLoop root rs st hok2.2)
      | .arr ys =>
        have he : (resourcesLoop root (.obj kvs :: rs) st).1 =
            .obj kvs :: (resourcesLoop root rs st).1 := by
          simp [resourcesLoop, hg]
        rw [he]
        exact specReplaceArr_cons_congr root _ _ _ _ rfl rfl
          (specArr_resourcesLoop root rs st hok2.2)
      | .obj mo =>
        have he : (resourcesLoop root (.obj kvs :: rs) st).1 =
            .obj kvs :: (resourcesLoop root rs st).1 := by
          simp [resourcesLoop, hg]
        rw [he]
        exact specReplaceArr_cons_congr root _ _ _ _ rfl rfl
          (specArr_resourcesLoop root rs st hok2.2)
    | .null =>
      show specReplaceArr root (.cons .null (JArr.ofList (resourcesLoop root rs st).1)) =
        specReplaceArr root (.cons .null (JArr.ofList rs))
      exact specReplaceArr_cons_congr root _ _ _ _ rfl rfl
        (specArr_resourcesLoop root rs st hok2.2)
    | .bool b =>
      show specReplaceArr root (.cons (.bool b) (JArr.ofList (resourcesLoop root rs st).1)) =
        specReplaceArr root (.cons (.bool b) (JArr.ofList rs))
      exact specReplaceArr_cons_congr root _ _ _ _ rfl rfl
        (specArr_resourcesLoop root rs st hok2.2)
    | .num n =>
      show specReplaceArr root (.cons (.num n) (JArr.ofList (resourcesLoop root rs st).1)) =
        specReplaceArr root (.cons (.num n) (JArr.ofList rs))
      exact specReplaceArr_cons_congr root _ _ _ _ rfl rfl
        (specArr_resourcesLoop root rs st hok2.2)
    | .str t =>
      show specReplaceArr root (.cons (.str t) (JArr.ofList (resourcesLoop root rs st).1)) =
        specReplaceArr root (.cons (.str t) (JArr.ofList rs))
      exact specReplaceArr_cons_congr root _ _ _ _ rfl rfl
        (specArr_resourcesLoop root rs st hok2.2)
    | .arr ys =>
      show specReplaceArr root (.cons (.arr ys) (JArr.ofList (resourcesLoop root rs st).1)) =
        specReplaceArr root (.cons (.arr ys) (JArr.ofList rs))
      exact specReplaceArr_cons_congr root _ _ _ _ rfl rfl
        (specArr_resourcesLoop root rs st hok2.2)

/-- The resources pass preserves the spec transform when the field is present as
an array of wellformed elements. -/
theorem specObj_rewriteResources (root : String) (m : JObj) (st : RW) (xs : JArr)
    (hres : m.get "resources" = some (.arr xs))
    (hall : xs.toList.all resourcesElemFrameOk = true) (m4 : JObj) (st4 : RW)
    (hre : rewriteResources root m st = some (m4, st4)) :
    specReplaceObj root m4 = specReplaceObj root m := by
  have he : rewriteResources root m st =
      some (m.setKey "resources" (.arr (JArr.ofList (resourcesLoop root xs.toList st).1)),
        (resourcesLoop root xs.toList st).2) := by
    simp [rewriteResources, hres, pyIter]
  rw [he] at hre
  simp only [Option.some.injEq, Prod.mk.injEq] at hre
  obtain ⟨hm, hst⟩ := hre
  rw [← hm]
  apply specReplaceObj_setKey_swap root m "resources" (.arr xs) _ hres
    (by simp [specRemoves]) (by simp [specRemoves])
  show Json.arr (specReplaceArr root (JArr.ofList (resourcesLoop root xs.toList st).1)) =
    .arr (specReplaceArr root xs)
  rw [specArr_resourcesLoop root xs.toList st hall, ofList_toList xs]

/-- The metadata.identifier pass preserves the spec transform. -/
theorem specObj_rewriteIdentifier (root : String) (m : JObj) (st : RW) :
    specReplaceObj root (rewriteIdentifier root m st).1 = specReplaceObj root m := by
  match hg : m.get "metadata" with
  | some (.obj mk) =>
    match hgi : mk.get "identifier" with
    | some (.str s) =>
      by_cases hh : isHttpStr s = true
      · by_cases hb : is_blocked (.str s) = true
        · have he : (rewriteIdentifier root m st).1 =
              m.setKey "metadata" (.obj (mk.popKey "identifier")) := by
            simp [rewriteIdentifier, hg, hgi,
              rewrite_string_http_blocked root s st hh hb, Json.isNull]
          rw [he]
          apply specReplaceObj_setKey_swap root m "metadata" (.obj mk) _ hg
            (by simp [specRemoves]) (by simp [specRemoves])
          show Json.obj (specReplaceObj root (mk.popKey "identifier")) =
            .obj (specReplaceObj root mk)
          rw [specReplaceObj_popKey_blocked root mk "identifier" s hgi
            (by simp [specRemoves, hh, hb])]
        · have hb2 : is_blocked (.str s) = false := by simpa using hb
          have hsc : inScope s = true := by simp [inScope, hh, hb2]
          have he : (rewriteIdentifier root m st).1 =
              m.setKey "metadata"
                (.obj (mk.setKey "identifier" (.str (url_to_local_path s root).2))) := by
            simp [rewriteIdentifier, hg, hgi,
              rewrite_string_http_not_blocked root s st hh hb2, Json.isNull]
          rw [he]
          apply specReplaceObj_setKey_swap root m "metadata" (.obj mk) _ hg
            (by simp [specRemoves]) (by simp [specRemoves])
          show Json.obj (specReplaceObj root
              (mk.setKey "identifier" (.str (url_to_local_path s root).2))) =
            .obj (specReplaceObj root mk)
          rw [specReplaceObj_setKey_swap root mk "identifier" (.str s)
            (.str (url_to_local_path s root).2) hgi
            (by simp [specRemoves, hb2])
            (by simp [specRemoves, url_to_local_path_href_not_http])
            (by simp [specReplace, hsc, inScope_href_false])]
      · have hh2 : isHttpStr s = false := by simpa using hh
        have hrs : rewrite_string root (.str s) st = (.str s, st) := by
          simp [rewrite_string, hh2]
        have he : (rewriteIdentifier root m st).1 =
            m.setKey "metadata" (.obj (mk.setKey "identifier" (.str s))) := by
          simp [rewriteIdentifier, hg, hgi, hrs, Json.isNull]
        rw [he, setKey_self mk "identifier" (.str s) hgi, setKey_self m "metadata" (.obj mk) hg]
    | some .null => rw [show (rewriteIdentifier root m st).1 = m by
        simp [rewriteIdentifier, hg, hgi]]
    | some (.bool b) => rw [show (rewriteIdentifier root m st).1 = m by
        simp [rewriteIdentifier, hg, hgi]]
    | some (.num n) => rw [show (rewriteIdentifier root m st).1 = m by
        simp [rewriteIdentifier, hg, hgi]]
    | some (.arr ys) => rw [show (rewriteIdentifier root m st).1 = m by
        simp [rewriteIdentifier, hg, hgi]]
    | some (.obj mo) => rw [show (rewriteIdentifier root m st).1 = m by
        simp [rewriteIdentifier, hg, hgi]]
    | none => rw [show (rewriteIdentifier root m st).1 = m by
        simp [rewriteIdentifier, hg, hgi]]
  | some .null => rw [show (rewriteIdentifier root m st).1 = m by
      simp [rewriteIdentifier, hg]]
  | some (.bool b) => rw [show (rewriteIdentifier root m st).1 = m by
      simp [rewriteIdentifier, hg]]
  | some (.num n) => rw [show (rewriteIdentifier root m st).1 = m by
      simp [rewriteIdentifier, hg]]
  | some (.str s) => rw [show (rewriteIdentifier root m st).1 = m by
      simp [rewriteIdentifier, hg]]
  | some (.arr ys) => rw [show (rewriteIdentifier root m st).1 = m by
      simp [rewriteIdentifier, hg]]
  | none => rw [show (rewriteIdentifier root m st).1 = m by
      simp [rewriteIdentifier, hg]]

/-- A value reached by a key lookup in a null-free object is null-free. -/
theorem arrsNullFree_of_get (kvs : JObj) (key : String) (w : Json)
    (hget : kvs.get key = some w) (hn : arrsNullFreeObj kvs = true) :
    arrsNullFree w = true := by
  match kvs with
  | .nil => simp [JObj.get] at hget
  | .cons k1 v1 tl =>
    have hn2 : arrsNullFree v1 = true ∧ arrsNullFreeObj tl = true := by
      simpa [arrsNullFreeObj, Bool.and_eq_true] using hn
    by_cases hk : (k1 == key) = true
    · simp only [JObj.get, if_pos hk] at hget
      have hvw : v1 = w := by injection hget
      rw [← hvw]
      exact hn2.1
    · simp only [JObj.get, if_neg hk] at hget
      exact arrsNullFree_of_get tl key w hget hn2.2

/-- Updating a key with a null-free value keeps the object null-free. -/
theorem arrsNullFreeObj_setKey (kvs : JObj) (key : String) (v : Json)
    (hn : arrsNullFreeObj kvs = true) (hv : arrsNullFree v = true) :
    arrsNullFreeObj (kvs.setKey key v) = true := by
  match kvs with
  | .nil => simp [JObj.setKey, arrsNullFreeObj, hv]
  | .cons k1 v1 tl =>
    have hn2 : arrsNullFree v1 = true ∧ arrsNullFreeObj tl = true := by
      simpa [arrsNullFreeObj, Bool.and_eq_true] using hn
    by_cases hk : (k1 == key) = true
    · simp [JObj.setKey, hk, arrsNullFreeObj, hv, hn2.2]
    · simp [JObj.setKey, hk, arrsNullFreeObj, hn2.1,
        arrsNullFreeObj_setKey tl key v hn2.2 hv]

/-- Popping a key keeps the object null-free. -/
theorem arrsNullFreeObj_popKey (kvs : JObj) (key : String)
    (hn : arrsNullFreeObj kvs = true) :
    arrsNullFreeObj (kvs.popKey key) = true := by
  match kvs with
  | .nil => simpa [JObj.popKey] using hn
  | .cons k1 v1 tl =>
    have hn2 : arrsNullFree v1 = true ∧ arrsNullFreeObj tl = true := by
      simpa [arrsNullFreeObj, Bool.and_eq_true] using hn
    by_cases hk : (k1 == key) = true
    · simpa [JObj.popKey, hk] using hn2.2
    · simp [JObj.popKey, hk, arrsNullFreeObj, hn2.1,
        arrsNullFreeObj_popKey tl key hn2.2]

/-- The string rewriter returns a null-free value on null-free input. -/
theorem rewrite_string_arrsNullFree (root : String) (v : Json) (st : RW)
    (hv : arrsNullFree v = true) :
    arrsNullFree (rewrite_string root v st).1 = true := by
  match v with
  | .str t =>
    by_cases hh : isHttpStr t = true
    · by_cases hb : is_blocked (.str t) = true
      · simp [rewrite_string, hh, hb, arrsNullFree]
      · have hb2 : is_blocked (.str t) = false := by simpa using hb
        simp [rewrite_string, hh, hb2, arrsNullFree]
    · have hh2 : isHttpStr t = false := by simpa using hh
      simp [rewrite_string, hh2, arrsNullFree]
  | .null => exact hv
  | .bool b => exact hv
  | .num n => exact hv
  | .arr ys => exact hv
  | .obj mo => exact hv

/-- The known-arrays item rewriter preserves null-freeness. -/
theorem rewriteHrefItem_arrsNullFree (root : String) (it : Json) (st : RW)
    (hn : arrsNullFree it = true) :
    arrsNullFree (rewriteHrefItem root it st).1 = true := by
  match it with
  | .obj kvs =>
    have hno : arrsNullFreeObj kvs = true := by simpa [arrsNullFree] using hn
    by_cases hkey : kvs.hasKey "href" = true
    · obtain ⟨w, hw⟩ : ∃ w, kvs.get "href" = some w := by
        cases hg : kvs.get "href" with
        | some w => exact ⟨w, rfl⟩
        | none => simp [JObj.hasKey, hg] at hkey
      have hgd : (kvs.get "href").getD .null = w := by rw [hw]; rfl
      by_cases hnull : (rewrite_string root ((kvs.get "href").getD .null) st).1.isNull = true
      · rw [show (rewriteHrefItem root (.obj kvs) st).1 = .obj (kvs.popKey "href") by
          simp [rewriteHrefItem, hkey, hnull]]
        show arrsNullFreeObj (kvs.popKey "href") = true
        exact arrsNullFreeObj_popKey kvs "href" hno
      · have hnull2 : (rewrite_string root ((kvs.get "href").getD .null) st).1.isNull = false := by
          simpa using hnull
        rw [show (rewriteHrefItem root (.obj kvs) st).1 =
            .obj (kvs.setKey "href" (rewrite_string root ((kvs.get "href").getD .null) st).1) by
          simp [rewriteHrefItem, hkey, hnull2]]
        show arrsNullFreeObj
          (kvs.setKey "href" (rewrite_string root ((kvs.get "href").getD .null) st).1) = true
        refine arrsNullFreeObj_setKey kvs "href" _ hno ?_
        rw [hgd]
        exact rewrite_string_arrsNullFree root w st (arrsNullFree_of_get kvs "href" w hw hno)
    · have hkey2 : kvs.hasKey "href" = false := by simpa using hkey
      rw [show (rewriteHrefItem root (.obj kvs) st).1 = .obj kvs by
        simp [rewriteHrefItem, hkey2]]
      exact hn
  | .null => exact hn
  | .bool b => exact hn
  | .num n => exact hn
  | .str s => exact hn
  | .arr ys => exact hn

/-- The known-arrays item rewriter preserves nullness status. -/
theorem rewriteHrefItem_isNull (root : String) (it : Json) (st : RW) :
    (rewriteHrefItem root it st).1.isNull = it.isNull := by
  match it with
  | .obj kvs =>
    by_cases hkey : kvs.hasKey "href" = true
    · by_cases hnull : (rewrite_string root ((kvs.get "href").getD .null) st).1.isNull = true
      · rw [show (rewriteHrefItem root (.obj kvs) st).1 = .obj (kvs.popKey "href") by
          simp [rewriteHrefItem, hkey, hnull]]
        rfl
      · have hnull2 : (rewrite_string root ((kvs.get "href").getD .null) st).1.isNull = false := by
          simpa using hnull
        rw [show (rewriteHrefItem root (.obj kvs) st).1 =
            .obj (kvs.setKey "href" (rewrite_string root ((kvs.get "href").getD .null) st).1) by
          simp [rewriteHrefItem, hkey, hnull2]]
        rfl
    · have hkey2 : kvs.hasKey "href" = false := by simpa using hkey
      rw [show (rewriteHrefItem root (.obj kvs) st).1 = .obj kvs by
        simp [rewriteHrefItem, hkey2]]
  | .null => rfl
  | .bool b => rfl
  | .num n => rfl
  | .str s => rfl
  | .arr ys => rfl

/-- The known-arrays pass over a list preserves null-freeness of the array. -/
theorem arrsNullFreeArr_mapRW (root : String) (items : List Json) (st : RW)
    (hn : arrsNullFreeArr (JArr.ofList items) = true) :
    arrsNullFreeArr (JArr.ofList (mapRW (rewriteHrefItem root) items st).1) = true := by
  match items with
  | [] => rfl
  | x :: xs =>
    have hn3 : (!x.isNull && arrsNullFree x) = true ∧
        arrsNullFreeArr (JArr.ofList xs) = true := by
      simpa [JArr.ofList, arrsNullFreeArr, Bool.and_eq_true] using hn
    have hxh := hn3.1
    rw [Bool.and_eq_true] at hxh
    show arrsNullFreeArr (.cons (rewriteHrefItem root x st).1
      (JArr.ofList (mapRW (rewriteHrefItem root) xs (rewriteHrefItem root x st).2).1)) = true
    have h1 : (rewriteHrefItem root x st).1.isNull = false := by
      rw [rewriteHrefItem_isNull]
      simpa using hxh.1
    simp only [arrsNullFreeArr, Bool.and_eq_true]
    exact ⟨⟨by simp [h1], rewriteHrefItem_arrsNullFree root x st hxh.2⟩,
      arrsNullFreeArr_mapRW root xs (rewriteHrefItem root x st).2 hn3.2⟩

/-- The known-arrays pass preserves null-freeness of the manifest. -/
theorem arrsNullFreeObj_rewriteListKey (root key : String) (m : JObj) (st : RW)
    (hn : arrsNullFreeObj m = true) :
    arrsNullFreeObj (rewriteListKey root key m st).1 = true := by
  match hg : m.get key with
  | some (.arr xs) =>
    rw [show (rewriteListKey root key m st).1 =
        m.setKey key (.arr (JArr.ofList (mapRW (rewriteHrefItem root) xs.toList st).1)) by
      simp [rewriteListKey, hg]]
    refine arrsNullFreeObj_setKey m key _ hn ?_
    show arrsNullFreeArr (JArr.ofList (mapRW (rewriteHrefItem root) xs.toList st).1) = true
    refine arrsNullFreeArr_mapRW root xs.toList st ?_
    rw [ofList_toList xs]
    have h2 := arrsNullFree_of_get m key (.arr xs) hg hn
    simpa [arrsNullFree] using h2
  | some .null => rw [show (rewriteListKey root key m st).1 = m by
      simp [rewriteListKey, hg]]; exact hn
  | some (.bool b) => rw [show (rewriteListKey root key m st).1 = m by
      simp [rewriteListKey, hg]]; exact hn
  | some (.num n) => rw [show (rewriteListKey root key m st).1 = m by
      simp [rewriteListKey, hg]]; exact hn
  | some (.str s) => rw [show (rewriteListKey root key m st).1 = m by
      simp [rewriteListKey, hg]]; exact hn
  | some (.obj mo) => rw [show (rewriteListKey root key m st).1 = m by
      simp [rewriteListKey, hg]]; exact hn
  | none => rw [show (rewriteListKey root key m st).1 = m by
      simp [rewriteListKey, hg]]; exact hn

/-- Null-freeness introduction for a cons list as an array. -/
theorem arrsNullFreeArr_ofList_cons (x : Json) (l : List Json)
    (hx : x.isNull = false) (hnx : arrsNullFree x = true)
    (hl : arrsNullFreeArr (JArr.ofList l) = true) :
    arrsNullFreeArr (JArr.ofList (x :: l)) = true := by
  simp [JArr.ofList, arrsNullFreeArr, hx, hnx, hl]

/-- Null-freeness elimination for a cons list as an array. -/
theorem arrsNullFreeArr_ofList_cons_elim (x : Json) (l : List Json)
    (h : arrsNullFreeArr (JArr.ofList (x :: l)) = true) :
    x.isNull = false ∧ arrsNullFree x = true ∧ arrsNullFreeArr (JArr.ofList l) = true := by
  simp only [JArr.ofList, arrsNullFreeArr, Bool.and_eq_true] at h
  exact ⟨by simpa using h.1.1, h.1.2, h.2⟩

/-- The resources loop preserves null-freeness of the element list. -/
theorem arrsNullFreeArr_resourcesLoop (root : String) (items : List Json) (st : RW)
    (hn : arrsNullFreeArr (JArr.ofList items) = true) :
    arrsNullFreeArr (JArr.ofList (resourcesLoop root items st).1) = true := by
  match items with
  | [] => rfl
  | r :: rs =>
    obtain ⟨hrn, hrf, hrs⟩ := arrsNullFreeArr_ofList_cons_elim r rs hn
    match r with
    | .obj kvs =>
      match hg : (kvs.get "href").getD .null with
      | .str s =>
        by_cases hb : is_blocked (.str s) = true
        · rw [show (resourcesLoop root (.obj kvs :: rs) st).1 =
              (resourcesLoop root rs ⟨st.changed, st.removed ++ [s]⟩).1 by
            simp [resourcesLoop, hg, hb]]
          exact arrsNullFreeArr_resourcesLoop root rs _ hrs
        · have hb2 : is_blocked (.str s) = false := by simpa using hb
          by_cases hnull : (rewrite_string root (.str s) st).1.isNull = true
          · rw [show (resourcesLoop root (.obj kvs :: rs) st).1 =
                (resourcesLoop root rs (rewrite_string root (.str s) st).2).1 by
              simp [resourcesLoop, hg, hb2, hnull]]
            exact arrsNullFreeArr_resourcesLoop root rs _ hrs
          · have hnull2 : (rewrite_string root (.str s) st).1.isNull = false := by
              simpa using hnull
            rw [show (resourcesLoop root (.obj kvs :: rs) st).1 =
                .obj (kvs.setKey "href" (rewrite_string root (.str s) st).1) ::
                  (resourcesLoop root rs (rewrite_string root (.str s) st).2).1 by
              simp [resourcesLoop, hg, hb2, hnull2]]
            refine arrsNullFreeArr_ofList_cons _ _ rfl ?_
              (arrsNullFreeArr_resourcesLoop root rs _ hrs)
            show arrsNullFreeObj (kvs.setKey "href" (rewrite_string root (.str s) st).1) = true
            refine arrsNullFreeObj_setKey kvs "href" _ (by simpa [arrsNullFree] using hrf) ?_
            exact rewrite_string_arrsNullFree root (.str s) st (by simp [arrsNullFree])
      | .null =>
        rw [show (resourcesLoop root (.obj kvs :: rs) st).1 =
            .obj kvs :: (resourcesLoop root rs st).1 by simp [resourcesLoop, hg]]
        exact arrsNullFreeArr_ofList_cons _ _ hrn hrf
          (arrsNullFreeArr_resourcesLoop root rs st hrs)
      | .bool b =>
        rw [show (resourcesLoop root (.obj kvs :: rs) st).1 =
            .obj kvs :: (resourcesLoop root rs st).1 by simp [resourcesLoop, hg]]
        exact arrsNullFreeArr_ofList_cons _ _ hrn hrf
          (arrsNullFreeArr_resourcesLoop root rs st hrs)
      | .num n =>
        rw [show (resourcesLoop root (.obj kvs :: rs) st).1 =
            .obj kvs :: (resourcesLoop root rs st).1 by simp [resourcesLoop, hg]]
        exact arrsNullFreeArr_ofList_cons _ _ hrn hrf
          (arrsNullFreeArr_resourcesLoop root rs st hrs)
      | .arr ys =>
        rw [show (resourcesLoop root (.obj kvs :: rs) st).1 =
            .obj kvs :: (resourcesLoop root rs st).1 by simp [resourcesLoop, hg]]
        exact arrsNullFreeArr_ofList_cons _ _ hrn hrf
          (arrsNullFreeArr_resourcesLoop root rs st hrs)
      | .obj mo =>
        rw [show (resourcesLoop root (.obj kvs :: rs) st).1 =
            .obj kvs :: (resourcesLoop root rs st).1 by simp [resourcesLoop, hg]]
        exact arrsNullFreeArr_ofList_cons _ _ hrn hrf
          (arrsNullFreeArr_resourcesLoop root rs st hrs)
    | .null =>
      show arrsNullFreeArr (JArr.ofList (.null :: (resourcesLoop root rs st).1)) = true
      exact arrsNullFreeArr_ofList_cons _ _ hrn hrf
        (arrsNullFreeArr_resourcesLoop root rs st hrs)
    | .bool b =>
      show arrsNullFreeArr (JArr.ofList (.bool b :: (resourcesLoop root rs st).1)) = true
      exact arrsNullFreeArr_ofList_cons _ _ hrn hrf
        (arrsNullFreeArr_resourcesLoop root rs st hrs)
    | .num n =>
      show arrsNullFreeArr (JArr.ofList (.num n :: (resourcesLoop root rs st).1)) = true
      exact arrsNullFreeArr_ofList_cons _ _ hrn hrf
        (arrsNullFreeArr_resourcesLoop root rs st hrs)
    | .str t =>
      show arrsNullFreeArr (JArr.ofList (.str t :: (resourcesLoop root rs st).1)) = true
      exact arrsNullFreeArr_ofList_cons _ _ hrn hrf
        (arrsNullFreeArr_resourcesLoop root rs st hrs)
    | .arr ys =>
      show arrsNullFreeArr (JArr.ofList (.arr ys :: (resourcesLoop root rs st).1)) = true
      exact arrsNullFreeArr_ofList_cons _ _ hrn hrf
        (arrsNullFreeArr_resourcesLoop root rs st hrs)

/-- The resources pass preserves null-freeness of the manifest. -/
theorem arrsNullFreeObj_rewriteResources (root : String) (m : JObj) (st : RW)
    (xs : JArr) (hres : m.get "resources" = some (.arr xs)) (m4 : JObj) (st4 : RW)
    (hre : rewriteResources root m st = some (m4, st4))
    (hn : arrsNullFreeObj m = true) : arrsNullFreeObj m4 = true := by
  have he : rewriteResources root m st =
      some (m.setKey "resources" (.arr (JArr.ofList (resourcesLoop root xs.toList st).1)),
        (resourcesLoop root xs.toList st).2) := by
    simp [rewriteResources, hres, pyIter]
  rw [he] at hre
  simp only [Option.some.injEq, Prod.mk.injEq] at hre
  obtain ⟨hm, hst⟩ := hre
  rw [← hm]
  refine arrsNullFreeObj_setKey m "resources" _ hn ?_
  show arrsNullFreeArr (JArr.ofList (resourcesLoop root xs.toList st).1) = true
  refine arrsNullFreeArr_resourcesLoop root xs.toList st ?_
  rw [ofList_toList xs]
  simpa [arrsNullFree] using arrsNullFree_of_get m "resources" (.arr xs) hres hn

/-- The metadata.identifier pass preserves null-freeness of the manifest. -/
theorem arrsNullFreeObj_rewriteIdentifier (root : String) (m : JObj) (st : RW)
    (hn : arrsNullFreeObj m = true) :
    arrsNullFreeObj (rewriteIdentifier root m st).1 = true := by
  match hg : m.get "metadata" with
  | some (.obj mk) =>
    have hmk : arrsNullFreeObj mk = true := by
      simpa [arrsNullFree] using arrsNullFree_of_get m "metadata" (.obj mk) hg hn
    match hgi : mk.get "identifier" with
    | some (.str s) =>
      by_cases hnull : (rewrite_string root (.str s) st).1.isNull = true
      · rw [show (rewriteIdentifier root m st).1 =
            m.setKey "metadata" (.obj (mk.popKey "identifier")) by
          simp [rewriteIdentifier, hg, hgi, hnull]]
        refine arrsNullFreeObj_setKey m "metadata" _ hn ?_
        show arrsNullFreeObj (mk.popKey "identifier") = true
        exact arrsNullFreeObj_popKey mk "identifier" hmk
      · have hnull2 : (rewrite_string root (.str s) st).1.isNull = false := by
          simpa using hnull
        rw [show (rewriteIdentifier root m st).1 =
            m.setKey "metadata"
              (.obj (mk.setKey "identifier" (rewrite_string root (.str s) st).1)) by
          simp [rewriteIdentifier, hg, hgi, hnull2]]
        refine arrsNullFreeObj_setKey m "metadata" _ hn ?_
        show arrsNullFreeObj (mk.setKey "identifier" (rewrite_string root (.str s) st).1) = true
        refine arrsNullFreeObj_setKey mk "identifier" _ hmk ?_
        exact rewrite_string_arrsNullFree root (.str s) st (by simp [arrsNullFree])
    | some .null => rw [show (rewriteIdentifier root m st).1 = m by
        simp [rewriteIdentifier, hg, hgi]]; exact hn
    | some (.bool b) => rw [show (rewriteIdentifier root m st).1 = m by
        simp [rewriteIdentifier, hg, hgi]]; exact hn
    | some (.num n) => rw [show (rewriteIdentifier root m st).1 = m by
        simp [rewriteIdentifier, hg, hgi]]; exact hn
    | some (.arr ys) => rw [show (rewriteIdentifier root m st).1 = m by
        simp [rewriteIdentifier, hg, hgi]]; exact hn
    | some (.obj mo) => rw [show (rewriteIdentifier root m st).1 = m by
        simp [rewriteIdentifier, hg, hgi]]; exact hn
    | none => rw [show (rewriteIdentifier root m st).1 = m by
        simp [rewriteIdentifier, hg, hgi]]; exact hn
  | some .null => rw [show (rewriteIdentifier root m st).1 = m by
      simp [rewriteIdentifier, hg]]; exact hn
  | some (.bool b) => rw [show (rewriteIdentifier root m st).1 = m by
      simp [rewriteIdentifier, hg]]; exact hn
  | some (.num n) => rw [show (rewriteIdentifier root m st).1 = m by
      simp [rewriteIdentifier, hg]]; exact hn
  | some (.str s) => rw [show (rewriteIdentifier root m st).1 = m by
      simp [rewriteIdentifier, hg]]; exact hn
  | some (.arr ys) => rw [show (rewriteIdentifier root m st).1 = m by
      simp [rewriteIdentifier, hg]]; exact hn
  | none => rw [show (rewriteIdentifier root m st).1 = m by
      simp [rewriteIdentifier, hg]]; exact hn

/-- The known-array wellformedness test only depends on the field's value. -/
theorem knownArrayOk_congr (m m2 : JObj) (key : String) (h : m2.get key = m.get key) :
    knownArrayOk m2 key = knownArrayOk m key := by
  simp only [knownArrayOk, h]

/-- C4 (amended): on a manifest whose arrays are null-free, whose known-array
items carry no null href, and whose `resources` field is an array of elements
without blocked string hrefs, the rewritten manifest is exactly the spec
transform of the input: in-scope reference strings replaced, blocked absolute
references removed from their containing structures, everything else unchanged
and in place. -/
theorem rewrite_frame_amended (m : JObj) (root : String)
    (hn : arrsNullFreeObj m = true) (hhr : hrefsFrameOk m = true)
    (hres : resourcesFrameOk m = true) :
    ∃ ch rm, rewrite_manifest m root = some (specReplaceObj root m, ch, rm) := by
  obtain ⟨hk1, hk2, hk3⟩ : knownArrayOk m "links" = true ∧ knownArrayOk m "images" = true ∧
      knownArrayOk m "readingOrder" = true := by
    simpa [hrefsFrameOk, Bool.and_eq_true, and_assoc] using hhr
  obtain ⟨xs, hgx, hall⟩ : ∃ xs, m.get "resources" = some (.arr xs) ∧
      xs.toList.all resourcesElemFrameOk = true := by
    revert hres
    match hgr : m.get "resources" with
    | some (.arr ys) =>
      intro h
      exact ⟨ys, rfl, by simpa [resourcesFrameOk, hgr] using h⟩
    | some .null => intro h; simp [resourcesFrameOk, hgr] at h
    | some (.bool b) => intro h; simp [resourcesFrameOk, hgr] at h
    | some (.num n) => intro h; simp [resourcesFrameOk, hgr] at h
    | some (.str s) => intro h; simp [resourcesFrameOk, hgr] at h
    | some (.obj mo) => intro h; simp [resourcesFrameOk, hgr] at h
    | none => intro h; simp [resourcesFrameOk, hgr] at h
  have eg1 : (rewriteListKey root "links" m ⟨[], []⟩).1.get "images" = m.get "images" :=
    rewriteListKey_get_ne root "links" "images" m ⟨[], []⟩ (by decide)
  have ek2 : knownArrayOk (rewriteListKey root "links" m ⟨[], []⟩).1 "images" = true := by
    rw [knownArrayOk_congr m _ "images" eg1]
    exact hk2
  have eg2 : (rewriteListKey root "images" (rewriteListKey root "links" m ⟨[], []⟩).1
      (rewriteListKey root "links" m ⟨[], []⟩).2).1.get "readingOrder" =
      m.get "readingOrder" := by
    rw [rewriteListKey_get_ne root "images" "readingOrder" _ _ (by decide),
      rewriteListKey_get_ne root "links" "readingOrder" m ⟨[], []⟩ (by decide)]
  have ek3 : knownArrayOk (rewriteListKey root "images"
      (rewriteListKey root "links" m ⟨[], []⟩).1
      (rewriteListKey root "links" m ⟨[], []⟩).2).1 "readingOrder" = true := by
    rw [knownArrayOk_congr m _ "readingOrder" eg2]
    exact hk3
  have hres3 : (rewriteListKey root "readingOrder"
      (rewriteListKey root "images" (rewriteListKey root "links" m ⟨[], []⟩).1
        (rewriteListKey root "links" m ⟨[], []⟩).2).1
      (rewriteListKey root "images" (rewriteListKey root "links" m ⟨[], []⟩).1
        (rewriteListKey root "links" m ⟨[], []⟩).2).2).1.get "resources" =
      some (.arr xs) := by
    rw [rewriteListKey_get_ne root "readingOrder" "resources" _ _ (by decide),
      rewriteListKey_get_ne root "images" "resources" _ _ (by decide),
      rewriteListKey_get_ne root "links" "resources" m ⟨[], []⟩ (by decide)]
    exact hgx
  have n1 : arrsNullFreeObj (rewriteListKey root "links" m ⟨[], []⟩).1 = true :=
    arrsNullFreeObj_rewriteListKey root "links" m ⟨[], []⟩ hn
  have n2 : arrsNullFreeObj (rewriteListKey root "images"
      (rewriteListKey root "links" m ⟨[], []⟩).1
      (rewriteListKey root "links" m ⟨[], []⟩).2).1 = true :=
    arrsNullFreeObj_rewriteListKey root "images" _ _ n1
  have n3 : arrsNullFreeObj (rewriteListKey root "readingOrder"
      (rewriteListKey root "images" (rewriteListKey root "links" m ⟨[], []⟩).1
        (rewriteListKey root "links" m ⟨[], []⟩).2).1
      (rewriteListKey root "images" (rewriteListKey root "links" m ⟨[], []⟩).1
        (rewriteListKey root "links" m ⟨[], []⟩).2).2).1 = true :=
    arrsNullFreeObj_rewriteListKey root "readingOrder" _ _ n2
  have he4 : rewriteResources root
      (rewriteListKey root "readingOrder"
        (rewriteListKey root "images" (rewriteListKey root "links" m ⟨[], []⟩).1
          (rewriteListKey root "links" m ⟨[], []⟩).2).1
        (rewriteListKey root "images" (rewriteListKey root "links" m ⟨[], []⟩).1
          (rewriteListKey root "links" m ⟨[], []⟩).2).2).1
      (rewriteListKey root "readingOrder"
        (rewriteListKey root "images" (rewriteListKey root "links" m ⟨[], []⟩).1
          (rewriteListKey root "links" m ⟨[], []⟩).2).1
        (rewriteListKey root "images" (rewriteListKey root "links" m ⟨[], []⟩).1
          (rewriteListKey root "links" m ⟨[], []⟩).2).2).2 =
      some ((rewriteListKey root "readingOrder"
        (rewriteListKey root "images" (rewriteListKey root "links" m ⟨[], []⟩).1
          (rewriteListKey root "links" m ⟨[], []⟩).2).1
        (rewriteListKey root "images" (rewriteListKey root "links" m ⟨[], []⟩).1
          (rewriteListKey root "links" m ⟨[], []⟩).2).2).1.setKey "resources"
        (.arr (JArr.ofList (resourcesLoop root xs.toList
          (rewriteListKey root "readingOrder"
            (rewriteListKey root "images" (rewriteListKey root "links" m ⟨[], []⟩).1
              (rewriteListKey root "links" m ⟨[], []⟩).2).1
            (rewriteListKey root "images" (rewriteListKey root "links" m ⟨[], []⟩).1
              (rewriteListKey root "links" m ⟨[], []⟩).2).2).2).1)),
        (resourcesLoop root xs.toList
          (rewriteListKey root "readingOrder"
            (rewriteListKey root "images" (rewriteListKey root "links" m ⟨[], []⟩).1
              (rewriteListKey root "links" m ⟨[], []⟩).2).1
            (rewriteListKey root "images" (rewriteListKey root "links" m ⟨[], []⟩).1
              (rewriteListKey root "links" m ⟨[], []⟩).2).2).2).2) := by
    simp [rewriteResources, hres3, pyIter]
  have n4 := arrsNullFreeObj_rewriteResources root
    (rewriteListKey root "readingOrder"
      (rewriteListKey root "images" (rewriteListKey root "links" m ⟨[], []⟩).1
        (rewriteListKey root "links" m ⟨[], []⟩).2).1
      (rewriteListKey root "images" (rewriteListKey root "links" m ⟨[], []⟩).1
        (rewriteListKey root "links" m ⟨[], []⟩).2).2).1
    (rewriteListKey root "readingOrder"
      (rewriteListKey root "images" (rewriteListKey root "links" m ⟨[], []⟩).1
        (rewriteListKey root "links" m ⟨[], []⟩).2).1
      (rewriteListKey root "images" (rewriteListKey root "links" m ⟨[], []⟩).1
        (rewriteListKey root "links" m ⟨[], []⟩).2).2).2 xs hres3 _ _ he4 n3
  have n5 := arrsNullFreeObj_rewriteIdentifier root
    ((rewriteListKey root "readingOrder"
      (rewriteListKey root "images" (rewriteListKey root "links" m ⟨[], []⟩).1
        (rewriteListKey root "links" m ⟨[], []⟩).2).1
      (rewriteListKey root "images" (rewriteListKey root "links" m ⟨[], []⟩).1
        (rewriteListKey root "links" m ⟨[], []⟩).2).2).1.setKey "resources"
      (.arr (JArr.ofList (resourcesLoop root xs.toList
        (rewriteListKey root "readingOrder"
      (rewriteListKey root "images" (rewriteListKey root "links" m ⟨[], []⟩).1
        (rewriteListKey root "links" m ⟨[], []⟩).2).1
      (rewriteListKey root "images" (rewriteListKey root "links" m ⟨[], []⟩).1
        (rewriteListKey root "links" m ⟨[], []⟩).2).2).2).1)))
    (resourcesLoop root xs.toList
        (rewriteListKey root "readingOrder"
      (rewriteListKey root "images" (rewriteListKey root "links" m ⟨[], []⟩).1
        (rewriteListKey root "links" m ⟨[], []⟩).2).1
      (rewriteListKey root "images" (rewriteListKey root "links" m ⟨[], []⟩).1
        (rewriteListKey root "links" m ⟨[], []⟩).2).2).2).2 n4
  have s1 : specReplaceObj root (rewriteListKey root "links" m ⟨[], []⟩).1 =
      specReplaceObj root m :=
    specObj_rewriteListKey root "links" m ⟨[], []⟩ hk1
  have s2 := specObj_rewriteListKey root "images"
    (rewriteListKey root "links" m ⟨[], []⟩).1 (rewriteListKey root "links" m ⟨[], []⟩).2 ek2
  have s3 := specObj_rewriteListKey root "readingOrder"
    (rewriteListKey root "images" (rewriteListKey root "links" m ⟨[], []⟩).1
      (rewriteListKey root "links" m ⟨[], []⟩).2).1
    (rewriteListKey root "images" (rewriteListKey root "links" m ⟨[], []⟩).1
      (rewriteListKey root "links" m ⟨[], []⟩).2).2 ek3
  have s4 := specObj_rewriteResources root
    (rewriteListKey root "readingOrder"
      (rewriteListKey root "images" (rewriteListKey root "links" m ⟨[], []⟩).1
        (rewriteListKey root "links" m ⟨[], []⟩).2).1
      (rewriteListKey root "images" (rewriteListKey root "links" m ⟨[], []⟩).1
        (rewriteListKey root "links" m ⟨[], []⟩).2).2).1
    (rewriteListKey root "readingOrder"
      (rewriteListKey root "images" (rewriteListKey root "links" m ⟨[], []⟩).1
        (rewriteListKey root "links" m ⟨[], []⟩).2).1
      (rewriteListKey root "images" (rewriteListKey root "links" m ⟨[], []⟩).1
        (rewriteListKey root "links" m ⟨[], []⟩).2).2).2 xs hres3 hall _ _ he4
  have s5 := specObj_rewriteIdentifier root
    ((rewriteListKey root "readingOrder"
      (rewriteListKey root "images" (rewriteListKey root "links" m ⟨[], []⟩).1
        (rewriteListKey root "links" m ⟨[], []⟩).2).1
      (rewriteListKey root "images" (rewriteListKey root "links" m ⟨[], []⟩).1
        (rewriteListKey root "links" m ⟨[], []⟩).2).2).1.setKey "resources"
      (.arr (JArr.ofList (resourcesLoop root xs.toList
        (rewriteListKey root "readingOrder"
          (rewriteListKey root "images" (rewriteListKey root "links" m ⟨[], []⟩).1
            (rewriteListKey root "links" m ⟨[], []⟩).2).1
          (rewriteListKey root "images" (rewriteListKey root "links" m ⟨[], []⟩).1
            (rewriteListKey root "links" m ⟨[], []⟩).2).2).2).1)))
    ((resourcesLoop root xs.toList
      (rewriteListKey root "readingOrder"
        (rewriteListKey root "images" (rewriteListKey root "links" m ⟨[], []⟩).1
          (rewriteListKey root "links" m ⟨[], []⟩).2).1
        (rewriteListKey root "images" (rewriteListKey root "links" m ⟨[], []⟩).1
          (rewriteListKey root "links" m ⟨[], []⟩).2).2).2).2)
  have fin := deepReplaceObj_spec root
    (rewriteIdentifier root
      ((rewriteListKey root "readingOrder"
      (rewriteListKey root "images" (rewriteListKey root "links" m ⟨[], []⟩).1
        (rewriteListKey root "links" m ⟨[], []⟩).2).1
      (rewriteListKey root "images" (rewriteListKey root "links" m ⟨[], []⟩).1
        (rewriteListKey root "links" m ⟨[], []⟩).2).2).1.setKey "resources"
      (.arr (JArr.ofList (resourcesLoop root xs.toList
        (rewriteListKey root "readingOrder"
      (rewriteListKey root "images" (rewriteListKey root "links" m ⟨[], []⟩).1
        (rewriteListKey root "links" m ⟨[], []⟩).2).1
      (rewriteListKey root "images" (rewriteListKey root "links" m ⟨[], []⟩).1
        (rewriteListKey root "links" m ⟨[], []⟩).2).2).2).1)))
      (resourcesLoop root xs.toList
        (rewriteListKey root "readingOrder"
      (rewriteListKey root "images" (rewriteListKey root "links" m ⟨[], []⟩).1
        (rewriteListKey root "links" m ⟨[], []⟩).2).1
      (rewriteListKey root "images" (rewriteListKey root "links" m ⟨[], []⟩).1
        (rewriteListKey root "links" m ⟨[], []⟩).2).2).2).2).1
    (rewriteIdentifier root
      ((rewriteListKey root "readingOrder"
      (rewriteListKey root "images" (rewriteListKey root "links" m ⟨[], []⟩).1
        (rewriteListKey root "links" m ⟨[], []⟩).2).1
      (rewriteListKey root "images" (rewriteListKey root "links" m ⟨[], []⟩).1
        (rewriteListKey root "links" m ⟨[], []⟩).2).2).1.setKey "resources"
      (.arr (JArr.ofList (resourcesLoop root xs.toList
        (rewriteListKey root "readingOrder"
      (rewriteListKey root "images" (rewriteListKey root "links" m ⟨[], []⟩).1
        (rewriteListKey root "links" m ⟨[], []⟩).2).1
      (rewriteListKey root "images" (rewriteListKey root "links" m ⟨[], []⟩).1
        (rewriteListKey root "links" m ⟨[], []⟩).2).2).2).1)))
      (resourcesLoop root xs.toList
        (rewriteListKey root "readingOrder"
      (rewriteListKey root "images" (rewriteListKey root "links" m ⟨[], []⟩).1
        (rewriteListKey root "links" m ⟨[], []⟩).2).1
      (rewriteListKey root "images" (rewriteListKey root "links" m ⟨[], []⟩).1
        (rewriteListKey root "links" m ⟨[], []⟩).2).2).2).2).2 n5
  have hEQ : rewrite_manifest m root =
      some ((deepReplaceObj root
    (rewriteIdentifier root
      ((rewriteListKey root "readingOrder"
      (rewriteListKey root "images" (rewriteListKey root "links" m ⟨[], []⟩).1
        (rewriteListKey root "links" m ⟨[], []⟩).2).1
      (rewriteListKey root "images" (rewriteListKey root "links" m ⟨[], []⟩).1
        (rewriteListKey root "links" m ⟨[], []⟩).2).2).1.setKey "resources"
      (.arr (JArr.ofList (resourcesLoop root xs.toList
        (rewriteListKey root "readingOrder"
      (rewriteListKey root "images" (rewriteListKey root "links" m ⟨[], []⟩).1
        (rewriteListKey root "links" m ⟨[], []⟩).2).1
      (rewriteListKey root "images" (rewriteListKey root "links" m ⟨[], []⟩).1
        (rewriteListKey root "links" m ⟨[], []⟩).2).2).2).1)))
      (resourcesLoop root xs.toList
        (rewriteListKey root "readingOrder"
      (rewriteListKey root "images" (rewriteListKey root "links" m ⟨[], []⟩).1
        (rewriteListKey root "links" m ⟨[], []⟩).2).1
      (rewriteListKey root "images" (rewriteListKey root "links" m ⟨[], []⟩).1
        (rewriteListKey root "links" m ⟨[], []⟩).2).2).2).2).1
    (rewriteIdentifier root
      ((rewriteListKey root "readingOrder"
      (rewriteListKey root "images" (rewriteListKey root "links" m ⟨[], []⟩).1
        (rewriteListKey root "links" m ⟨[], []⟩).2).1
      (rewriteListKey root "images" (rewriteListKey root "links" m ⟨[], []⟩).1
        (rewriteListKey root "links" m ⟨[], []⟩).2).2).1.setKey "resources"
      (.arr (JArr.ofList (resourcesLoop root xs.toList
        (rewriteListKey root "readingOrder"
      (rewriteListKey root "images" (rewriteListKey root "links" m ⟨[], []⟩).1
        (rewriteListKey root "links" m ⟨[], []⟩).2).1
      (rewriteListKey root "images" (rewriteListKey root "links" m ⟨[], []⟩).1
        (rewriteListKey root "links" m ⟨[], []⟩).2).2).2).1)))
      (resourcesLoop root xs.toList
        (rewriteListKey root "readingOrder"
      (rewriteListKey root "images" (rewriteListKey root "links" m ⟨[], []⟩).1
        (rewriteListKey root "links" m ⟨[], []⟩).2).1
      (rewriteListKey root "images" (rewriteListKey root "links" m ⟨[], []⟩).1
        (rewriteListKey root "links" m ⟨[], []⟩).2).2).2).2).2).1,
        (deepReplaceObj root
    (rewriteIdentifier root
      ((rewriteListKey root "readingOrder"
      (rewriteListKey root "images" (rewriteListKey root "links" m ⟨[], []⟩).1
        (rewriteListKey root "links" m ⟨[], []⟩).2).1
      (rewriteListKey root "images" (rewriteListKey root "links" m ⟨[], []⟩).1
        (rewriteListKey root "links" m ⟨[], []⟩).2).2).1.setKey "resources"
      (.arr (JArr.ofList (resourcesLoop root xs.toList
        (rewriteListKey root "readingOrder"
      (rewriteListKey root "images" (rewriteListKey root "links" m ⟨[], []⟩).1
        (rewriteListKey root "links" m ⟨[], []⟩).2).1
      (rewriteListKey root "images" (rewriteListKey root "links" m ⟨[], []⟩).1
        (rewriteListKey root "links" m ⟨[], []⟩).2).2).2).1)))
      (resourcesLoop root xs.toList
        (rewriteListKey root "readingOrder"
      (rewriteListKey root "images" (rewriteListKey root "links" m ⟨[], []⟩).1
        (rewriteListKey root "links" m ⟨[], []⟩).2).1
      (rewriteListKey root "images" (rewriteListKey root "links" m ⟨[], []⟩).1
        (rewriteListKey root "links" m ⟨[], []⟩).2).2).2).2).1
    (rewriteIdentifier root
      ((rewriteListKey root "readingOrder"
      (rewriteListKey root "images" (rewriteListKey root "links" m ⟨[], []⟩).1
        (rewriteListKey root "links" m ⟨[], []⟩).2).1
      (rewriteListKey root "images" (rewriteListKey root "links" m ⟨[], []⟩).1
        (rewriteListKey root "links" m ⟨[], []⟩).2).2).1.setKey "resources"
      (.arr (JArr.ofList (resourcesLoop root xs.toList
        (rewriteListKey root "readingOrder"
      (rewriteListKey root "images" (rewriteListKey root "links" m ⟨[], []⟩).1
        (rewriteListKey root "links" m ⟨[], []⟩).2).1
      (rewriteListKey root "images" (rewriteListKey root "links" m ⟨[], []⟩).1
        (rewriteListKey root "links" m ⟨[], []⟩).2).2).2).1)))
      (resourcesLoop root xs.toList
        (rewriteListKey root "readingOrder"
      (rewriteListKey root "images" (rewriteListKey root "links" m ⟨[], []⟩).1
        (rewriteListKey root "links" m ⟨[], []⟩).2).1
      (rewriteListKey root "images" (rewriteListKey root "links" m ⟨[], []⟩).1
        (rewriteListKey root "links" m ⟨[], []⟩).2).2).2).2).2).2.changed,
        (deepReplaceObj root
    (rewriteIdentifier root
      ((rewriteListKey root "readingOrder"
      (rewriteListKey root "images" (rewriteListKey root "links" m ⟨[], []⟩).1
        (rewriteListKey root "links" m ⟨[], []⟩).2).1
      (rewriteListKey root "images" (rewriteListKey root "links" m ⟨[], []⟩).1
        (rewriteListKey root "links" m ⟨[], []⟩).2).2).1.setKey "resources"
      (.arr (JArr.ofList (resourcesLoop root xs.toList
        (rewriteListKey root "readingOrder"
      (rewriteListKey root "images" (rewriteListKey root "links" m ⟨[], []⟩).1
        (rewriteListKey root "links" m ⟨[], []⟩).2).1
      (rewriteListKey root "images" (rewriteListKey root "links" m ⟨[], []⟩).1
        (rewriteListKey root "links" m ⟨[], []⟩).2).2).2).1)))
      (resourcesLoop root xs.toList
        (rewriteListKey root "readingOrder"
      (rewriteListKey root "images" (rewriteListKey root "links" m ⟨[], []⟩).1
        (rewriteListKey root "links" m ⟨[], []⟩).2).1
      (rewriteListKey root "images" (rewriteListKey root "links" m ⟨[], []⟩).1
        (rewriteListKey root "links" m ⟨[], []⟩).2).2).2).2).1
    (rewriteIdentifier root
      ((rewriteListKey root "readingOrder"
      (rewriteListKey root "images" (rewriteListKey root "links" m ⟨[], []⟩).1
        (rewriteListKey root "links" m ⟨[], []⟩).2).1
      (rewriteListKey root "images" (rewriteListKey root "links" m ⟨[], []⟩).1
        (rewriteListKey root "links" m ⟨[], []⟩).2).2).1.setKey "resources"
      (.arr (JArr.ofList (resourcesLoop root xs.toList
        (rewriteListKey root "readingOrder"
      (rewriteListKey root "images" (rewriteListKey root "links" m ⟨[], []⟩).1
        (rewriteListKey root "links" m ⟨[], []⟩).2).1
      (rewriteListKey root "images" (rewriteListKey root "links" m ⟨[], []⟩).1
        (rewriteListKey root "links" m ⟨[], []⟩).2).2).2).1)))
      (resourcesLoop root xs.toList
        (rewriteListKey root "readingOrder"
      (rewriteListKey root "images" (rewriteListKey root "links" m ⟨[], []⟩).1
        (rewriteListKey root "links" m ⟨[], []⟩).2).1
      (rewriteListKey root "images" (rewriteListKey root "links" m ⟨[], []⟩).1
        (rewriteListKey root "links" m ⟨[], []⟩).2).2).2).2).2).2.removed) := by
    simp only [rewrite_manifest]
    rw [he4]
  refine ⟨(deepReplaceObj root
    (rewriteIdentifier root
      ((rewriteListKey root "readingOrder"
      (rewriteListKey root "images" (rewriteListKey root "links" m ⟨[], []⟩).1
        (rewriteListKey root "links" m ⟨[], []⟩).2).1
      (rewriteListKey root "images" (rewriteListKey root "links" m ⟨[], []⟩).1
        (rewriteListKey root "links" m ⟨[], []⟩).2).2).1.setKey "resources"
      (.arr (JArr.ofList (resourcesLoop root xs.toList
        (rewriteListKey root "readingOrder"
      (rewriteListKey root "images" (rewriteListKey root "links" m ⟨[], []⟩).1
        (rewriteListKey root "links" m ⟨[], []⟩).2).1
      (rewriteListKey root "images" (rewriteListKey root "links" m ⟨[], []⟩).1
        (rewriteListKey root "links" m ⟨[], []⟩).2).2).2).1)))
      (resourcesLoop root xs.toList
        (rewriteListKey root "readingOrder"
      (rewriteListKey root "images" (rewriteListKey root "links" m ⟨[], []⟩).1
        (rewriteListKey root "links" m ⟨[], []⟩).2).1
      (rewriteListKey root "images" (rewriteListKey root "links" m ⟨[], []⟩).1
        (rewriteListKey root "links" m ⟨[], []⟩).2).2).2).2).1
    (rewriteIdentifier root
      ((rewriteListKey root "readingOrder"
      (rewriteListKey root "images" (rewriteListKey root "links" m ⟨[], []⟩).1
        (rewriteListKey root "links" m ⟨[], []⟩).2).1
      (rewriteListKey root "images" (rewriteListKey root "links" m ⟨[], []⟩).1
        (rewriteListKey root "links" m ⟨[], []⟩).2).2).1.setKey "resources"
      (.arr (JArr.ofList (resourcesLoop root xs.toList
        (rewriteListKey root "readingOrder"
      (rewriteListKey root "images" (rewriteListKey root "links" m ⟨[], []⟩).1
        (rewriteListKey root "links" m ⟨[], []⟩).2).1
      (rewriteListKey root "images" (rewriteListKey root "links" m ⟨[], []⟩).1
        (rewriteListKey root "links" m ⟨[], []⟩).2).2).2).1)))
      (resourcesLoop root xs.toList
        (rewriteListKey root "readingOrder"
      (rewriteListKey root "images" (rewriteListKey root "links" m ⟨[], []⟩).1
        (rewriteListKey root "links" m ⟨[], []⟩).2).1
      (rewriteListKey root "images" (rewriteListKey root "links" m ⟨[], []⟩).1
        (rewriteListKey root "links" m ⟨[], []⟩).2).2).2).2).2).2.changed,
    (deepReplaceObj root
    (rewriteIdentifier root
      ((rewriteListKey root "readingOrder"
      (rewriteListKey root "images" (rewriteListKey root "links" m ⟨[], []⟩).1
        (rewriteListKey root "links" m ⟨[], []⟩).2).1
      (rewriteListKey root "images" (rewriteListKey root "links" m ⟨[], []⟩).1
        (rewriteListKey root "links" m ⟨[], []⟩).2).2).1.setKey "resources"
      (.arr (JArr.ofList (resourcesLoop root xs.toList
        (rewriteListKey root "readingOrder"
      (rewriteListKey root "images" (rewriteListKey root "links" m ⟨[], []⟩).1
        (rewriteListKey root "links" m ⟨[], []⟩).2).1
      (rewriteListKey root "images" (rewriteListKey root "links" m ⟨[], []⟩).1
        (rewriteListKey root "links" m ⟨[], []⟩).2).2).2).1)))
      (resourcesLoop root xs.toList
        (rewriteListKey root "readingOrder"
      (rewriteListKey root "images" (rewriteListKey root "links" m ⟨[], []⟩).1
        (rewriteListKey root "links" m ⟨[], []⟩).2).1
      (rewriteListKey root "images" (rewriteListKey root "links" m ⟨[], []⟩).1
        (rewriteListKey root "links" m ⟨[], []⟩).2).2).2).2).1
    (rewriteIdentifier root
      ((rewriteListKey root "readingOrder"
      (rewriteListKey root "images" (rewriteListKey root "links" m ⟨[], []⟩).1
        (rewriteListKey root "links" m ⟨[], []⟩).2).1
      (rewriteListKey root "images" (rewriteListKey root "links" m ⟨[], []⟩).1
        (rewriteListKey root "links" m ⟨[], []⟩).2).2).1.setKey "resources"
      (.arr (JArr.ofList (resourcesLoop root xs.toList
        (rewriteListKey root "readingOrder"
      (rewriteListKey root "images" (rewriteListKey root "links" m ⟨[], []⟩).1
        (rewriteListKey root "links" m ⟨[], []⟩).2).1
      (rewriteListKey root "images" (rewriteListKey root "links" m ⟨[], []⟩).1
        (rewriteListKey root "links" m ⟨[], []⟩).2).2).2).1)))
      (resourcesLoop root xs.toList
        (rewriteListKey root "readingOrder"
      (rewriteListKey root "images" (rewriteListKey root "links" m ⟨[], []⟩).1
        (rewriteListKey root "links" m ⟨[], []⟩).2).1
      (rewriteListKey root "images" (rewriteListKey root "links" m ⟨[], []⟩).1
        (rewriteListKey root "links" m ⟨[], []⟩).2).2).2).2).2).2.removed, ?_⟩
  rw [hEQ, fin, s5, s4, s3, s2, s1]

/-- Witness for the amended C4 statement at a concrete wellformed manifest. -/
theorem rewrite_frame_amended_witness :
    ∃ ch rm, rewrite_manifest wit1Manifest "local_www" =
      some (specReplaceObj "local_www" wit1Manifest, ch, rm) :=
  rewrite_frame_amended wit1Manifest "local_www" (by decide) (by decide) (by decide)
